import Mathlib

/-!
# Generic port (`gport2`): a shallow embedding of `src/buffer/src/gport2.c`

The port is a fixed-capacity circular buffer of `n` elements of `size` bytes
each.  The embedding keeps the byte level of the C code:

* memory blocks (`_p->v`, the caller's `_w` and `_r`) are lists of bytes, a
  pointer `q + k` into a block is the block with its first `k` bytes dropped;
* `unsigned int` arithmetic is arithmetic on `Nat` reduced modulo `2^32`
  (`u32_add`, `u32_sub`); products with `_p->size` are `size_t` products of
  two 32-bit values, which fit in 64 bits and are therefore exact;
* `memmove` returns `none` when the copy leaves one of its blocks (undefined
  behaviour in C);
* `malloc` may return `NULL`, and `gport2_create` tests neither of its two
  results: a `NULL` storage pointer is the block of no bytes, so that every
  copy of one byte or more through it leaves its block;
* everything a gate does between leaving its wait loop and unlocking
  `internal_mutex` happens while that mutex is held, so a gate call is one
  atomic step on the shared state: it either suspends in `pthread_cond_wait`
  (having set its waiting flag) or returns.
-/

namespace Liquid

/-! ## Machine arithmetic -/

/-- Number of values of a C `unsigned int` (32 bits). -/
def UINT_MOD : Nat := 4294967296

/-- The C expression `a + b` on `unsigned int`. -/
def u32_add (a b : Nat) : Nat := (a + b) % UINT_MOD

/-- The C expression `a - b` on `unsigned int` (for `a, b < 2^32`). -/
def u32_sub (a b : Nat) : Nat := (a + UINT_MOD - b) % UINT_MOD

/-! ## Data model -/

/-- The fields of `struct gport2_s`; the mutexes and condition variables are
represented by the atomicity of the steps below. -/
structure gport2 where
  v : List Nat
  n : Nat
  size : Nat
  write_index : Nat
  num_write_elements_available : Nat
  producer_waiting : Bool
  read_index : Nat
  num_read_elements_available : Nat
  consumer_waiting : Bool
deriving DecidableEq, Repr

/-- What the two `malloc` calls of `gport2_create` hand back: whether each
returned `NULL` (`p_null` for the block of the struct, `v_null` for the storage
block), and what they do not initialise: the bytes of the storage block and
the two waiting flags, which `gport2_create` never assigns. -/
structure uninit where
  p_null : Bool
  v_null : Bool
  bytes : Nat → Nat
  producer_waiting : Bool
  consumer_waiting : Bool

/-- Outcome of `gport2_create`. -/
inductive create_result where
  /-- The `exit(1)` of the input validation. -/
  | exit
  /-- The assignment `p->v = NULL` through the `NULL` that `malloc` returned
  for the struct: the result of `malloc` is not tested. -/
  | fault
  /-- The port returned. -/
  | port (p : gport2)
deriving DecidableEq

/-- The function `gport2_create`.  The result of neither `malloc` is tested:
when the storage block is not allocated the port is returned with `v == NULL`,
which is the block of no bytes (every copy of one byte or more through it
leaves its block). -/
def gport2_create (_n _size : Nat) (m : uninit) : create_result :=
  if _n = 0 then .exit
  else if _size = 0 then .exit
  else if m.p_null then .fault
  else .port
    { v := if m.v_null then [] else (List.range (_n * _size)).map m.bytes
      n := _n
      size := _size
      write_index := 0
      num_write_elements_available := _n
      producer_waiting := m.producer_waiting
      read_index := 0
      num_read_elements_available := 0
      consumer_waiting := m.consumer_waiting }

/-- The call `memmove(dst + d, src, len)`: the block `dst` afterwards, or `none`
when `len` bytes do not fit in `dst` from offset `d` or are not there in `src`. -/
def memmove (dst : List Nat) (d : Nat) (src : List Nat) (len : Nat) : Option (List Nat) :=
  if d + len ≤ dst.length ∧ len ≤ src.length then
    some (dst.take d ++ src.take len ++ dst.drop (d + len))
  else none

/-- Outcome of one gate call taken as an atomic step. -/
inductive gate_result where
  /-- The count was zero: the flag is set and the thread is suspended in
  `pthread_cond_wait`; it tests the loop condition again when it wakes. -/
  | wait (p : gport2)
  /-- The call returned: new port state, the count stored through `_np` / `_nc`,
  the caller's block afterwards, and whether `pthread_cond_signal` was called. -/
  | ret (p : gport2) (count : Nat) (buf : List Nat) (signal : Bool)
  /-- A `memmove` left its blocks. -/
  | fault
deriving DecidableEq

/-- The function `gport2_produce_available`. -/
def gport2_produce_available (_p : gport2) (_w : List Nat) (_nmax : Nat) : gate_result :=
  if _p.num_write_elements_available = 0 then
    .wait { _p with producer_waiting := true }
  else
    let n := if _p.num_write_elements_available > _nmax then _nmax
             else _p.num_write_elements_available
    let copied : Option (List Nat) :=
      if u32_add _p.write_index n > _p.n then
        let b := u32_sub _p.n _p.write_index
        (memmove _p.v (_p.write_index * _p.size) _w (b * _p.size)).bind fun v1 =>
          memmove v1 0 (_w.drop (b * _p.size)) (u32_sub n b * _p.size)
      else
        memmove _p.v (_p.write_index * _p.size) _w (n * _p.size)
    match copied with
    | none => .fault
    | some v2 =>
      .ret
        { _p with
          v := v2
          producer_waiting := false
          num_write_elements_available := u32_sub _p.num_write_elements_available n
          num_read_elements_available := u32_add _p.num_read_elements_available n
          write_index := u32_add _p.write_index n % _p.n }
        n _w _p.consumer_waiting

/-- The function `gport2_consume_available`. -/
def gport2_consume_available (_p : gport2) (_r : List Nat) (_nmax : Nat) : gate_result :=
  if _p.num_read_elements_available = 0 then
    .wait { _p with consumer_waiting := true }
  else
    let n := if _p.num_read_elements_available > _nmax then _nmax
             else _p.num_read_elements_available
    let copied : Option (List Nat) :=
      if n > u32_sub _p.n _p.read_index then
        let b := u32_sub _p.n _p.read_index
        (memmove _r 0 (_p.v.drop (_p.read_index * _p.size)) (b * _p.size)).bind fun r1 =>
          memmove r1 (b * _p.size) _p.v (u32_sub n b * _p.size)
      else
        memmove _r 0 (_p.v.drop (_p.read_index * _p.size)) (n * _p.size)
    match copied with
    | none => .fault
    | some r2 =>
      .ret
        { _p with
          consumer_waiting := false
          num_read_elements_available := u32_sub _p.num_read_elements_available n
          num_write_elements_available := u32_add _p.num_write_elements_available n
          read_index := u32_add _p.read_index n % _p.n }
        n r2 _p.producer_waiting

/-! ## The partial-transfer loops -/

/-- Local variables of an activation of `gport2_produce` / `gport2_consume`:
the caller's block (`_w` / `_r`), `num_produced_total` / `num_consumed_total`,
and the remaining count `_n`. -/
structure frame where
  buf : List Nat
  total : Nat
  remaining : Nat
deriving DecidableEq

/-- Outcome of one pass through the body of a transfer loop. -/
inductive body_result where
  | wait (p : gport2)
  | next (p : gport2) (f : frame) (count : Nat)
  | fault
deriving DecidableEq

/-- Body of the `while` loop of `gport2_produce`. -/
def gport2_produce_body (_p : gport2) (f : frame) : body_result :=
  match gport2_produce_available _p (f.buf.drop (f.total * _p.size)) f.remaining with
  | .wait p => .wait p
  | .fault => .fault
  | .ret p num_produced _ _ =>
    .next p { f with total := u32_add f.total num_produced
                     remaining := u32_sub f.remaining num_produced } num_produced

/-- Body of the `while` loop of `gport2_consume`. -/
def gport2_consume_body (_p : gport2) (f : frame) : body_result :=
  match gport2_consume_available _p (f.buf.drop (f.total * _p.size)) f.remaining with
  | .wait p => .wait p
  | .fault => .fault
  | .ret p num_consumed r2 _ =>
    .next p { buf := f.buf.take (f.total * _p.size) ++ r2
              total := u32_add f.total num_consumed
              remaining := u32_sub f.remaining num_consumed } num_consumed

/-- Outcome of a transfer loop run by a thread that is alone on the port. -/
inductive loop_result where
  /-- The function returned: port state, caller's block, gate calls made. -/
  | ret (p : gport2) (buf : List Nat) (calls : Nat)
  /-- A gate call suspended; with no other thread it is never woken. -/
  | blocked (p : gport2)
  | fault
  /-- The iteration budget of the model ran out. -/
  | fuel
deriving DecidableEq

/-- The `while (_n > 0)` loop of `gport2_produce`, at most `fuel` passes. -/
def gport2_produce_loop (fuel : Nat) (_p : gport2) (f : frame) (calls : Nat) : loop_result :=
  if f.remaining > 0 then
    match fuel with
    | 0 => .fuel
    | k + 1 =>
      match gport2_produce_body _p f with
      | .wait p => .blocked p
      | .fault => .fault
      | .next p g _ => gport2_produce_loop k p g (calls + 1)
  else .ret _p f.buf calls

/-- The `while (_n > 0)` loop of `gport2_consume`, at most `fuel` passes. -/
def gport2_consume_loop (fuel : Nat) (_p : gport2) (f : frame) (calls : Nat) : loop_result :=
  if f.remaining > 0 then
    match fuel with
    | 0 => .fuel
    | k + 1 =>
      match gport2_consume_body _p f with
      | .wait p => .blocked p
      | .fault => .fault
      | .next p g _ => gport2_consume_loop k p g (calls + 1)
  else .ret _p f.buf calls

/-- The function `gport2_produce`. -/
def gport2_produce (fuel : Nat) (_p : gport2) (_w : List Nat) (_n : Nat) : loop_result :=
  gport2_produce_loop fuel _p { buf := _w, total := 0, remaining := _n } 0

/-- The function `gport2_consume`. -/
def gport2_consume (fuel : Nat) (_p : gport2) (_r : List Nat) (_n : Nat) : loop_result :=
  gport2_consume_loop fuel _p { buf := _r, total := 0, remaining := _n } 0

/-! ## Elements, reachable states, histories -/

/-- Bytes of element number `k` of a block of `size`-byte elements. -/
def slot (size : Nat) (l : List Nat) (k : Nat) : List Nat :=
  (l.drop (k * size)).take size

/-- The elements waiting in the port, oldest first: the contents of the
`num_read_elements_available` slots from `read_index` on, taken circularly. -/
def buffered (p : gport2) : List Nat :=
  (List.range p.num_read_elements_available).flatMap
    fun i => slot p.size p.v ((p.read_index + i) % p.n)

/-- States of a port created by `gport2_create c size`: the created port, and
every state left by a gate call (returning, or suspended in its wait loop) or
by a transfer loop run to its return or to the point where it blocks. -/
inductive Reachable (c size : Nat) : gport2 → Prop where
  | create (m : uninit) (p : gport2) :
      gport2_create c size m = .port p → Reachable c size p
  | produce_available (p q : gport2) (w : List Nat) (nmax k : Nat) (b : List Nat) (s : Bool) :
      Reachable c size p → gport2_produce_available p w nmax = .ret q k b s →
      Reachable c size q
  | produce_available_wait (p q : gport2) (w : List Nat) (nmax : Nat) :
      Reachable c size p → gport2_produce_available p w nmax = .wait q →
      Reachable c size q
  | consume_available (p q : gport2) (r : List Nat) (nmax k : Nat) (b : List Nat) (s : Bool) :
      Reachable c size p → gport2_consume_available p r nmax = .ret q k b s →
      Reachable c size q
  | consume_available_wait (p q : gport2) (r : List Nat) (nmax : Nat) :
      Reachable c size p → gport2_consume_available p r nmax = .wait q →
      Reachable c size q
  | produce (p q : gport2) (fuel : Nat) (w : List Nat) (n : Nat) (b : List Nat) (calls : Nat) :
      Reachable c size p → gport2_produce fuel p w n = .ret q b calls →
      Reachable c size q
  | produce_blocked (p q : gport2) (fuel : Nat) (w : List Nat) (n : Nat) :
      Reachable c size p → gport2_produce fuel p w n = .blocked q →
      Reachable c size q
  | consume (p q : gport2) (fuel : Nat) (r : List Nat) (n : Nat) (b : List Nat) (calls : Nat) :
      Reachable c size p → gport2_consume fuel p r n = .ret q b calls →
      Reachable c size q
  | consume_blocked (p q : gport2) (fuel : Nat) (r : List Nat) (n : Nat) :
      Reachable c size p → gport2_consume fuel p r n = .blocked q →
      Reachable c size q

/-- A gate call with its arguments. -/
inductive call where
  | produce_available (_w : List Nat) (_nmax : Nat)
  | consume_available (_r : List Nat) (_nmax : Nat)
deriving DecidableEq

/-- What the callers have seen so far: the bytes of the chunks accepted by
returning `gport2_produce_available` calls and of the chunks delivered by
returning `gport2_consume_available` calls, each in call order, with the
element counts reported. -/
structure history where
  accepted : List Nat
  delivered : List Nat
  num_accepted : Nat
  num_delivered : Nat
deriving DecidableEq

/-- One gate call as an atomic step on port and history.  A call that suspends
changes the port only (its flag); `none` is a faulting call. -/
def gate_step (p : gport2) (h : history) : call → Option (gport2 × history)
  | .produce_available _w _nmax =>
    match gport2_produce_available p _w _nmax with
    | .wait q => some (q, h)
    | .fault => none
    | .ret q k _ _ =>
      some (q, { h with accepted := h.accepted ++ _w.take (k * p.size)
                        num_accepted := h.num_accepted + k })
  | .consume_available _r _nmax =>
    match gport2_consume_available p _r _nmax with
    | .wait q => some (q, h)
    | .fault => none
    | .ret q k r2 _ =>
      some (q, { h with delivered := h.delivered ++ r2.take (k * p.size)
                        num_delivered := h.num_delivered + k })

/-- A finite sequence of gate calls, each one atomic step. -/
def run : gport2 → history → List call → Option (gport2 × history)
  | p, h, [] => some (p, h)
  | p, h, c :: cs =>
    match gate_step p h c with
    | none => none
    | some (q, g) => run q g cs

/-- The result of every gate call of a sequence, in order (a faulting call
ends the sequence). -/
def results : gport2 → List call → List gate_result
  | _, [] => []
  | p, .produce_available _w _nmax :: cs =>
    match gport2_produce_available p _w _nmax with
    | .wait q => .wait q :: results q cs
    | .ret q k b s => .ret q k b s :: results q cs
    | .fault => [.fault]
  | p, .consume_available _r _nmax :: cs =>
    match gport2_consume_available p _r _nmax with
    | .wait q => .wait q :: results q cs
    | .ret q k b s => .ret q k b s :: results q cs
    | .fault => [.fault]

/-! ## A producer in `gport2_produce` interleaved with a consumer -/

/-- What the scheduler lets happen next: the thread inside `gport2_produce`
makes (or, after a wake-up, resumes) the gate call of its loop body, or the
consumer thread calls `gport2_consume_available`. -/
inductive event where
  | produce_turn
  | consume_call (_r : List Nat) (_nmax : Nat)
deriving DecidableEq

/-- Record of a returned gate call of `gport2_produce`, as observed on the
port: the port the call found when it left its wait loop, the port it left,
and the count it reported. -/
structure gate_call where
  before : gport2
  after : gport2
  count : Nat
deriving DecidableEq

/-- The port, the locals of the running `gport2_produce`, and the observations:
its returned gate calls, and the chunks delivered to the consumer. -/
structure system where
  port : gport2
  producer : frame
  calls : List gate_call
  delivered : List Nat
  num_delivered : Nat
deriving DecidableEq

/-- One scheduled event.  `none`: a faulting call, or a turn given to
`gport2_produce` after it has returned. -/
def system_step (s : system) : event → Option system
  | .produce_turn =>
    if s.producer.remaining > 0 then
      match gport2_produce_body s.port s.producer with
      | .wait q => some { s with port := q }
      | .fault => none
      | .next q f k =>
        some { s with
               port := q
               producer := f
               calls := s.calls ++ [{ before := s.port, after := q, count := k }] }
    else none
  | .consume_call _r _nmax =>
    match gport2_consume_available s.port _r _nmax with
    | .wait q => some { s with port := q }
    | .fault => none
    | .ret q k r2 _ =>
      some { s with
             port := q
             delivered := s.delivered ++ r2.take (k * s.port.size)
             num_delivered := s.num_delivered + k }

/-- An interleaving: a finite sequence of scheduled events. -/
def system_run : system → List event → Option system
  | s, [] => some s
  | s, e :: es =>
    match system_step s e with
    | none => none
    | some t => system_run t es

/-- The state in which `gport2_produce(p, _w, _n)` has just been called. -/
def system_start (p : gport2) (_w : List Nat) (_n : Nat) : system :=
  { port := p
    producer := { buf := _w, total := 0, remaining := _n }
    calls := []
    delivered := []
    num_delivered := 0 }

/-- Sum of the counts reported by the first `k` recorded gate calls. -/
def accepted_before (cs : List gate_call) (k : Nat) : Nat :=
  ((cs.take k).map gate_call.count).sum

/-! ## Invariants -/

/-- The range constraints of the data model: a positive capacity that fits
an `unsigned int`, a storage block of `n * size` bytes, both indices below the
capacity, and the two counts adding up to the capacity. -/
def WF (p : gport2) : Prop :=
  0 < p.n ∧ p.n < UINT_MOD ∧ p.v.length = p.n * p.size ∧
  p.write_index < p.n ∧ p.read_index < p.n ∧
  p.num_write_elements_available + p.num_read_elements_available = p.n

/-- A port returned by `gport2_create` with `v == NULL`, on which no element
has been transferred: the storage allocation failed, and the port is as it
was created, the flags apart. -/
def NoStorage (p : gport2) : Prop :=
  p.v = [] ∧ 0 < p.n ∧ p.n < UINT_MOD ∧ 0 < p.size ∧
  p.write_index = 0 ∧ p.read_index = 0 ∧
  p.num_write_elements_available = p.n ∧ p.num_read_elements_available = 0

/-- The write index is where the buffered elements end. -/
def Coherent (p : gport2) : Prop :=
  p.write_index = (p.read_index + p.num_read_elements_available) % p.n

/-- The port against the history of its callers: what was accepted is what was
delivered followed by what is buffered, and the indices have not run ahead
of the element counts. -/
def Inv (p : gport2) (h : history) : Prop :=
  WF p ∧ Coherent p ∧ h.accepted = h.delivered ++ buffered p ∧
  h.num_accepted = h.num_delivered + p.num_read_elements_available ∧
  p.write_index ≤ h.num_accepted ∧ p.read_index ≤ h.num_delivered

/-- The index sum of the call does not wrap in `unsigned int` arithmetic. -/
def NoWrap (p : gport2) : call → Prop
  | .produce_available _ _nmax =>
    p.write_index + min _nmax p.num_write_elements_available < UINT_MOD
  | .consume_available _ _nmax =>
    p.read_index + min _nmax p.num_read_elements_available < UINT_MOD

/-- The history of an interleaving, read off the system: what `gport2_produce`
has had accepted is the part of its block before its running total. -/
def system_history (s : system) : history :=
  { accepted := s.producer.buf.take (s.producer.total * s.port.size)
    delivered := s.delivered
    num_accepted := s.producer.total
    num_delivered := s.num_delivered }

/-- Invariant of an interleaving of `gport2_produce(p, w, count)` with a
consumer on a port of capacity `c` and element size `size`. -/
def SInv (w : List Nat) (count c size : Nat) (s : system) : Prop :=
  s.producer.buf = w ∧ s.producer.total + s.producer.remaining = count ∧
  s.port.n = c ∧ s.port.size = size ∧ Inv s.port (system_history s) ∧
  accepted_before s.calls s.calls.length = s.producer.total ∧
  ∀ k g, s.calls[k]? = some g →
    (∃ signal,
      gport2_produce_available g.before (w.drop (accepted_before s.calls k * size))
        (count - accepted_before s.calls k) =
        .ret g.after g.count (w.drop (accepted_before s.calls k * size)) signal) ∧
    1 ≤ g.count ∧ g.count ≤ count - accepted_before s.calls k

/-! ## Concrete data for the worked examples -/

/-- Uninitialised memory that happens to hold zeros, both flags clear. -/
def zeroed : uninit :=
  { p_null := false, v_null := false, bytes := fun _ => 0,
    producer_waiting := false, consumer_waiting := false }

/-- The storage allocation fails (`malloc` returns `NULL` for it). -/
def no_storage : uninit :=
  { p_null := false, v_null := true, bytes := fun _ => 0,
    producer_waiting := false, consumer_waiting := false }

/-- The port `gport2_create(4, 4)` returns when the storage allocation fails. -/
def null_4x4 : gport2 :=
  { v := [], n := 4, size := 4, write_index := 0,
    num_write_elements_available := 4, producer_waiting := false, read_index := 0,
    num_read_elements_available := 0, consumer_waiting := false }

/-- The bytes of a list of 32-bit integers (little endian, values below 256). -/
def int32s (l : List Nat) : List Nat := l.flatMap fun x => [x, 0, 0, 0]

/-- The empty history. -/
def no_history : history := { accepted := [], delivered := [], num_accepted := 0, num_delivered := 0 }

/-- The port `gport2_create(4, 4)` returns on zeroed memory. -/
def fresh_4x4 : gport2 :=
  { v := List.replicate 16 0, n := 4, size := 4, write_index := 0,
    num_write_elements_available := 4, producer_waiting := false, read_index := 0,
    num_read_elements_available := 0, consumer_waiting := false }

/-- Produce three integers, consume two, produce three more, consume four. -/
def example_calls : List call :=
  [.produce_available (int32s [1, 2, 3]) 3, .consume_available (List.replicate 8 0) 2,
   .produce_available (int32s [4, 5, 6]) 3, .consume_available (List.replicate 16 0) 4]

/-- The port after `example_calls`. -/
def example_port : gport2 :=
  { v := int32s [5, 6, 3, 4], n := 4, size := 4, write_index := 2,
    num_write_elements_available := 4, producer_waiting := false, read_index := 2,
    num_read_elements_available := 0, consumer_waiting := false }

/-- The history after `example_calls`. -/
def example_history : history :=
  { accepted := int32s [1, 2, 3, 4, 5, 6], delivered := int32s [1, 2, 3, 4, 5, 6],
    num_accepted := 6, num_delivered := 6 }

/-- The port after `gport2_produce_available` took `[1, 2, 3]` on `fresh_4x4`. -/
def example_port_123 : gport2 :=
  { v := int32s [1, 2, 3, 0], n := 4, size := 4, write_index := 3,
    num_write_elements_available := 1, producer_waiting := false, read_index := 0,
    num_read_elements_available := 3, consumer_waiting := false }

/-- The port after two elements were then consumed from `example_port_123`. -/
def example_port_3 : gport2 :=
  { v := int32s [1, 2, 3, 0], n := 4, size := 4, write_index := 3,
    num_write_elements_available := 3, producer_waiting := false, read_index := 2,
    num_read_elements_available := 1, consumer_waiting := false }

/-- The port after `[4, 5, 6]` was then produced into `example_port_3`. -/
def example_port_3456 : gport2 :=
  { v := int32s [5, 6, 3, 4], n := 4, size := 4, write_index := 2,
    num_write_elements_available := 0, producer_waiting := false, read_index := 2,
    num_read_elements_available := 4, consumer_waiting := false }

/-- A port of `c` one-byte elements whose storage holds zeros, with the given
indices and number of buffered elements, both flags clear. -/
def zero_port (c wi ri nr : Nat) : gport2 :=
  { v := List.replicate c 0, n := c, size := 1, write_index := wi,
    num_write_elements_available := c - nr, producer_waiting := false, read_index := ri,
    num_read_elements_available := nr, consumer_waiting := false }

/-- A port of capacity `2^32 - 1` with three elements buffered from slot
`2^32 - 2` on (in slots `2^32 - 2`, `0` and `1`). -/
def wrap_port : gport2 := zero_port 4294967295 2 4294967294 3

/-- An empty port of capacity `2^32 - 1` with both indices at the last
slot. -/
def wrap_port_empty : gport2 := zero_port 4294967295 4294967294 4294967294 0

/-- The fresh port of two one-byte elements on zeroed memory. -/
def fresh_2x1 : gport2 :=
  { v := [0, 0], n := 2, size := 1, write_index := 0,
    num_write_elements_available := 2, producer_waiting := false, read_index := 0,
    num_read_elements_available := 0, consumer_waiting := false }

/-- An interleaving of `gport2_produce(p, [1,2,3,4,5,6], 6)` on a port of
capacity two with a consumer: the producer fills the port, blocks, and is let
on again as the consumer drains. -/
def example_events : List event :=
  [.produce_turn, .produce_turn, .consume_call [0, 0] 2, .produce_turn, .consume_call [0] 1,
   .produce_turn, .consume_call [0, 0] 2, .produce_turn, .consume_call [0, 0, 0, 0, 0] 5]

/-- A port of two one-byte elements with the given storage, indices, number of
buffered elements and producer flag. -/
def port_2x1 (v : List Nat) (wi ri nr : Nat) (waiting : Bool) : gport2 :=
  { v := v, n := 2, size := 1, write_index := wi,
    num_write_elements_available := 2 - nr, producer_waiting := waiting, read_index := ri,
    num_read_elements_available := nr, consumer_waiting := false }

/-- The system after `example_events`. -/
def example_system : system :=
  { port := port_2x1 [5, 6] 0 0 0 false
    producer := { buf := [1, 2, 3, 4, 5, 6], total := 6, remaining := 0 }
    calls :=
      [{ before := fresh_2x1, after := port_2x1 [1, 2] 0 0 2 false, count := 2 },
       { before := port_2x1 [1, 2] 0 0 0 true, after := port_2x1 [3, 4] 0 0 2 false,
         count := 2 },
       { before := port_2x1 [3, 4] 0 1 1 false, after := port_2x1 [5, 4] 1 1 2 false,
         count := 1 },
       { before := port_2x1 [5, 4] 1 1 0 false, after := port_2x1 [5, 6] 0 1 1 false,
         count := 1 }]
    delivered := [1, 2, 3, 4, 5, 6]
    num_delivered := 6 }

/-! ## States reached without a wrapping index sum -/

/-- States reached from `gport2_create c size` by gate calls none of whose
index sums (`write_index + n`, `read_index + n`) wraps in `unsigned int`
arithmetic. -/
inductive ReachableNoWrap (c size : Nat) : gport2 → Prop where
  | create (m : uninit) (p : gport2) :
      gport2_create c size m = .port p → ReachableNoWrap c size p
  | produce_available (p q : gport2) (w : List Nat) (nmax k : Nat) (b : List Nat) (s : Bool) :
      ReachableNoWrap c size p → gport2_produce_available p w nmax = .ret q k b s →
      p.write_index + k < UINT_MOD → ReachableNoWrap c size q
  | produce_available_wait (p q : gport2) (w : List Nat) (nmax : Nat) :
      ReachableNoWrap c size p → gport2_produce_available p w nmax = .wait q →
      ReachableNoWrap c size q
  | consume_available (p q : gport2) (r : List Nat) (nmax k : Nat) (b : List Nat) (s : Bool) :
      ReachableNoWrap c size p → gport2_consume_available p r nmax = .ret q k b s →
      p.read_index + k < UINT_MOD → ReachableNoWrap c size q
  | consume_available_wait (p q : gport2) (r : List Nat) (nmax : Nat) :
      ReachableNoWrap c size p → gport2_consume_available p r nmax = .wait q →
      ReachableNoWrap c size q

/-! ## The transfer loops among other threads -/

/-- The loop of `gport2_produce` run while other threads use the port: the gate
call number `i` of the loop finds the port in state `env i p`, where `p` is the
state its caller or its previous gate call left.  A gate call that does not
get past its wait loop ends the run as `blocked`. -/
def gport2_produce_loop_env (env : Nat → gport2 → gport2) (fuel : Nat) (_p : gport2)
    (f : frame) (calls : Nat) : loop_result :=
  if f.remaining > 0 then
    match fuel with
    | 0 => .fuel
    | k + 1 =>
      match gport2_produce_body (env calls _p) f with
      | .wait p => .blocked p
      | .fault => .fault
      | .next p g _ => gport2_produce_loop_env env k p g (calls + 1)
  else .ret _p f.buf calls

/-- The loop of `gport2_consume` run while other threads use the port. -/
def gport2_consume_loop_env (env : Nat → gport2 → gport2) (fuel : Nat) (_p : gport2)
    (f : frame) (calls : Nat) : loop_result :=
  if f.remaining > 0 then
    match fuel with
    | 0 => .fuel
    | k + 1 =>
      match gport2_consume_body (env calls _p) f with
      | .wait p => .blocked p
      | .fault => .fault
      | .next p g _ => gport2_consume_loop_env env k p g (calls + 1)
  else .ret _p f.buf calls

/-! ## Threads in the gates -/

/-- Where the thread of a role that holds the role mutex is.  The role mutex
(`producer_mutex`, `consumer_mutex`) is held from the entry of a gate to its
return, also across `pthread_cond_wait`, so at most one thread of a role is
inside the gate. -/
inductive role_state where
  /-- No thread of the role is inside the gate. -/
  | idle
  /-- The thread is blocked in `pthread_cond_wait` and has not been signalled;
  the arguments of its call are kept. -/
  | suspended (buf : List Nat) (nmax : Nat)
  /-- The thread has been signalled (or woke spuriously): it is still in
  `pthread_cond_wait` until it gets `internal_mutex` back, and then tests the
  loop condition again. -/
  | woken (buf : List Nat) (nmax : Nat)
deriving DecidableEq

/-- Effect of `pthread_cond_signal` on the (at most one) waiter of a role. -/
def role_state.signalled : role_state → role_state
  | .suspended b n => .woken b n
  | s => s

/-- The port with the thread of each role. -/
structure threads where
  port : gport2
  producer : role_state
  consumer : role_state
deriving DecidableEq

/-- What the scheduler lets a thread do while it holds `internal_mutex`. -/
inductive action where
  /-- A producer thread enters `gport2_produce_available`. -/
  | produce_call (_w : List Nat) (_nmax : Nat)
  /-- The woken producer gets `internal_mutex` back and tests its loop
  condition. -/
  | produce_resume
  /-- The suspended producer wakes without a signal. -/
  | produce_spurious
  | consume_call (_r : List Nat) (_nmax : Nat)
  | consume_resume
  | consume_spurious
deriving DecidableEq

/-- The producer in the gate, from the test of its loop condition to the wait
or to the return. -/
def producer_runs (t : threads) (_w : List Nat) (_nmax : Nat) : Option threads :=
  match gport2_produce_available t.port _w _nmax with
  | .wait q => some { t with port := q, producer := .suspended _w _nmax }
  | .fault => none
  | .ret q _ _ signal =>
    some { port := q
           producer := .idle
           consumer := if signal then t.consumer.signalled else t.consumer }

/-- The consumer in the gate, from the test of its loop condition to the wait
or to the return. -/
def consumer_runs (t : threads) (_r : List Nat) (_nmax : Nat) : Option threads :=
  match gport2_consume_available t.port _r _nmax with
  | .wait q => some { t with port := q, consumer := .suspended _r _nmax }
  | .fault => none
  | .ret q _ _ signal =>
    some { port := q
           producer := if signal then t.producer.signalled else t.producer
           consumer := .idle }

/-- One step of the threads; `none` when the action is not enabled (or
faults). -/
def threads_step (t : threads) : action → Option threads
  | .produce_call _w _nmax =>
    match t.producer with
    | .idle => producer_runs t _w _nmax
    | _ => none
  | .produce_resume =>
    match t.producer with
    | .woken _w _nmax => producer_runs t _w _nmax
    | _ => none
  | .produce_spurious =>
    match t.producer with
    | .suspended _w _nmax => some { t with producer := .woken _w _nmax }
    | _ => none
  | .consume_call _r _nmax =>
    match t.consumer with
    | .idle => consumer_runs t _r _nmax
    | _ => none
  | .consume_resume =>
    match t.consumer with
    | .woken _r _nmax => consumer_runs t _r _nmax
    | _ => none
  | .consume_spurious =>
    match t.consumer with
    | .suspended _r _nmax => some { t with consumer := .woken _r _nmax }
    | _ => none

/-- An interleaving of producer-role and consumer-role threads. -/
def threads_run : threads → List action → Option threads
  | t, [] => some t
  | t, a :: as =>
    match threads_step t a with
    | none => none
    | some u => threads_run u as

/-- The threads when `gport2_create` has just returned the port. -/
def threads_start (p : gport2) : threads :=
  { port := p, producer := .idle, consumer := .idle }

/-! ## Where the elements not yet consumed lie -/

/-- The contents of the `num_read_elements_available` slots that end at the
write index, in order: slot `(write_index + num_write_elements_available + j)
mod n` for `j < num_read_elements_available`.  These are the slots into which
the producer gate put the elements that have not been consumed yet
(`run_undelivered`). -/
def undelivered (p : gport2) : List Nat :=
  (List.range p.num_read_elements_available).flatMap
    fun j => slot p.size p.v
      ((p.write_index + p.num_write_elements_available + j) % p.n)

/-- The port against the history of its callers, seen from the producer: what
was accepted beyond the number of elements delivered is in the slots that end
at the write index. -/
def Inv2 (p : gport2) (h : history) : Prop :=
  WF p ∧ 0 < p.size ∧
  h.num_accepted = h.num_delivered + p.num_read_elements_available ∧
  h.accepted.length = h.num_accepted * p.size ∧
  h.accepted.drop (h.num_delivered * p.size) = undelivered p

/-! ## Threads against the waiting flags -/

/-- A thread suspended in the wait loop of a gate has its flag set and its
count at zero. -/
def TInv (t : threads) : Prop :=
  (∀ w n, t.producer = .suspended w n →
    t.port.producer_waiting = true ∧ t.port.num_write_elements_available = 0) ∧
  (∀ r n, t.consumer = .suspended r n →
    t.port.consumer_waiting = true ∧ t.port.num_read_elements_available = 0)

/-- Each waiting flag is set exactly when a thread is inside
`pthread_cond_wait` in the gate of its role. -/
def flags_track (t : threads) : Prop :=
  (t.port.producer_waiting = true ↔ t.producer ≠ .idle) ∧
  (t.port.consumer_waiting = true ↔ t.consumer ≠ .idle)

/-- Memory from `malloc` in which the bytes of the two flags are not zero. -/
def garbage : uninit :=
  { p_null := false, v_null := false, bytes := fun _ => 0,
    producer_waiting := true, consumer_waiting := true }

/-- The port `gport2_create(4, 4)` returns on `garbage`. -/
def garbage_4x4 : gport2 :=
  { v := List.replicate 16 0, n := 4, size := 4, write_index := 0,
    num_write_elements_available := 4, producer_waiting := true, read_index := 0,
    num_read_elements_available := 0, consumer_waiting := true }

/-- The port after one integer was produced into `garbage_4x4`. -/
def garbage_4x4_1 : gport2 :=
  { v := int32s [1, 0, 0, 0], n := 4, size := 4, write_index := 1,
    num_write_elements_available := 3, producer_waiting := false, read_index := 0,
    num_read_elements_available := 1, consumer_waiting := true }

/-- The fresh port with a consumer suspended in `gport2_consume_available`. -/
def consumer_suspended_4x4 : threads :=
  { port := { fresh_4x4 with consumer_waiting := true }
    producer := .idle
    consumer := .suspended (List.replicate 8 0) 2 }
/-! ## Blocks and elements -/

theorem u32_add_eq {a b : Nat} (h : a + b < UINT_MOD) : u32_add a b = a + b := by
  unfold u32_add; exact Nat.mod_eq_of_lt h

theorem u32_sub_eq {a b : Nat} (hb : b ≤ a) (ha : a < UINT_MOD) : u32_sub a b = a - b := by
  unfold u32_sub UINT_MOD at *; omega

theorem memmove_eq_some {dst src out : List Nat} {d len : Nat}
    (h : memmove dst d src len = some out) :
    d + len ≤ dst.length ∧ len ≤ src.length ∧
      out = dst.take d ++ src.take len ++ dst.drop (d + len) := by
  unfold memmove at h
  split at h
  · rename_i hb
    exact ⟨hb.1, hb.2, (Option.some.inj h).symm⟩
  · cases h

theorem memmove_of_le {dst src : List Nat} {d len : Nat}
    (h1 : d + len ≤ dst.length) (h2 : len ≤ src.length) :
    memmove dst d src len = some (dst.take d ++ src.take len ++ dst.drop (d + len)) := by
  unfold memmove; rw [if_pos ⟨h1, h2⟩]

theorem memmove_length {dst src out : List Nat} {d len : Nat}
    (h : memmove dst d src len = some out) : out.length = dst.length := by
  obtain ⟨h1, h2, rfl⟩ := memmove_eq_some h
  simp only [List.length_append, List.length_take, List.length_drop]
  omega

theorem memmove_getElem? {dst src out : List Nat} {d len : Nat}
    (h : memmove dst d src len = some out) (i : Nat) :
    out[i]? = if i < d then dst[i]? else if i < d + len then src[i - d]? else dst[i]? := by
  obtain ⟨h1, h2, rfl⟩ := memmove_eq_some h
  have hA : (dst.take d).length = d := by rw [List.length_take]; omega
  have hB : (src.take len).length = len := by rw [List.length_take]; omega
  by_cases c1 : i < d
  · rw [if_pos c1, List.append_assoc, List.getElem?_append_left (by omega),
      List.getElem?_take_of_lt c1]
  · rw [if_neg c1, List.append_assoc, List.getElem?_append_right (by omega), hA]
    by_cases c2 : i < d + len
    · rw [if_pos c2, List.getElem?_append_left (by omega), List.getElem?_take_of_lt (by omega)]
    · rw [if_neg c2, List.getElem?_append_right (by omega), hB, List.getElem?_drop]
      congr 1; omega

theorem slot_getElem? (S : Nat) (l : List Nat) (k j : Nat) :
    (slot S l k)[j]? = if j < S then l[k * S + j]? else none := by
  unfold slot
  rw [List.getElem?_take, List.getElem?_drop]

theorem slot_drop (S : Nat) (l : List Nat) (b j : Nat) :
    slot S (l.drop (b * S)) j = slot S l (b + j) := by
  unfold slot
  rw [List.drop_drop]
  congr 2; ring

/-- Elements of the copied range come from the source. -/
theorem slot_memmove_in {S : Nat} {dst src out : List Nat} {a b s : Nat}
    (h : memmove dst (a * S) src (b * S) = some out) (h1 : a ≤ s) (h2 : s < a + b) :
    slot S out s = slot S src (s - a) := by
  apply List.ext_getElem?
  intro j
  rw [slot_getElem?, slot_getElem?, memmove_getElem? h]
  by_cases hj : j < S
  · have e1 : (s - a) * S = s * S - a * S := Nat.sub_mul s a S
    have e2 : a * S ≤ s * S := Nat.mul_le_mul_right S h1
    have e3 : (s + 1) * S ≤ (a + b) * S := Nat.mul_le_mul_right S h2
    have e4 : (s + 1) * S = s * S + S := by ring
    have e5 : (a + b) * S = a * S + b * S := by ring
    rw [if_pos hj, if_pos hj, if_neg (by omega), if_pos (by omega)]
    congr 1; omega
  · rw [if_neg hj, if_neg hj]

/-- Elements outside the copied range are untouched. -/
theorem slot_memmove_out {S : Nat} {dst src out : List Nat} {a b s : Nat}
    (h : memmove dst (a * S) src (b * S) = some out) (h1 : s < a ∨ a + b ≤ s) :
    slot S out s = slot S dst s := by
  apply List.ext_getElem?
  intro j
  rw [slot_getElem?, slot_getElem?, memmove_getElem? h]
  by_cases hj : j < S
  · rw [if_pos hj, if_pos hj]
    have e4 : (s + 1) * S = s * S + S := by ring
    have e5 : (a + b) * S = a * S + b * S := by ring
    rcases h1 with h1 | h1
    · have e3 : (s + 1) * S ≤ a * S := Nat.mul_le_mul_right S h1
      rw [if_pos (by omega)]
    · have e3 : (a + b) * S ≤ s * S := Nat.mul_le_mul_right S h1
      rw [if_neg (by omega), if_neg (by omega)]
  · rw [if_neg hj, if_neg hj]

/-- The first `k` elements of a block, as the concatenation of its slots. -/
theorem take_eq_flatMap_slot (S : Nat) (l : List Nat) (k : Nat) :
    l.take (k * S) = (List.range k).flatMap (slot S l) := by
  induction k with
  | zero => simp
  | succ k ih =>
    rw [List.range_succ, List.flatMap_append, ← ih]
    have : (k + 1) * S = k * S + S := by ring
    rw [this, List.take_add]
    simp [slot]

/-! ## What a returning gate call did -/

theorem produce_available_ret_core {p q : gport2} {w b : List Nat} {nmax k : Nat} {s : Bool}
    (h : gport2_produce_available p w nmax = .ret q k b s) :
    p.num_write_elements_available ≠ 0 ∧ k = min nmax p.num_write_elements_available ∧
    b = w ∧ s = p.consumer_waiting ∧
    ∃ v2,
      (if u32_add p.write_index k > p.n then
        (memmove p.v (p.write_index * p.size) w (u32_sub p.n p.write_index * p.size)).bind fun v1 =>
          memmove v1 0 (w.drop (u32_sub p.n p.write_index * p.size))
            (u32_sub k (u32_sub p.n p.write_index) * p.size)
       else memmove p.v (p.write_index * p.size) w (k * p.size)) = some v2 ∧
      q = { p with
            v := v2
            producer_waiting := false
            num_write_elements_available := u32_sub p.num_write_elements_available k
            num_read_elements_available := u32_add p.num_read_elements_available k
            write_index := u32_add p.write_index k % p.n } := by
  unfold gport2_produce_available at h
  split at h
  · cases h
  · rename_i h0
    simp only at h
    split at h
    · cases h
    · rename_i v2 hv
      injection h with h1 h2 h3 h4
      have hk : k = min nmax p.num_write_elements_available := by
        rw [← h2]; split <;> omega
      refine ⟨h0, hk, h3.symm, h4.symm, v2, ?_, ?_⟩
      · rw [← hv, ← h2]
      · rw [← h1, ← h2]

theorem consume_available_ret_core {p q : gport2} {r b : List Nat} {nmax k : Nat} {s : Bool}
    (h : gport2_consume_available p r nmax = .ret q k b s) :
    p.num_read_elements_available ≠ 0 ∧ k = min nmax p.num_read_elements_available ∧
    s = p.producer_waiting ∧
      (if k > u32_sub p.n p.read_index then
        (memmove r 0 (p.v.drop (p.read_index * p.size)) (u32_sub p.n p.read_index * p.size)).bind
          fun r1 => memmove r1 (u32_sub p.n p.read_index * p.size) p.v
            (u32_sub k (u32_sub p.n p.read_index) * p.size)
       else memmove r 0 (p.v.drop (p.read_index * p.size)) (k * p.size)) = some b ∧
      q = { p with
            consumer_waiting := false
            num_read_elements_available := u32_sub p.num_read_elements_available k
            num_write_elements_available := u32_add p.num_write_elements_available k
            read_index := u32_add p.read_index k % p.n } := by
  unfold gport2_consume_available at h
  split at h
  · cases h
  · rename_i h0
    simp only at h
    split at h
    · cases h
    · rename_i v2 hv
      injection h with h1 h2 h3 h4
      have hk : k = min nmax p.num_read_elements_available := by
        rw [← h2]; split <;> omega
      refine ⟨h0, hk, h4.symm, ?_, ?_⟩
      · rw [← h3, ← hv, ← h2]
      · rw [← h1, ← h2]

/-! ## Gate calls on a well-formed port -/

theorem mod_wrap {a c : Nat} (h1 : c ≤ a) (h2 : a < c + c) : a % c = a - c := by
  rw [Nat.mod_eq_sub_mod h1, Nat.mod_eq_of_lt (by omega)]

theorem bind_eq_some_elim {α β : Type} {o : Option α} {f : α → Option β} {y : β}
    (h : o.bind f = some y) : ∃ x, o = some x ∧ f x = some y := by
  cases o with
  | none => cases h
  | some x => exact ⟨x, rfl, h⟩

theorem produce_available_ret_WF {p q : gport2} {w b : List Nat} {nmax k : Nat} {s : Bool}
    (hp : WF p) (h : gport2_produce_available p w nmax = .ret q k b s) :
    WF q ∧ q.n = p.n ∧ q.size = p.size ∧ k ≤ p.num_write_elements_available ∧
    q.num_write_elements_available = p.num_write_elements_available - k ∧
    q.num_read_elements_available = p.num_read_elements_available + k ∧
    q.read_index = p.read_index := by
  obtain ⟨h0, hk, -, -, v2, hv, rfl⟩ := produce_available_ret_core h
  obtain ⟨hn0, hn, hlen, hwi, hri, hsum⟩ := hp
  have hkle : k ≤ p.num_write_elements_available := by omega
  have hlen2 : v2.length = p.v.length := by
    split at hv
    · obtain ⟨v1, e1, e2⟩ := bind_eq_some_elim hv
      rw [memmove_length e2, memmove_length e1]
    · exact memmove_length hv
  have e1 : u32_sub p.num_write_elements_available k = p.num_write_elements_available - k :=
    u32_sub_eq hkle (by omega)
  have e2 : u32_add p.num_read_elements_available k = p.num_read_elements_available + k :=
    u32_add_eq (by omega)
  refine ⟨⟨hn0, hn, ?_, ?_, hri, ?_⟩, rfl, rfl, hkle, e1, e2, rfl⟩
  · simp only; rw [hlen2, hlen]
  · exact Nat.mod_lt _ hn0
  · simp only; rw [e1, e2]; omega

theorem consume_available_ret_WF {p q : gport2} {r b : List Nat} {nmax k : Nat} {s : Bool}
    (hp : WF p) (h : gport2_consume_available p r nmax = .ret q k b s) :
    WF q ∧ q.n = p.n ∧ q.size = p.size ∧ k ≤ p.num_read_elements_available ∧
    q.num_read_elements_available = p.num_read_elements_available - k ∧
    q.num_write_elements_available = p.num_write_elements_available + k ∧
    q.write_index = p.write_index ∧ q.v = p.v := by
  obtain ⟨h0, hk, -, hv, rfl⟩ := consume_available_ret_core h
  obtain ⟨hn0, hn, hlen, hwi, hri, hsum⟩ := hp
  have hkle : k ≤ p.num_read_elements_available := by omega
  have e1 : u32_sub p.num_read_elements_available k = p.num_read_elements_available - k :=
    u32_sub_eq hkle (by omega)
  have e2 : u32_add p.num_write_elements_available k = p.num_write_elements_available + k :=
    u32_add_eq (by omega)
  refine ⟨⟨hn0, hn, hlen, hwi, ?_, ?_⟩, rfl, rfl, hkle, e1, e2, rfl, rfl⟩
  · exact Nat.mod_lt _ hn0
  · simp only; rw [e1, e2]; omega

/-- The circular write, element by element, where the index sum does not wrap. -/
theorem produce_available_ret_slots {p q : gport2} {w b : List Nat} {nmax k : Nat} {s : Bool}
    (hp : WF p) (h : gport2_produce_available p w nmax = .ret q k b s)
    (hw : p.write_index + k < UINT_MOD) :
    k * p.size ≤ w.length ∧ q.write_index = (p.write_index + k) % p.n ∧
    (∀ i, i < k → slot p.size q.v ((p.write_index + i) % p.n) = slot p.size w i) ∧
    (∀ t, (∀ i, i < k → t ≠ (p.write_index + i) % p.n) →
      slot p.size q.v t = slot p.size p.v t) := by
  obtain ⟨h0, hk, -, -, v2, hv, rfl⟩ := produce_available_ret_core h
  obtain ⟨hn0, hn, hlen, hwi, hri, hsum⟩ := hp
  have hkle : k ≤ p.num_write_elements_available := by omega
  have ea : u32_add p.write_index k = p.write_index + k := u32_add_eq hw
  have eb : u32_sub p.n p.write_index = p.n - p.write_index := u32_sub_eq (by omega) hn
  rw [ea, eb] at hv
  simp only
  refine ⟨?_, by rw [ea], ?_, ?_⟩
  · split at hv
    · rename_i hsplit
      obtain ⟨v1, e1, e2⟩ := bind_eq_some_elim hv
      have ec : u32_sub k (p.n - p.write_index) = k - (p.n - p.write_index) :=
        u32_sub_eq (by omega) (by omega)
      rw [ec] at e2
      have a1 := (memmove_eq_some e1).2.1
      have a2 := (memmove_eq_some e2).2.1
      rw [List.length_drop] at a2
      have : k * p.size = (p.n - p.write_index) * p.size + (k - (p.n - p.write_index)) * p.size := by
        rw [← Nat.add_mul]; congr 1; omega
      omega
    · exact (memmove_eq_some hv).2.1
  · intro i hi
    split at hv
    · rename_i hsplit
      obtain ⟨v1, e1, e2⟩ := bind_eq_some_elim hv
      have ec : u32_sub k (p.n - p.write_index) = k - (p.n - p.write_index) :=
        u32_sub_eq (by omega) (by omega)
      rw [ec] at e2
      have e2z : memmove v1 (0 * p.size) (w.drop ((p.n - p.write_index) * p.size))
          ((k - (p.n - p.write_index)) * p.size) = some v2 := by rw [Nat.zero_mul]; exact e2
      by_cases hc : p.write_index + i < p.n
      · rw [Nat.mod_eq_of_lt hc, slot_memmove_out e2z (Or.inr (by omega)),
          slot_memmove_in e1 (by omega) (by omega)]
        congr 1; omega
      · rw [mod_wrap (by omega) (by omega), slot_memmove_in e2z (by omega) (by omega),
          slot_drop]
        congr 1; omega
    · rename_i hsplit
      rw [Nat.mod_eq_of_lt (by omega), slot_memmove_in hv (by omega) (by omega)]
      congr 1; omega
  · intro t ht
    split at hv
    · rename_i hsplit
      obtain ⟨v1, e1, e2⟩ := bind_eq_some_elim hv
      have ec : u32_sub k (p.n - p.write_index) = k - (p.n - p.write_index) :=
        u32_sub_eq (by omega) (by omega)
      rw [ec] at e2
      have e2z : memmove v1 (0 * p.size) (w.drop ((p.n - p.write_index) * p.size))
          ((k - (p.n - p.write_index)) * p.size) = some v2 := by rw [Nat.zero_mul]; exact e2
      have c1 : ¬ (p.write_index ≤ t ∧ t < p.n) := by
        intro ⟨c1, c2⟩
        have := ht (t - p.write_index) (by omega)
        rw [Nat.mod_eq_of_lt (by omega)] at this
        omega
      have c2 : ¬ (t < k - (p.n - p.write_index)) := by
        intro c2
        have := ht (t + (p.n - p.write_index)) (by omega)
        rw [mod_wrap (by omega) (by omega)] at this
        omega
      rw [slot_memmove_out e2z (Or.inr (by omega)), slot_memmove_out e1 (by omega)]
    · rename_i hsplit
      have c1 : ¬ (p.write_index ≤ t ∧ t < p.write_index + k) := by
        intro ⟨c1, c2⟩
        have := ht (t - p.write_index) (by omega)
        rw [Nat.mod_eq_of_lt (by omega)] at this
        omega
      rw [slot_memmove_out hv (by omega)]

theorem memmove_drop {dst src out : List Nat} {d len m : Nat}
    (h : memmove dst d src len = some out) (hm : d + len ≤ m) :
    out.drop m = dst.drop m := by
  apply List.ext_getElem?
  intro i
  rw [List.getElem?_drop, List.getElem?_drop, memmove_getElem? h,
    if_neg (by omega), if_neg (by omega)]

/-- The circular read, element by element. -/
theorem consume_available_ret_slots {p q : gport2} {r b : List Nat} {nmax k : Nat} {s : Bool}
    (hp : WF p) (h : gport2_consume_available p r nmax = .ret q k b s) :
    k * p.size ≤ r.length ∧ b.length = r.length ∧
    (∀ i, i < k → slot p.size b i = slot p.size p.v ((p.read_index + i) % p.n)) ∧
    b.drop (k * p.size) = r.drop (k * p.size) := by
  obtain ⟨h0, hk, -, hv, rfl⟩ := consume_available_ret_core h
  obtain ⟨hn0, hn, hlen, hwi, hri, hsum⟩ := hp
  have hkle : k ≤ p.num_read_elements_available := by omega
  have eb : u32_sub p.n p.read_index = p.n - p.read_index := u32_sub_eq (by omega) hn
  rw [eb] at hv
  split at hv
  · rename_i hsplit
    obtain ⟨r1, e1, e2⟩ := bind_eq_some_elim hv
    have ec : u32_sub k (p.n - p.read_index) = k - (p.n - p.read_index) :=
      u32_sub_eq (by omega) (by omega)
    rw [ec] at e2
    have e1z : memmove r (0 * p.size) (p.v.drop (p.read_index * p.size))
        ((p.n - p.read_index) * p.size) = some r1 := by rw [Nat.zero_mul]; exact e1
    have hsum2 : k * p.size =
        (p.n - p.read_index) * p.size + (k - (p.n - p.read_index)) * p.size := by
      rw [← Nat.add_mul]; congr 1; omega
    have a2 := (memmove_eq_some e2).1
    rw [memmove_length e1] at a2
    refine ⟨by omega, by rw [memmove_length e2, memmove_length e1], ?_, ?_⟩
    · intro i hi
      by_cases hc : p.read_index + i < p.n
      · rw [Nat.mod_eq_of_lt hc, slot_memmove_out e2 (Or.inl (by omega)),
          slot_memmove_in e1z (by omega) (by omega), slot_drop, Nat.sub_zero]
      · rw [mod_wrap (by omega) (by omega), slot_memmove_in e2 (by omega) (by omega)]
        congr 1; omega
    · rw [memmove_drop e2 (by omega), memmove_drop e1 (by omega)]
  · rename_i hsplit
    have hvz : memmove r (0 * p.size) (p.v.drop (p.read_index * p.size))
        (k * p.size) = some b := by rw [Nat.zero_mul]; exact hv
    have a1 := (memmove_eq_some hv).1
    refine ⟨by omega, memmove_length hv, ?_, memmove_drop hv (by omega)⟩
    intro i hi
    rw [Nat.mod_eq_of_lt (by omega), slot_memmove_in hvz (by omega) (by omega), slot_drop,
      Nat.sub_zero]

theorem consume_available_ret_index {p q : gport2} {r b : List Nat} {nmax k : Nat} {s : Bool}
    (h : gport2_consume_available p r nmax = .ret q k b s)
    (hw : p.read_index + k < UINT_MOD) :
    q.read_index = (p.read_index + k) % p.n := by
  obtain ⟨h0, hk, -, hv, rfl⟩ := consume_available_ret_core h
  simp only
  rw [u32_add_eq hw]

/-! ## The buffered elements -/

theorem flatMap_range_congr {f g : Nat → List Nat} {m : Nat} (h : ∀ i, i < m → f i = g i) :
    (List.range m).flatMap f = (List.range m).flatMap g := by
  induction m with
  | zero => rfl
  | succ m ih =>
    rw [List.range_succ, List.flatMap_append, List.flatMap_append,
      ih (fun i hi => h i (by omega))]
    simp [h m (by omega)]

theorem flatMap_range_add (f : Nat → List Nat) (a b : Nat) :
    (List.range (a + b)).flatMap f =
      (List.range a).flatMap f ++ (List.range b).flatMap (fun j => f (a + j)) := by
  induction b with
  | zero => simp
  | succ b ih =>
    rw [← Nat.add_assoc, List.range_succ, List.flatMap_append, ih, List.range_succ,
      List.flatMap_append, List.append_assoc]
    simp

theorem add_mod_ne {c x i j : Nat} (hi : i < j) (hj : j < c) :
    (x + i) % c ≠ (x + j) % c := by
  intro h
  have h1 : Nat.ModEq c (x + i) (x + j) := h
  have h2 : Nat.ModEq c i j := Nat.ModEq.add_left_cancel' x h1
  have h3 : i % c = j % c := h2
  rw [Nat.mod_eq_of_lt (by omega), Nat.mod_eq_of_lt hj] at h3
  omega

/-- A returning producer gate appends the accepted chunk to the buffered
elements. -/
theorem produce_available_ret_buffered {p q : gport2} {w b : List Nat} {nmax k : Nat} {s : Bool}
    (hp : WF p) (hc : Coherent p) (h : gport2_produce_available p w nmax = .ret q k b s)
    (hw : p.write_index + k < UINT_MOD) :
    buffered q = buffered p ++ w.take (k * p.size) ∧ Coherent q := by
  obtain ⟨hq, hn, hs, hkle, hnw, hnr, hri⟩ := produce_available_ret_WF hp h
  obtain ⟨hlen, hwi, hin, hout⟩ := produce_available_ret_slots hp h hw
  obtain ⟨hn0, hnlt, hvlen, hwlt, hrlt, hsum⟩ := hp
  unfold Coherent at hc
  have hcoh : ∀ j, (p.write_index + j) % p.n =
      (p.read_index + (p.num_read_elements_available + j)) % p.n := by
    intro j
    rw [hc, Nat.mod_add_mod, Nat.add_assoc]
  constructor
  · unfold buffered
    rw [hnr, hs, hn, hri, flatMap_range_add, take_eq_flatMap_slot]
    congr 1
    · apply flatMap_range_congr
      intro i hi
      apply hout
      intro j hj
      rw [hcoh]
      exact add_mod_ne (by omega) (by omega)
    · apply flatMap_range_congr
      intro j hj
      rw [← hcoh]
      exact hin j hj
  · unfold Coherent
    rw [hwi, hri, hnr, hn, hcoh]

/-- A returning consumer gate delivers the oldest buffered elements and leaves
the others buffered. -/
theorem consume_available_ret_buffered {p q : gport2} {r b : List Nat} {nmax k : Nat} {s : Bool}
    (hp : WF p) (h : gport2_consume_available p r nmax = .ret q k b s)
    (hw : p.read_index + k < UINT_MOD) :
    buffered p = b.take (k * p.size) ++ buffered q ∧ (Coherent p → Coherent q) := by
  obtain ⟨hq, hn, hs, hkle, hnr, hnw, hwi, hv⟩ := consume_available_ret_WF hp h
  obtain ⟨hlen, hblen, hin, hdrop⟩ := consume_available_ret_slots hp h
  have hri := consume_available_ret_index h hw
  obtain ⟨hn0, hnlt, hvlen, hwlt, hrlt, hsum⟩ := hp
  constructor
  · unfold buffered
    have e : p.num_read_elements_available = k + (p.num_read_elements_available - k) := by
      omega
    rw [e, flatMap_range_add, take_eq_flatMap_slot, hnr, hs, hn, hv, hri]
    congr 1
    · apply flatMap_range_congr
      intro i hi
      exact (hin i hi).symm
    · apply flatMap_range_congr
      intro j hj
      rw [Nat.mod_add_mod, Nat.add_assoc]
  · intro hc
    unfold Coherent at *
    rw [hwi, hc, hri, hnr, hn, Nat.mod_add_mod]
    congr 1; omega

/-! ## The invariant along a sequence of gate calls -/

theorem gport2_create_eq_port {c S : Nat} {m : uninit} {p : gport2}
    (h : gport2_create c S m = .port p) :
    c ≠ 0 ∧ S ≠ 0 ∧ m.p_null = false ∧
    p = { v := if m.v_null then [] else (List.range (c * S)).map m.bytes
          n := c
          size := S
          write_index := 0
          num_write_elements_available := c
          producer_waiting := m.producer_waiting
          read_index := 0
          num_read_elements_available := 0
          consumer_waiting := m.consumer_waiting } := by
  unfold gport2_create at h
  split at h
  · cases h
  · split at h
    · cases h
    · split at h
      · cases h
      · rename_i h1 h2 h3
        injection h with h
        exact ⟨h1, h2, by simpa using h3, h.symm⟩

/-- The port `gport2_create` returns is well formed when its storage was
allocated, and without storage otherwise; in both cases empty and coherent. -/
theorem gport2_create_WF {c S : Nat} {m : uninit} {p : gport2}
    (h : gport2_create c S m = .port p) (hc : c < UINT_MOD) :
    ((m.v_null = false ∧ WF p) ∨ (m.v_null = true ∧ NoStorage p)) ∧
    Coherent p ∧ p.n = c ∧ p.size = S ∧ p.num_read_elements_available = 0 ∧
    p.write_index = 0 ∧ p.read_index = 0 := by
  obtain ⟨h1, h2, -, rfl⟩ := gport2_create_eq_port h
  refine ⟨?_, ?_, rfl, rfl, rfl, rfl, rfl⟩
  · cases hv : m.v_null with
    | false =>
      refine Or.inl ⟨rfl, Nat.pos_of_ne_zero h1, hc, ?_, Nat.pos_of_ne_zero h1,
        Nat.pos_of_ne_zero h1, rfl⟩
      simp
    | true =>
      exact Or.inr ⟨rfl, rfl, Nat.pos_of_ne_zero h1, hc, Nat.pos_of_ne_zero h2, rfl, rfl, rfl,
        rfl⟩
  · unfold Coherent; simp

theorem produce_available_wait {p q : gport2} {w : List Nat} {nmax : Nat}
    (h : gport2_produce_available p w nmax = .wait q) :
    p.num_write_elements_available = 0 ∧ q = { p with producer_waiting := true } := by
  unfold gport2_produce_available at h
  split at h
  · rename_i h0
    injection h with h1
    exact ⟨h0, h1.symm⟩
  · simp only at h
    split at h <;> cases h

theorem consume_available_wait {p q : gport2} {r : List Nat} {nmax : Nat}
    (h : gport2_consume_available p r nmax = .wait q) :
    p.num_read_elements_available = 0 ∧ q = { p with consumer_waiting := true } := by
  unfold gport2_consume_available at h
  split at h
  · rename_i h0
    injection h with h1
    exact ⟨h0, h1.symm⟩
  · simp only at h
    split at h <;> cases h

theorem Inv_producer_waiting {p : gport2} {h : history} (b : Bool) (hi : Inv p h) :
    Inv { p with producer_waiting := b } h := hi

theorem Inv_consumer_waiting {p : gport2} {h : history} (b : Bool) (hi : Inv p h) :
    Inv { p with consumer_waiting := b } h := hi

/-- One gate step keeps the invariant, where its index sum does not wrap. -/
theorem gate_step_Inv {p q : gport2} {h g : history} {c : call}
    (hi : Inv p h) (hw : NoWrap p c) (hs : gate_step p h c = some (q, g)) :
    Inv q g ∧ q.n = p.n ∧ q.size = p.size := by
  obtain ⟨hwf, hcoh, hacc, hnum, hwle, hrle⟩ := hi
  cases c with
  | produce_available w nmax =>
    unfold gate_step at hs
    simp only at hs
    split at hs
    · rename_i q1 hq
      injection hs with hs; injection hs with e1 e2
      subst e1 e2
      obtain ⟨-, rfl⟩ := produce_available_wait hq
      exact ⟨Inv_producer_waiting true ⟨hwf, hcoh, hacc, hnum, hwle, hrle⟩, rfl, rfl⟩
    · cases hs
    · rename_i q1 k b s hq
      injection hs with hs; injection hs with e1 e2
      subst e1 e2
      have hk := (produce_available_ret_core hq).2.1
      have hw2 : p.write_index + k < UINT_MOD := by rw [hk]; exact hw
      obtain ⟨hq1, hn, hsz, hkle, hnw, hnr, hri⟩ := produce_available_ret_WF hwf hq
      obtain ⟨hbuf, hcoh2⟩ := produce_available_ret_buffered hwf hcoh hq hw2
      obtain ⟨-, hwi, -, -⟩ := produce_available_ret_slots hwf hq hw2
      refine ⟨⟨hq1, hcoh2, ?_, ?_, ?_, ?_⟩, hn, hsz⟩
      · simp only; rw [hbuf, hacc, List.append_assoc]
      · simp only; rw [hnr]; omega
      · simp only; rw [hwi]
        have := Nat.mod_le (p.write_index + k) p.n
        omega
      · simp only; rw [hri]; exact hrle
  | consume_available r nmax =>
    unfold gate_step at hs
    simp only at hs
    split at hs
    · rename_i q1 hq
      injection hs with hs; injection hs with e1 e2
      subst e1 e2
      obtain ⟨-, rfl⟩ := consume_available_wait hq
      exact ⟨Inv_consumer_waiting true ⟨hwf, hcoh, hacc, hnum, hwle, hrle⟩, rfl, rfl⟩
    · cases hs
    · rename_i q1 k b s hq
      injection hs with hs; injection hs with e1 e2
      subst e1 e2
      have hk := (consume_available_ret_core hq).2.1
      have hw2 : p.read_index + k < UINT_MOD := by rw [hk]; exact hw
      obtain ⟨hq1, hn, hsz, hkle, hnr, hnw, hwi, hv⟩ := consume_available_ret_WF hwf hq
      obtain ⟨hbuf, hcoh2⟩ := consume_available_ret_buffered hwf hq hw2
      have hri := consume_available_ret_index hq hw2
      refine ⟨⟨hq1, hcoh2 hcoh, ?_, ?_, ?_, ?_⟩, hn, hsz⟩
      · simp only; rw [hacc, hbuf, List.append_assoc]
      · simp only; rw [hnr]; omega
      · simp only; rw [hwi]; exact hwle
      · simp only; rw [hri]
        have := Nat.mod_le (p.read_index + k) p.n
        omega

theorem NoWrap_of_small {p : gport2} (hp : WF p) (hs : p.n + p.n ≤ UINT_MOD) (c : call) :
    NoWrap p c := by
  obtain ⟨hn0, hnlt, hvlen, hwlt, hrlt, hsum⟩ := hp
  cases c with
  | produce_available w nmax =>
    unfold NoWrap
    have := Nat.min_le_right nmax p.num_write_elements_available
    omega
  | consume_available r nmax =>
    unfold NoWrap
    have := Nat.min_le_right nmax p.num_read_elements_available
    omega

theorem run_Inv {cs : List call} : ∀ {p q : gport2} {h g : history},
    Inv p h → p.n + p.n ≤ UINT_MOD → run p h cs = some (q, g) → Inv q g := by
  induction cs with
  | nil =>
    intro p q h g hi _ hr
    unfold run at hr
    injection hr with hr; injection hr with e1 e2
    subst e1 e2
    exact hi
  | cons c cs ih =>
    intro p q h g hi hs hr
    unfold run at hr
    split at hr
    · cases hr
    · rename_i q1 g1 hstep
      obtain ⟨hi1, hn, -⟩ := gate_step_Inv hi (NoWrap_of_small hi.1 hs c) hstep
      exact ih hi1 (by rw [hn]; exact hs) hr

/-! ## When a gate call returns -/

theorem produce_available_fault {p : gport2} {w : List Nat} {nmax : Nat}
    (h : gport2_produce_available p w nmax = .fault) :
    p.num_write_elements_available ≠ 0 ∧
    (if u32_add p.write_index (min nmax p.num_write_elements_available) > p.n then
        (memmove p.v (p.write_index * p.size) w (u32_sub p.n p.write_index * p.size)).bind fun v1 =>
          memmove v1 0 (w.drop (u32_sub p.n p.write_index * p.size))
            (u32_sub (min nmax p.num_write_elements_available)
              (u32_sub p.n p.write_index) * p.size)
       else memmove p.v (p.write_index * p.size) w
          (min nmax p.num_write_elements_available * p.size)) = none := by
  unfold gport2_produce_available at h
  split at h
  · cases h
  · rename_i h0
    simp only at h
    have hk : (if p.num_write_elements_available > nmax then nmax
        else p.num_write_elements_available) = min nmax p.num_write_elements_available := by
      split <;> omega
    rw [hk] at h
    split at h
    · rename_i hv
      exact ⟨h0, hv⟩
    · cases h

theorem consume_available_fault {p : gport2} {r : List Nat} {nmax : Nat}
    (h : gport2_consume_available p r nmax = .fault) :
    p.num_read_elements_available ≠ 0 ∧
    (if min nmax p.num_read_elements_available > u32_sub p.n p.read_index then
        (memmove r 0 (p.v.drop (p.read_index * p.size)) (u32_sub p.n p.read_index * p.size)).bind
          fun r1 => memmove r1 (u32_sub p.n p.read_index * p.size) p.v
            (u32_sub (min nmax p.num_read_elements_available)
              (u32_sub p.n p.read_index) * p.size)
       else memmove r 0 (p.v.drop (p.read_index * p.size))
          (min nmax p.num_read_elements_available * p.size)) = none := by
  unfold gport2_consume_available at h
  split at h
  · cases h
  · rename_i h0
    simp only at h
    have hk : (if p.num_read_elements_available > nmax then nmax
        else p.num_read_elements_available) = min nmax p.num_read_elements_available := by
      split <;> omega
    rw [hk] at h
    split at h
    · rename_i hv
      exact ⟨h0, hv⟩
    · cases h

/-- With a free slot, a source block holding the elements to take and an index
sum that does not wrap, the producer gate returns. -/
theorem produce_available_returns {p : gport2} {w : List Nat} {nmax : Nat}
    (hp : WF p) (h0 : p.num_write_elements_available ≠ 0)
    (hlen : min nmax p.num_write_elements_available * p.size ≤ w.length)
    (hw : p.write_index + min nmax p.num_write_elements_available < UINT_MOD) :
    ∃ q b s, gport2_produce_available p w nmax =
      .ret q (min nmax p.num_write_elements_available) b s := by
  cases hres : gport2_produce_available p w nmax with
  | wait q => exact absurd (produce_available_wait hres).1 h0
  | ret q k b s =>
    have hk := (produce_available_ret_core hres).2.1
    exact ⟨q, b, s, by rw [hk]⟩
  | fault =>
    exfalso
    obtain ⟨-, hv⟩ := produce_available_fault hres
    obtain ⟨hn0, hn, hvlen, hwi, hri, hsum⟩ := hp
    have hkle0 := Nat.min_le_right nmax p.num_write_elements_available
    generalize min nmax p.num_write_elements_available = k at *
    have hkle : k ≤ p.n := by omega
    rw [u32_add_eq hw, u32_sub_eq (by omega) hn] at hv
    split at hv
    · rename_i hsplit
      rw [u32_sub_eq (by omega) (by omega)] at hv
      have e1 : (p.n - p.write_index) * p.size + (k - (p.n - p.write_index)) * p.size
          = k * p.size := by rw [← Nat.add_mul]; congr 1; omega
      have e2 : p.write_index * p.size + (p.n - p.write_index) * p.size = p.n * p.size := by
        rw [← Nat.add_mul]; congr 1; omega
      have e3 : (k - (p.n - p.write_index)) * p.size ≤ p.n * p.size :=
        Nat.mul_le_mul_right _ (by omega)
      rw [memmove_of_le (by omega) (by omega)] at hv
      simp only [Option.some_bind] at hv
      rw [memmove_of_le (by
          simp only [List.length_append, List.length_take, List.length_drop]; omega)
        (by rw [List.length_drop]; omega)] at hv
      cases hv
    · rename_i hsplit
      have e2 : p.write_index * p.size + k * p.size ≤ p.n * p.size := by
        rw [← Nat.add_mul]; exact Nat.mul_le_mul_right _ (by omega)
      rw [memmove_of_le (by omega) hlen] at hv
      cases hv

/-- With a buffered element and a destination block that has room for the
elements to deliver, the consumer gate returns. -/
theorem consume_available_returns {p : gport2} {r : List Nat} {nmax : Nat}
    (hp : WF p) (h0 : p.num_read_elements_available ≠ 0)
    (hlen : min nmax p.num_read_elements_available * p.size ≤ r.length) :
    ∃ q b s, gport2_consume_available p r nmax =
      .ret q (min nmax p.num_read_elements_available) b s := by
  cases hres : gport2_consume_available p r nmax with
  | wait q => exact absurd (consume_available_wait hres).1 h0
  | ret q k b s =>
    have hk := (consume_available_ret_core hres).2.1
    exact ⟨q, b, s, by rw [hk]⟩
  | fault =>
    exfalso
    obtain ⟨-, hv⟩ := consume_available_fault hres
    obtain ⟨hn0, hn, hvlen, hwi, hri, hsum⟩ := hp
    have hkle0 := Nat.min_le_right nmax p.num_read_elements_available
    generalize min nmax p.num_read_elements_available = k at *
    have hkle : k ≤ p.n := by omega
    rw [u32_sub_eq (by omega) hn] at hv
    have e4 : (p.n - p.read_index) * p.size = p.n * p.size - p.read_index * p.size :=
      Nat.sub_mul _ _ _
    have e5 : p.read_index * p.size ≤ p.n * p.size := Nat.mul_le_mul_right _ (by omega)
    have e0 : (p.v.drop (p.read_index * p.size)).length
        = (p.n - p.read_index) * p.size := by
      rw [List.length_drop, hvlen, Nat.sub_mul]
    split at hv
    · rename_i hsplit
      rw [u32_sub_eq (by omega) (by omega)] at hv
      have e1 : (p.n - p.read_index) * p.size + (k - (p.n - p.read_index)) * p.size
          = k * p.size := by rw [← Nat.add_mul]; congr 1; omega
      have e3 : (k - (p.n - p.read_index)) * p.size ≤ p.n * p.size :=
        Nat.mul_le_mul_right _ (by omega)
      rw [memmove_of_le (by omega) (by omega)] at hv
      simp only [Option.some_bind] at hv
      rw [memmove_of_le (by
          simp only [List.length_append, List.length_take, List.length_drop]; omega)
        (by omega)] at hv
      cases hv
    · rename_i hsplit
      have e2 : k * p.size ≤ (p.n - p.read_index) * p.size :=
        Nat.mul_le_mul_right _ (by omega)
      rw [memmove_of_le (by omega) (by omega)] at hv
      cases hv

/-! ## The port whose storage was not allocated -/

theorem NoStorage_producer_waiting {p : gport2} (b : Bool) (hp : NoStorage p) :
    NoStorage { p with producer_waiting := b } := hp

theorem NoStorage_consumer_waiting {p : gport2} (b : Bool) (hp : NoStorage p) :
    NoStorage { p with consumer_waiting := b } := hp

/-- A port without storage is not well formed. -/
theorem NoStorage_not_WF {p : gport2} (hp : NoStorage p) : ¬ WF p := by
  intro hwf
  obtain ⟨hv, hn0, -, hs, -⟩ := hp
  have hlen := hwf.2.2.1
  rw [hv] at hlen
  have : 0 < p.n * p.size := Nat.mul_pos hn0 hs
  simp only [List.length_nil] at hlen
  omega

theorem NoStorage_Coherent {p : gport2} (hp : NoStorage p) : Coherent p := by
  obtain ⟨-, -, -, -, hwi, hri, -, hnr⟩ := hp
  unfold Coherent
  rw [hwi, hri, hnr]
  simp

/-- The producer gate never waits on a port without storage. -/
theorem NoStorage_produce_wait {p q : gport2} {w : List Nat} {nmax : Nat}
    (hp : NoStorage p) (h : gport2_produce_available p w nmax = .wait q) : False := by
  obtain ⟨-, hn0, -, -, -, -, hnw, -⟩ := hp
  have := (produce_available_wait h).1
  omega

/-- The consumer gate never returns on a port without storage. -/
theorem NoStorage_consume_ret {p q : gport2} {r b : List Nat} {nmax k : Nat} {s : Bool}
    (hp : NoStorage p) (h : gport2_consume_available p r nmax = .ret q k b s) : False :=
  (consume_available_ret_core h).1 hp.2.2.2.2.2.2.2

/-- A producer gate call that returns on a port without storage transferred no
element, having been asked for none, and changed its flag only. -/
theorem NoStorage_produce_ret {p q : gport2} {w b : List Nat} {nmax k : Nat} {s : Bool}
    (hp : NoStorage p) (h : gport2_produce_available p w nmax = .ret q k b s) :
    k = 0 ∧ nmax = 0 ∧ b = w ∧ q = { p with producer_waiting := false } := by
  obtain ⟨h0, hk, hb, -, v2, hv2, hq⟩ := produce_available_ret_core h
  obtain ⟨hv, hn0, hn, hs, hwi, hri, hnw, hnr⟩ := hp
  have hkn : k ≤ p.n := by rw [hk, hnw]; exact Nat.min_le_right _ _
  have ea : u32_add p.write_index k = k := by
    rw [hwi, u32_add_eq (by omega), Nat.zero_add]
  rw [ea, if_neg (by omega), hv, hwi] at hv2
  obtain ⟨hlen, -, hout⟩ := memmove_eq_some hv2
  simp only [List.length_nil, Nat.zero_mul, Nat.zero_add, Nat.le_zero_eq] at hlen
  have hk0 : k = 0 := by
    rcases Nat.mul_eq_zero.mp hlen with h1 | h1
    · exact h1
    · omega
  have hnmax : nmax = 0 := by
    rw [hk0, hnw] at hk
    rcases Nat.le_total nmax p.n with h1 | h1
    · rw [Nat.min_eq_left h1] at hk
      exact hk.symm
    · rw [Nat.min_eq_right h1] at hk
      omega
  refine ⟨hk0, hnmax, hb, ?_⟩
  rw [hq, hout, hk0]
  have e1 : u32_sub p.num_write_elements_available 0 = p.num_write_elements_available :=
    u32_sub_eq (Nat.zero_le _) (by omega)
  have e2 : u32_add p.num_read_elements_available 0 = p.num_read_elements_available :=
    u32_add_eq (by omega)
  have e3 : u32_add p.write_index 0 % p.n = p.write_index := by
    rw [u32_add_eq (by omega), Nat.add_zero, hwi, Nat.zero_mod]
  rw [e1, e2, e3]
  cases p
  simp only at hv
  subst hv
  simp

/-- A producer gate call asked for an element or more on a port without
storage writes through `NULL`. -/
theorem NoStorage_produce_fault {p : gport2} (w : List Nat) {nmax : Nat}
    (hp : NoStorage p) (hn : 0 < nmax) : gport2_produce_available p w nmax = .fault := by
  cases h : gport2_produce_available p w nmax with
  | wait q => exact (NoStorage_produce_wait hp h).elim
  | ret q k b s =>
    have := (NoStorage_produce_ret hp h).2.1
    omega
  | fault => rfl

/-- The consumer gate waits on a port without storage. -/
theorem NoStorage_consume_wait {p : gport2} (r : List Nat) (nmax : Nat) (hp : NoStorage p) :
    gport2_consume_available p r nmax = .wait { p with consumer_waiting := true } := by
  unfold gport2_consume_available
  rw [if_pos hp.2.2.2.2.2.2.2]

/-- A gate call on a port without storage leaves the history as it is. -/
theorem NoStorage_gate_step {p q : gport2} {h g : history} {c : call}
    (hp : NoStorage p) (hstep : gate_step p h c = some (q, g)) :
    NoStorage q ∧ q.n = p.n ∧ q.size = p.size ∧ g = h := by
  cases c with
  | produce_available w nmax =>
    simp only [gate_step] at hstep
    split at hstep
    · rename_i q1 hq
      exact (NoStorage_produce_wait hp hq).elim
    · cases hstep
    · rename_i q1 k b s hq
      obtain ⟨hk, -, -, rfl⟩ := NoStorage_produce_ret hp hq
      injection hstep with hstep
      injection hstep with e1 e2
      subst e1 e2 hk
      refine ⟨NoStorage_producer_waiting false hp, rfl, rfl, ?_⟩
      cases h
      simp
  | consume_available r nmax =>
    simp only [gate_step] at hstep
    split at hstep
    · rename_i q1 hq
      obtain ⟨-, rfl⟩ := consume_available_wait hq
      injection hstep with hstep
      injection hstep with e1 e2
      subst e1 e2
      exact ⟨NoStorage_consumer_waiting true hp, rfl, rfl, rfl⟩
    · cases hstep
    · rename_i q1 k b s hq
      exact (NoStorage_consume_ret hp hq).elim

/-- No sequence of gate calls transfers an element on a port without
storage. -/
theorem NoStorage_run {cs : List call} : ∀ {p q : gport2} {h g : history},
    NoStorage p → run p h cs = some (q, g) →
    NoStorage q ∧ q.n = p.n ∧ q.size = p.size ∧ g = h := by
  induction cs with
  | nil =>
    intro p q h g hp hr
    unfold run at hr
    injection hr with hr; injection hr with e1 e2
    subst e1 e2
    exact ⟨hp, rfl, rfl, rfl⟩
  | cons c cs ih =>
    intro p q h g hp hr
    unfold run at hr
    split at hr
    · cases hr
    · rename_i q1 g1 hstep
      obtain ⟨h1, h2, h3, rfl⟩ := NoStorage_gate_step hp hstep
      obtain ⟨h4, h5, h6, h7⟩ := ih h1 hr
      exact ⟨h4, by rw [h5, h2], by rw [h6, h3], h7⟩
/-! ## Transfer loops and reachable states -/

theorem WF_producer_waiting {p : gport2} (b : Bool) (hp : WF p) :
    WF { p with producer_waiting := b } := hp

theorem WF_consumer_waiting {p : gport2} (b : Bool) (hp : WF p) :
    WF { p with consumer_waiting := b } := hp

theorem gport2_produce_body_next {p q : gport2} {f g : frame} {k : Nat}
    (h : gport2_produce_body p f = .next q g k) :
    (∃ b s, gport2_produce_available p (f.buf.drop (f.total * p.size)) f.remaining
      = .ret q k b s) ∧
    g = { f with total := u32_add f.total k, remaining := u32_sub f.remaining k } := by
  unfold gport2_produce_body at h
  split at h
  · cases h
  · cases h
  · rename_i q1 k1 b s hq
    injection h with h1 h2 h3
    subst h1 h2 h3
    exact ⟨⟨b, s, hq⟩, rfl⟩

theorem gport2_produce_body_wait {p q : gport2} {f : frame}
    (h : gport2_produce_body p f = .wait q) :
    gport2_produce_available p (f.buf.drop (f.total * p.size)) f.remaining = .wait q := by
  unfold gport2_produce_body at h
  split at h
  · rename_i q1 hq
    injection h with h1
    subst h1
    exact hq
  · cases h
  · cases h

theorem gport2_consume_body_next {p q : gport2} {f g : frame} {k : Nat}
    (h : gport2_consume_body p f = .next q g k) :
    ∃ b s, gport2_consume_available p (f.buf.drop (f.total * p.size)) f.remaining
      = .ret q k b s ∧
    g = { buf := f.buf.take (f.total * p.size) ++ b
          total := u32_add f.total k, remaining := u32_sub f.remaining k } := by
  unfold gport2_consume_body at h
  split at h
  · cases h
  · cases h
  · rename_i q1 k1 b s hq
    injection h with h1 h2 h3
    subst h1 h2 h3
    exact ⟨b, s, hq, rfl⟩

theorem gport2_consume_body_wait {p q : gport2} {f : frame}
    (h : gport2_consume_body p f = .wait q) :
    gport2_consume_available p (f.buf.drop (f.total * p.size)) f.remaining = .wait q := by
  unfold gport2_consume_body at h
  split at h
  · rename_i q1 hq
    injection h with h1
    subst h1
    exact hq
  · cases h
  · cases h

/-- What a transfer loop leaves (returning or blocked) is well formed, with the
capacity and element size it started from. -/
theorem gport2_produce_loop_WF {fuel : Nat} : ∀ {p q : gport2} {f : frame} {calls : Nat},
    WF p →
    ((∃ b n, gport2_produce_loop fuel p f calls = .ret q b n) ∨
      gport2_produce_loop fuel p f calls = .blocked q) →
    WF q ∧ q.n = p.n ∧ q.size = p.size := by
  induction fuel with
  | zero =>
    intro p q f calls hp h
    unfold gport2_produce_loop at h
    split at h
    · rcases h with ⟨b, n, h⟩ | h <;> cases h
    · rcases h with ⟨b, n, h⟩ | h
      · injection h with h1
        subst h1
        exact ⟨hp, rfl, rfl⟩
      · cases h
  | succ fuel ih =>
    intro p q f calls hp h
    unfold gport2_produce_loop at h
    split at h
    · simp only at h
      split at h
      · rename_i q1 hb
        rcases h with ⟨b, n, h⟩ | h
        · cases h
        · injection h with h1
          subst h1
          obtain ⟨-, rfl⟩ := produce_available_wait (gport2_produce_body_wait hb)
          exact ⟨WF_producer_waiting true hp, rfl, rfl⟩
      · rcases h with ⟨b, n, h⟩ | h <;> cases h
      · rename_i q1 g k hb
        obtain ⟨⟨b, s, hg⟩, -⟩ := gport2_produce_body_next hb
        obtain ⟨hq1, hn, hs, -⟩ := produce_available_ret_WF hp hg
        obtain ⟨h1, h2, h3⟩ := ih hq1 h
        exact ⟨h1, by rw [h2, hn], by rw [h3, hs]⟩
    · rcases h with ⟨b, n, h⟩ | h
      · injection h with h1
        subst h1
        exact ⟨hp, rfl, rfl⟩
      · cases h

theorem gport2_consume_loop_WF {fuel : Nat} : ∀ {p q : gport2} {f : frame} {calls : Nat},
    WF p →
    ((∃ b n, gport2_consume_loop fuel p f calls = .ret q b n) ∨
      gport2_consume_loop fuel p f calls = .blocked q) →
    WF q ∧ q.n = p.n ∧ q.size = p.size := by
  induction fuel with
  | zero =>
    intro p q f calls hp h
    unfold gport2_consume_loop at h
    split at h
    · rcases h with ⟨b, n, h⟩ | h <;> cases h
    · rcases h with ⟨b, n, h⟩ | h
      · injection h with h1
        subst h1
        exact ⟨hp, rfl, rfl⟩
      · cases h
  | succ fuel ih =>
    intro p q f calls hp h
    unfold gport2_consume_loop at h
    split at h
    · simp only at h
      split at h
      · rename_i q1 hb
        rcases h with ⟨b, n, h⟩ | h
        · cases h
        · injection h with h1
          subst h1
          obtain ⟨-, rfl⟩ := consume_available_wait (gport2_consume_body_wait hb)
          exact ⟨WF_consumer_waiting true hp, rfl, rfl⟩
      · rcases h with ⟨b, n, h⟩ | h <;> cases h
      · rename_i q1 g k hb
        obtain ⟨b, s, hg, -⟩ := gport2_consume_body_next hb
        obtain ⟨hq1, hn, hs, -⟩ := consume_available_ret_WF hp hg
        obtain ⟨h1, h2, h3⟩ := ih hq1 h
        exact ⟨h1, by rw [h2, hn], by rw [h3, hs]⟩
    · rcases h with ⟨b, n, h⟩ | h
      · injection h with h1
        subst h1
        exact ⟨hp, rfl, rfl⟩
      · cases h

/-- What a gate call that returns or waits leaves of a port without storage. -/
theorem NoStorage_produce_ret_keeps {p q : gport2} {w b : List Nat} {nmax k : Nat} {s : Bool}
    (hp : NoStorage p) (h : gport2_produce_available p w nmax = .ret q k b s) :
    NoStorage q ∧ q.n = p.n ∧ q.size = p.size := by
  obtain ⟨-, -, -, rfl⟩ := NoStorage_produce_ret hp h
  exact ⟨NoStorage_producer_waiting false hp, rfl, rfl⟩

theorem NoStorage_consume_wait_keeps {p q : gport2} {r : List Nat} {nmax : Nat}
    (hp : NoStorage p) (h : gport2_consume_available p r nmax = .wait q) :
    NoStorage q ∧ q.n = p.n ∧ q.size = p.size := by
  obtain ⟨-, rfl⟩ := consume_available_wait h
  exact ⟨NoStorage_consumer_waiting true hp, rfl, rfl⟩

theorem gport2_produce_loop_NoStorage {fuel : Nat} :
    ∀ {p q : gport2} {f : frame} {calls : Nat},
    NoStorage p →
    ((∃ b n, gport2_produce_loop fuel p f calls = .ret q b n) ∨
      gport2_produce_loop fuel p f calls = .blocked q) →
    NoStorage q ∧ q.n = p.n ∧ q.size = p.size := by
  induction fuel with
  | zero =>
    intro p q f calls hp h
    unfold gport2_produce_loop at h
    split at h
    · rcases h with ⟨b, n, h⟩ | h <;> cases h
    · rcases h with ⟨b, n, h⟩ | h
      · injection h with h1
        subst h1
        exact ⟨hp, rfl, rfl⟩
      · cases h
  | succ fuel ih =>
    intro p q f calls hp h
    unfold gport2_produce_loop at h
    split at h
    · simp only at h
      split at h
      · rename_i q1 hb
        exact (NoStorage_produce_wait hp (gport2_produce_body_wait hb)).elim
      · rcases h with ⟨b, n, h⟩ | h <;> cases h
      · rename_i q1 g k hb
        obtain ⟨⟨b, s, hg⟩, -⟩ := gport2_produce_body_next hb
        obtain ⟨hq1, hn, hs⟩ := NoStorage_produce_ret_keeps hp hg
        obtain ⟨h1, h2, h3⟩ := ih hq1 h
        exact ⟨h1, by rw [h2, hn], by rw [h3, hs]⟩
    · rcases h with ⟨b, n, h⟩ | h
      · injection h with h1
        subst h1
        exact ⟨hp, rfl, rfl⟩
      · cases h

theorem gport2_consume_loop_NoStorage {fuel : Nat} :
    ∀ {p q : gport2} {f : frame} {calls : Nat},
    NoStorage p →
    ((∃ b n, gport2_consume_loop fuel p f calls = .ret q b n) ∨
      gport2_consume_loop fuel p f calls = .blocked q) →
    NoStorage q ∧ q.n = p.n ∧ q.size = p.size := by
  induction fuel with
  | zero =>
    intro p q f calls hp h
    unfold gport2_consume_loop at h
    split at h
    · rcases h with ⟨b, n, h⟩ | h <;> cases h
    · rcases h with ⟨b, n, h⟩ | h
      · injection h with h1
        subst h1
        exact ⟨hp, rfl, rfl⟩
      · cases h
  | succ fuel ih =>
    intro p q f calls hp h
    unfold gport2_consume_loop at h
    split at h
    · simp only at h
      split at h
      · rename_i q1 hb
        rcases h with ⟨b, n, h⟩ | h
        · cases h
        · injection h with h1
          subst h1
          exact NoStorage_consume_wait_keeps hp (gport2_consume_body_wait hb)
      · rcases h with ⟨b, n, h⟩ | h <;> cases h
      · rename_i q1 g k hb
        obtain ⟨b, s, hg, -⟩ := gport2_consume_body_next hb
        exact (NoStorage_consume_ret hp hg).elim
    · rcases h with ⟨b, n, h⟩ | h
      · injection h with h1
        subst h1
        exact ⟨hp, rfl, rfl⟩
      · cases h

/-- Every reachable state is well formed, or without storage when the
allocation failed at creation, with the capacity and element size given at
creation. -/
theorem Reachable_WF {c S : Nat} {p : gport2} (hc : c < UINT_MOD) (hr : Reachable c S p) :
    (WF p ∨ NoStorage p) ∧ p.n = c ∧ p.size = S := by
  induction hr with
  | create m p h =>
    obtain ⟨h1, -, h2, h3, -⟩ := gport2_create_WF h hc
    exact ⟨h1.imp And.right And.right, h2, h3⟩
  | produce_available p q w nmax k b s _ h ih =>
    rcases ih.1 with hwf | hns
    · obtain ⟨h1, h2, h3, -⟩ := produce_available_ret_WF hwf h
      exact ⟨Or.inl h1, by rw [h2, ih.2.1], by rw [h3, ih.2.2]⟩
    · obtain ⟨h1, h2, h3⟩ := NoStorage_produce_ret_keeps hns h
      exact ⟨Or.inr h1, by rw [h2, ih.2.1], by rw [h3, ih.2.2]⟩
  | produce_available_wait p q w nmax _ h ih =>
    obtain ⟨-, rfl⟩ := produce_available_wait h
    exact ih
  | consume_available p q r nmax k b s _ h ih =>
    rcases ih.1 with hwf | hns
    · obtain ⟨h1, h2, h3, -⟩ := consume_available_ret_WF hwf h
      exact ⟨Or.inl h1, by rw [h2, ih.2.1], by rw [h3, ih.2.2]⟩
    · exact (NoStorage_consume_ret hns h).elim
  | consume_available_wait p q r nmax _ h ih =>
    obtain ⟨-, rfl⟩ := consume_available_wait h
    exact ih
  | produce p q fuel w n b calls _ h ih =>
    rcases ih.1 with hwf | hns
    · obtain ⟨h1, h2, h3⟩ := gport2_produce_loop_WF hwf (Or.inl ⟨b, calls, h⟩)
      exact ⟨Or.inl h1, by rw [h2, ih.2.1], by rw [h3, ih.2.2]⟩
    · obtain ⟨h1, h2, h3⟩ := gport2_produce_loop_NoStorage hns (Or.inl ⟨b, calls, h⟩)
      exact ⟨Or.inr h1, by rw [h2, ih.2.1], by rw [h3, ih.2.2]⟩
  | produce_blocked p q fuel w n _ h ih =>
    rcases ih.1 with hwf | hns
    · obtain ⟨h1, h2, h3⟩ := gport2_produce_loop_WF hwf (Or.inr h)
      exact ⟨Or.inl h1, by rw [h2, ih.2.1], by rw [h3, ih.2.2]⟩
    · obtain ⟨h1, h2, h3⟩ := gport2_produce_loop_NoStorage hns (Or.inr h)
      exact ⟨Or.inr h1, by rw [h2, ih.2.1], by rw [h3, ih.2.2]⟩
  | consume p q fuel r n b calls _ h ih =>
    rcases ih.1 with hwf | hns
    · obtain ⟨h1, h2, h3⟩ := gport2_consume_loop_WF hwf (Or.inl ⟨b, calls, h⟩)
      exact ⟨Or.inl h1, by rw [h2, ih.2.1], by rw [h3, ih.2.2]⟩
    · obtain ⟨h1, h2, h3⟩ := gport2_consume_loop_NoStorage hns (Or.inl ⟨b, calls, h⟩)
      exact ⟨Or.inr h1, by rw [h2, ih.2.1], by rw [h3, ih.2.2]⟩
  | consume_blocked p q fuel r n _ h ih =>
    rcases ih.1 with hwf | hns
    · obtain ⟨h1, h2, h3⟩ := gport2_consume_loop_WF hwf (Or.inr h)
      exact ⟨Or.inl h1, by rw [h2, ih.2.1], by rw [h3, ih.2.2]⟩
    · obtain ⟨h1, h2, h3⟩ := gport2_consume_loop_NoStorage hns (Or.inr h)
      exact ⟨Or.inr h1, by rw [h2, ih.2.1], by rw [h3, ih.2.2]⟩

/-- The range constraints that hold in every reachable state, with or without
storage. -/
theorem Reachable_ranges {c S : Nat} {p : gport2} (hc : c < UINT_MOD) (hr : Reachable c S p) :
    0 < c ∧ p.n = c ∧ p.size = S ∧ p.write_index < c ∧ p.read_index < c ∧
    p.num_write_elements_available + p.num_read_elements_available = c ∧
    (p.v = [] ∨ p.v.length = c * S) := by
  obtain ⟨h, hn, hs⟩ := Reachable_WF hc hr
  rcases h with ⟨hn0, -, hlen, hwi, hri, hsum⟩ | ⟨hv, hn0, -, -, hwi, hri, hnw, hnr⟩
  · rw [hn] at hn0 hwi hri hsum hlen
    rw [hs] at hlen
    exact ⟨hn0, hn, hs, hwi, hri, hsum, Or.inr hlen⟩
  · rw [hn] at hn0 hnw
    exact ⟨hn0, hn, hs, by omega, by omega, by omega, Or.inl hv⟩

theorem Reachable_size_pos {c S : Nat} {p : gport2} (hr : Reachable c S p) : 0 < S := by
  induction hr with
  | create m p h => exact Nat.pos_of_ne_zero (gport2_create_eq_port h).2.1
  | produce_available _ _ _ _ _ _ _ _ _ ih => exact ih
  | produce_available_wait _ _ _ _ _ _ ih => exact ih
  | consume_available _ _ _ _ _ _ _ _ _ ih => exact ih
  | consume_available_wait _ _ _ _ _ _ ih => exact ih
  | produce _ _ _ _ _ _ _ _ _ ih => exact ih
  | produce_blocked _ _ _ _ _ _ _ ih => exact ih
  | consume _ _ _ _ _ _ _ _ _ ih => exact ih
  | consume_blocked _ _ _ _ _ _ _ ih => exact ih

/-- A reachable state whose storage is not `NULL` is well formed. -/
theorem Reachable_WF_of_storage {c S : Nat} {p : gport2} (hc : c < UINT_MOD)
    (hr : Reachable c S p) (hv : p.v ≠ []) : WF p ∧ p.n = c ∧ p.size = S := by
  obtain ⟨hwf | hns, hn, hs⟩ := Reachable_WF hc hr
  · exact ⟨hwf, hn, hs⟩
  · exact (hv hns.1).elim

/-- A reachable state whose storage is `NULL` is a port without storage. -/
theorem Reachable_NoStorage_of_null {c S : Nat} {p : gport2} (hc : c < UINT_MOD)
    (hr : Reachable c S p) (hv : p.v = []) : NoStorage p := by
  obtain ⟨hwf | hns, hn, hs⟩ := Reachable_WF hc hr
  · have hlen := hwf.2.2.1
    rw [hv, hn, hs] at hlen
    have h1 : 0 < c := by rw [← hn]; exact hwf.1
    have : 0 < c * S := Nat.mul_pos h1 (Reachable_size_pos hr)
    simp only [List.length_nil] at hlen
    omega
  · exact hns
/-! ## Coherence of the indices, and transfers done in one gate call -/

theorem Coherent_producer_waiting {p : gport2} (b : Bool) (hp : Coherent p) :
    Coherent { p with producer_waiting := b } := hp

theorem Coherent_consumer_waiting {p : gport2} (b : Bool) (hp : Coherent p) :
    Coherent { p with consumer_waiting := b } := hp

theorem produce_available_ret_small {p q : gport2} {w b : List Nat} {nmax k : Nat} {s : Bool}
    (hp : WF p) (hc : Coherent p) (hs : p.n + p.n ≤ UINT_MOD)
    (h : gport2_produce_available p w nmax = .ret q k b s) :
    WF q ∧ Coherent q ∧ q.n = p.n ∧ q.size = p.size := by
  obtain ⟨hq, hn, hsz, hkle, -⟩ := produce_available_ret_WF hp h
  have hw : p.write_index + k < UINT_MOD := by
    obtain ⟨-, -, -, hwi, -, hsum⟩ := hp
    omega
  exact ⟨hq, (produce_available_ret_buffered hp hc h hw).2, hn, hsz⟩

theorem consume_available_ret_small {p q : gport2} {r b : List Nat} {nmax k : Nat} {s : Bool}
    (hp : WF p) (hc : Coherent p) (hs : p.n + p.n ≤ UINT_MOD)
    (h : gport2_consume_available p r nmax = .ret q k b s) :
    WF q ∧ Coherent q ∧ q.n = p.n ∧ q.size = p.size := by
  obtain ⟨hq, hn, hsz, hkle, -⟩ := consume_available_ret_WF hp h
  have hw : p.read_index + k < UINT_MOD := by
    obtain ⟨-, -, -, -, hri, hsum⟩ := hp
    omega
  exact ⟨hq, (consume_available_ret_buffered hp h hw).2 hc, hn, hsz⟩

theorem gport2_produce_loop_small {fuel : Nat} : ∀ {p q : gport2} {f : frame} {calls : Nat},
    WF p → Coherent p → p.n + p.n ≤ UINT_MOD →
    ((∃ b n, gport2_produce_loop fuel p f calls = .ret q b n) ∨
      gport2_produce_loop fuel p f calls = .blocked q) →
    Coherent q := by
  induction fuel with
  | zero =>
    intro p q f calls hp hc hs h
    unfold gport2_produce_loop at h
    split at h
    · rcases h with ⟨b, n, h⟩ | h <;> cases h
    · rcases h with ⟨b, n, h⟩ | h
      · injection h with h1
        subst h1
        exact hc
      · cases h
  | succ fuel ih =>
    intro p q f calls hp hc hs h
    unfold gport2_produce_loop at h
    split at h
    · simp only at h
      split at h
      · rename_i q1 hb
        rcases h with ⟨b, n, h⟩ | h
        · cases h
        · injection h with h1
          subst h1
          obtain ⟨-, rfl⟩ := produce_available_wait (gport2_produce_body_wait hb)
          exact Coherent_producer_waiting true hc
      · rcases h with ⟨b, n, h⟩ | h <;> cases h
      · rename_i q1 g k hb
        obtain ⟨⟨b, s, hg⟩, -⟩ := gport2_produce_body_next hb
        obtain ⟨h1, h2, h3, -⟩ := produce_available_ret_small hp hc hs hg
        exact ih h1 h2 (by rw [h3]; exact hs) h
    · rcases h with ⟨b, n, h⟩ | h
      · injection h with h1
        subst h1
        exact hc
      · cases h

theorem gport2_consume_loop_small {fuel : Nat} : ∀ {p q : gport2} {f : frame} {calls : Nat},
    WF p → Coherent p → p.n + p.n ≤ UINT_MOD →
    ((∃ b n, gport2_consume_loop fuel p f calls = .ret q b n) ∨
      gport2_consume_loop fuel p f calls = .blocked q) →
    Coherent q := by
  induction fuel with
  | zero =>
    intro p q f calls hp hc hs h
    unfold gport2_consume_loop at h
    split at h
    · rcases h with ⟨b, n, h⟩ | h <;> cases h
    · rcases h with ⟨b, n, h⟩ | h
      · injection h with h1
        subst h1
        exact hc
      · cases h
  | succ fuel ih =>
    intro p q f calls hp hc hs h
    unfold gport2_consume_loop at h
    split at h
    · simp only at h
      split at h
      · rename_i q1 hb
        rcases h with ⟨b, n, h⟩ | h
        · cases h
        · injection h with h1
          subst h1
          obtain ⟨-, rfl⟩ := consume_available_wait (gport2_consume_body_wait hb)
          exact Coherent_consumer_waiting true hc
      · rcases h with ⟨b, n, h⟩ | h <;> cases h
      · rename_i q1 g k hb
        obtain ⟨b, s, hg, -⟩ := gport2_consume_body_next hb
        obtain ⟨h1, h2, h3, -⟩ := consume_available_ret_small hp hc hs hg
        exact ih h1 h2 (by rw [h3]; exact hs) h
    · rcases h with ⟨b, n, h⟩ | h
      · injection h with h1
        subst h1
        exact hc
      · cases h

/-- Where no index sum can wrap (`2 * c ≤ 2^32`), every reachable state has its
write index where the buffered elements end. -/
theorem Reachable_Coherent {c S : Nat} {p : gport2} (hs : c + c ≤ UINT_MOD)
    (hr : Reachable c S p) : Coherent p := by
  have hc : c < UINT_MOD := by
    cases hr0 : c with
    | zero => unfold UINT_MOD; omega
    | succ k => omega
  induction hr with
  | create m p h => exact (gport2_create_WF h hc).2.1
  | produce_available p q w nmax k b s hr h ih =>
    obtain ⟨hwf | hns, hn, -⟩ := Reachable_WF hc hr
    · exact (produce_available_ret_small hwf ih (by rw [hn]; exact hs) h).2.1
    · exact NoStorage_Coherent (NoStorage_produce_ret_keeps hns h).1
  | produce_available_wait p q w nmax _ h ih =>
    obtain ⟨-, rfl⟩ := produce_available_wait h
    exact ih
  | consume_available p q r nmax k b s hr h ih =>
    obtain ⟨hwf | hns, hn, -⟩ := Reachable_WF hc hr
    · exact (consume_available_ret_small hwf ih (by rw [hn]; exact hs) h).2.1
    · exact (NoStorage_consume_ret hns h).elim
  | consume_available_wait p q r nmax _ h ih =>
    obtain ⟨-, rfl⟩ := consume_available_wait h
    exact ih
  | produce p q fuel w n b calls hr h ih =>
    obtain ⟨hwf | hns, hn, -⟩ := Reachable_WF hc hr
    · exact gport2_produce_loop_small hwf ih (by rw [hn]; exact hs) (Or.inl ⟨b, calls, h⟩)
    · exact NoStorage_Coherent (gport2_produce_loop_NoStorage hns (Or.inl ⟨b, calls, h⟩)).1
  | produce_blocked p q fuel w n hr h ih =>
    obtain ⟨hwf | hns, hn, -⟩ := Reachable_WF hc hr
    · exact gport2_produce_loop_small hwf ih (by rw [hn]; exact hs) (Or.inr h)
    · exact NoStorage_Coherent (gport2_produce_loop_NoStorage hns (Or.inr h)).1
  | consume p q fuel r n b calls hr h ih =>
    obtain ⟨hwf | hns, hn, -⟩ := Reachable_WF hc hr
    · exact gport2_consume_loop_small hwf ih (by rw [hn]; exact hs) (Or.inl ⟨b, calls, h⟩)
    · exact NoStorage_Coherent (gport2_consume_loop_NoStorage hns (Or.inl ⟨b, calls, h⟩)).1
  | consume_blocked p q fuel r n hr h ih =>
    obtain ⟨hwf | hns, hn, -⟩ := Reachable_WF hc hr
    · exact gport2_consume_loop_small hwf ih (by rw [hn]; exact hs) (Or.inr h)
    · exact NoStorage_Coherent (gport2_consume_loop_NoStorage hns (Or.inr h)).1

/-- A transfer of no element makes no gate call. -/
theorem gport2_produce_zero (fuel : Nat) (p : gport2) (w : List Nat) :
    gport2_produce fuel p w 0 = .ret p w 0 := by
  unfold gport2_produce gport2_produce_loop
  rw [if_neg (Nat.lt_irrefl 0)]

theorem gport2_consume_zero (fuel : Nat) (p : gport2) (r : List Nat) :
    gport2_consume fuel p r 0 = .ret p r 0 := by
  unfold gport2_consume gport2_consume_loop
  rw [if_neg (Nat.lt_irrefl 0)]

/-- When the gate accepts the whole count at once, `gport2_produce` returns
after that one call. -/
theorem gport2_produce_single {p q : gport2} {w b : List Nat} {n : Nat} {s : Bool}
    (fuel : Nat) (hn : 0 < n) (hlt : n < UINT_MOD)
    (h : gport2_produce_available p w n = .ret q n b s) :
    gport2_produce (fuel + 1) p w n = .ret q w 1 := by
  have hb : gport2_produce_body p { buf := w, total := 0, remaining := n } =
      .next q { buf := w, total := u32_add 0 n, remaining := u32_sub n n } n := by
    unfold gport2_produce_body
    simp only [Nat.zero_mul, List.drop_zero, h]
  unfold gport2_produce gport2_produce_loop
  rw [if_pos hn]
  simp only [hb]
  have h0 : u32_sub n n = 0 := by rw [u32_sub_eq (Nat.le_refl n) hlt]; omega
  unfold gport2_produce_loop
  rw [if_neg (by simp only [h0]; decide)]

/-- When the gate delivers the whole count at once, `gport2_consume` returns
after that one call. -/
theorem gport2_consume_single {p q : gport2} {r b : List Nat} {n : Nat} {s : Bool}
    (fuel : Nat) (hn : 0 < n) (hlt : n < UINT_MOD)
    (h : gport2_consume_available p r n = .ret q n b s) :
    gport2_consume (fuel + 1) p r n = .ret q b 1 := by
  have hb : gport2_consume_body p { buf := r, total := 0, remaining := n } =
      .next q { buf := b, total := u32_add 0 n, remaining := u32_sub n n } n := by
    unfold gport2_consume_body
    simp only [Nat.zero_mul, List.drop_zero, List.take_zero, List.nil_append, h]
  unfold gport2_consume gport2_consume_loop
  rw [if_pos hn]
  simp only [hb]
  have h0 : u32_sub n n = 0 := by rw [u32_sub_eq (Nat.le_refl n) hlt]; omega
  unfold gport2_consume_loop
  rw [if_neg (by simp only [h0]; decide)]

/-- Round trip where no index sum can wrap: on an empty reachable port of
capacity `c` with `2 * c ≤ 2^32` whose storage was allocated, `gport2_produce` of `count ≤ c` elements
followed by `gport2_consume` of `count` elements returns after at most one gate
call each, leaves the first `count` elements of the destination equal to those
of the source (and the rest of the destination untouched), and leaves the port
empty with equal indices and `c` writable slots. -/
theorem round_trip_small (c size : Nat) (p : gport2) (w r : List Nat) (count fuel : Nat)
    (hs : c + c ≤ UINT_MOD) (hreach : Reachable c size p) (hv : p.v ≠ [])
    (hempty : p.num_read_elements_available = 0) (hcount : count ≤ c)
    (hw : count * size ≤ w.length) (hr : count * size ≤ r.length) :
    ∃ p1 p2 r2 c1 c2,
      gport2_produce (fuel + 1) p w count = .ret p1 w c1 ∧
      gport2_consume (fuel + 1) p1 r count = .ret p2 r2 c2 ∧
      r2.take (count * size) = w.take (count * size) ∧
      r2.drop (count * size) = r.drop (count * size) ∧
      p2.num_read_elements_available = 0 ∧ p2.read_index = p2.write_index ∧
      p2.num_write_elements_available = c := by
  have hc : c < UINT_MOD := by
    cases hr0 : c with
    | zero => unfold UINT_MOD; omega
    | succ k => omega
  obtain ⟨hwf, hn, hsz⟩ := Reachable_WF_of_storage hc hreach hv
  have hcoh := Reachable_Coherent hs hreach
  have hwf0 := hwf
  obtain ⟨hn0, hnlt, hvlen, hwi, hri, hsum⟩ := hwf
  have heq : p.read_index = p.write_index := by
    unfold Coherent at hcoh
    rw [hcoh, hempty, Nat.add_zero, Nat.mod_eq_of_lt hri]
  by_cases h0 : count = 0
  · subst h0
    exact ⟨p, p, r, 0, 0, gport2_produce_zero _ p w, gport2_consume_zero _ p r, by simp, by simp,
      hempty, heq, by omega⟩
  · have hmin : min count p.num_write_elements_available = count := by
      apply Nat.min_eq_left; omega
    obtain ⟨p1, b1, s1, hg1⟩ := @produce_available_returns p w count hwf0 (by omega)
      (by rw [hmin, hsz]; exact hw) (by rw [hmin]; omega)
    rw [hmin] at hg1
    have hb1 := (produce_available_ret_core hg1).2.2.1
    obtain ⟨hwf1, hn1, hsz1, -, hnw1, hnr1, hri1⟩ := produce_available_ret_WF hwf0 hg1
    obtain ⟨hbuf1, hcoh1⟩ := produce_available_ret_buffered hwf0 hcoh hg1 (by omega)
    have hmin2 : min count p1.num_read_elements_available = count := by
      apply Nat.min_eq_left; omega
    obtain ⟨p2, r2, s2, hg2⟩ := @consume_available_returns p1 r count hwf1 (by omega)
      (by rw [hmin2, hsz1, hsz]; exact hr)
    rw [hmin2] at hg2
    obtain ⟨hwf2, hn2, hsz2, -, hnr2, hnw2, hwi2, -⟩ := consume_available_ret_WF hwf1 hg2
    obtain ⟨hbuf2, hcoh2⟩ := consume_available_ret_buffered hwf1 hg2
      (by rw [hri1]; omega)
    obtain ⟨-, -, -, hdrop⟩ := consume_available_ret_slots hwf1 hg2
    have hcoh3 := hcoh2 hcoh1
    have hnr3 : p2.num_read_elements_available = 0 := by omega
    have hri2 := hwf2.2.2.2.2.1
    refine ⟨p1, p2, r2, 1, 1, gport2_produce_single fuel (by omega) (by omega) hg1,
      gport2_consume_single fuel (by omega) (by omega) hg2, ?_, ?_, hnr3, ?_, by omega⟩
    · have e1 : buffered p = [] := by simp [buffered, hempty]
      have e2 : buffered p2 = [] := by simp [buffered, hnr3]
      rw [hbuf1, e1, e2, List.append_nil, List.nil_append, hsz1, hsz] at hbuf2
      exact hbuf2.symm
    · rw [hsz1, hsz] at hdrop
      exact hdrop
    · unfold Coherent at hcoh3
      rw [hcoh3, hnr3, Nat.add_zero, Nat.mod_eq_of_lt hri2]

/-- What a returning consumer gate call does in a reachable state: it reports
`n = min _nmax r` of the `r > 0` buffered elements, copies slot
`(q + i) mod c` to destination position `i` for `i < n` (a tail part of `c - q`
elements and a part from slot `0` when `n > c - q`), moves `n` from the read to
the write count, leaves storage and write index alone, and sets `read_index`
to `((q + n) mod 2^32) mod c`, which is `(q + n) mod c` when `q + n < 2^32`. -/
theorem consume_available_mirror (c size : Nat) (p q : gport2) (r b : List Nat)
    (_nmax n : Nat) (s : Bool)
    (hc : c < UINT_MOD) (hreach : Reachable c size p)
    (hret : gport2_consume_available p r _nmax = .ret q n b s) :
    0 < p.num_read_elements_available ∧ n = min _nmax p.num_read_elements_available ∧
    (∀ i, i < n → slot size b i = slot size p.v ((p.read_index + i) % c)) ∧
    (c - p.read_index < n →
      (∀ i, i < c - p.read_index → slot size b i = slot size p.v (p.read_index + i)) ∧
      (∀ j, j < n - (c - p.read_index) →
        slot size b (c - p.read_index + j) = slot size p.v j)) ∧
    q.num_read_elements_available = p.num_read_elements_available - n ∧
    q.num_write_elements_available = p.num_write_elements_available + n ∧
    q.v = p.v ∧ q.write_index = p.write_index ∧
    q.read_index = u32_add p.read_index n % c ∧
    (p.read_index + n < UINT_MOD → q.read_index = (p.read_index + n) % c) := by
  obtain ⟨hwf, hn, hs⟩ :=
    Reachable_WF_of_storage hc hreach (fun hv =>
      NoStorage_consume_ret (Reachable_NoStorage_of_null hc hreach hv) hret)
  obtain ⟨h0, hk, -, -, hq⟩ := consume_available_ret_core hret
  obtain ⟨-, -, -, hkle, hnr, hnw, hwi, hv⟩ := consume_available_ret_WF hwf hret
  obtain ⟨-, -, hin, -⟩ := consume_available_ret_slots hwf hret
  rw [hn, hs] at hin
  have hri : p.read_index < c := by rw [← hn]; exact hwf.2.2.2.2.1
  have hnle : n ≤ c := by
    have h2 := hwf.2.2.2.2.2
    omega
  refine ⟨Nat.pos_of_ne_zero h0, hk, hin, ?_, hnr, hnw, hv, hwi, ?_, ?_⟩
  · intro hsplit
    constructor
    · intro i hi
      have := hin i (by omega)
      rwa [Nat.mod_eq_of_lt (by omega)] at this
    · intro j hj
      have := hin (c - p.read_index + j) (by omega)
      rw [mod_wrap (by omega) (by omega)] at this
      rw [this]
      congr 1; omega
  · rw [hq, hn]
  · intro hw
    rw [consume_available_ret_index hret hw, hn]

theorem append_eq_split {x y l : List Nat} {k : Nat} (h : l = x ++ y) (hk : x.length = k) :
    x = l.take k ∧ y = l.drop k := by
  subst h hk
  simp

/-- The scenario of the specification, for any contents of the uninitialised
storage (when it was allocated) and of the destination blocks: on a fresh port of four 4-byte elements,
produce `[1,2,3]`, consume 2, produce `[4,5,6]`, consume 4; each transfer
returns after one gate call, and the consumer receives `[1,2]` and then
`[3,4,5,6]`. -/
theorem wraparound_scenario (m : uninit) (p0 : gport2) (r1 r2 : List Nat)
    (hcreate : gport2_create 4 4 m = .port p0) (hv : m.v_null = false)
    (h1 : r1.length = 8) (h2 : r2.length = 16) :
    ∃ p1 p2 p3 p4,
      gport2_produce 3 p0 (int32s [1, 2, 3]) 3 = .ret p1 (int32s [1, 2, 3]) 1 ∧
      gport2_consume 2 p1 r1 2 = .ret p2 (int32s [1, 2]) 1 ∧
      gport2_produce 3 p2 (int32s [4, 5, 6]) 3 = .ret p3 (int32s [4, 5, 6]) 1 ∧
      gport2_consume 4 p3 r2 4 = .ret p4 (int32s [3, 4, 5, 6]) 1 := by
  have hU : UINT_MOD = 4294967296 := rfl
  obtain ⟨hwf0, hcoh0, hn0, hs0, hnr0, hwi0, hri0⟩ := gport2_create_WF hcreate (by decide)
  have hwf0 : WF p0 := by
    rcases hwf0 with ⟨-, h⟩ | ⟨h, -⟩
    · exact h
    · rw [hv] at h
      cases h
  have hb0 : buffered p0 = [] := by simp [buffered, hnr0]
  have hnw0 := hwf0.2.2.2.2.2
  -- produce [1,2,3]
  have hm1 : min 3 p0.num_write_elements_available = 3 := by apply Nat.min_eq_left; omega
  obtain ⟨p1, b1, s1, hg1⟩ := @produce_available_returns p0 (int32s [1, 2, 3]) 3 hwf0
    (by omega) (by rw [hm1, hs0]; decide) (by rw [hm1]; omega)
  rw [hm1] at hg1
  obtain ⟨hwf1, hn1, hs1, -, hnw1, hnr1, hri1⟩ := produce_available_ret_WF hwf0 hg1
  obtain ⟨hbuf1, hcoh1⟩ := produce_available_ret_buffered hwf0 hcoh0 hg1 (by omega)
  rw [hb0, hs0, List.nil_append] at hbuf1
  -- consume 2
  have hm2 : min 2 p1.num_read_elements_available = 2 := by apply Nat.min_eq_left; omega
  obtain ⟨p2, b2, s2, hg2⟩ := @consume_available_returns p1 r1 2 hwf1
    (by omega) (by rw [hm2, hs1, hs0, h1])
  rw [hm2] at hg2
  obtain ⟨hwf2, hn2, hs2, -, hnr2, hnw2, hwi2, -⟩ := consume_available_ret_WF hwf1 hg2
  have hri1lt := hwf1.2.2.2.2.1
  obtain ⟨hbuf2, hcoh2⟩ := consume_available_ret_buffered hwf1 hg2 (by omega)
  obtain ⟨-, hlen2, -, -⟩ := consume_available_ret_slots hwf1 hg2
  have ht2 : List.take (2 * 4) b2 = b2 := List.take_of_length_le (by rw [hlen2, h1])
  rw [hbuf1, hs1, hs0, ht2] at hbuf2
  obtain ⟨hb2, hbuf2⟩ := append_eq_split hbuf2 (hlen2.trans h1)
  have hb2v : b2 = int32s [1, 2] := by rw [hb2]; decide
  have hbuf2v : buffered p2 = int32s [3] := by rw [hbuf2]; decide
  subst hb2v
  -- produce [4,5,6]
  have hm3 : min 3 p2.num_write_elements_available = 3 := by apply Nat.min_eq_left; omega
  have hwi2lt := hwf2.2.2.2.1
  obtain ⟨p3, b3, s3, hg3⟩ := @produce_available_returns p2 (int32s [4, 5, 6]) 3 hwf2
    (by omega) (by rw [hm3, hs2, hs1, hs0]; decide) (by rw [hm3]; omega)
  rw [hm3] at hg3
  obtain ⟨hwf3, hn3, hs3, -, hnw3, hnr3, hri3⟩ := produce_available_ret_WF hwf2 hg3
  obtain ⟨hbuf3, hcoh3⟩ := produce_available_ret_buffered hwf2 (hcoh2 hcoh1) hg3 (by omega)
  rw [hbuf2v, hs2, hs1, hs0] at hbuf3
  -- consume 4
  have hm4 : min 4 p3.num_read_elements_available = 4 := by apply Nat.min_eq_left; omega
  obtain ⟨p4, b4, s4, hg4⟩ := @consume_available_returns p3 r2 4 hwf3
    (by omega) (by rw [hm4, hs3, hs2, hs1, hs0, h2])
  rw [hm4] at hg4
  have hri3lt := hwf3.2.2.2.2.1
  obtain ⟨hbuf4, -⟩ := consume_available_ret_buffered hwf3 hg4 (by omega)
  obtain ⟨-, hlen4, -, -⟩ := consume_available_ret_slots hwf3 hg4
  have ht4 : List.take (4 * 4) b4 = b4 := List.take_of_length_le (by rw [hlen4, h2])
  rw [hbuf3, hs3, hs2, hs1, hs0, ht4] at hbuf4
  obtain ⟨hb4, -⟩ := append_eq_split hbuf4 (hlen4.trans h2)
  have hb4v : b4 = int32s [3, 4, 5, 6] := by rw [hb4]; decide
  subst hb4v
  exact ⟨p1, p2, p3, p4,
    gport2_produce_single 2 (by decide) (by decide) hg1,
    gport2_consume_single 1 (by decide) (by decide) hg2,
    gport2_produce_single 2 (by decide) (by decide) hg3,
    gport2_consume_single 3 (by decide) (by decide) hg4⟩

/-! ## Ports of the largest capacities -/

theorem memmove_zeros {a b d len : Nat} {out : List Nat}
    (h : memmove (List.replicate a 0) d (List.replicate b 0) len = some out) :
    out = List.replicate a 0 := by
  obtain ⟨h1, h2, -⟩ := memmove_eq_some h
  rw [List.length_replicate] at h1 h2
  apply List.ext_getElem?
  intro i
  rw [memmove_getElem? h]
  simp only [List.getElem?_replicate]
  split
  · rfl
  · split
    · rw [if_pos (by omega), if_pos (by omega)]
    · rfl

theorem zero_port_WF {c wi ri nr : Nat} (hc0 : 0 < c) (hc : c < UINT_MOD)
    (hwi : wi < c) (hri : ri < c) (hnr : nr ≤ c) : WF (zero_port c wi ri nr) := by
  refine ⟨hc0, hc, ?_, hwi, hri, ?_⟩
  · simp [zero_port]
  · simp only [zero_port]; omega

theorem gport2_create_zeroed {c : Nat} (hc0 : c ≠ 0) :
    gport2_create c 1 zeroed = .port (zero_port c 0 0 0) := by
  unfold gport2_create
  rw [if_neg hc0, if_neg (by decide)]
  simp [zero_port, zeroed]

/-- The producer gate on a port of zeros fed zeros, where the index sum does
not wrap. -/
theorem produce_available_zero_port {c wi ri nr kw nmax k wi1 nr1 : Nat}
    (hc0 : 0 < c) (hc : c < UINT_MOD) (hwi : wi < c) (hri : ri < c) (hnr : nr < c)
    (hk : k = min nmax (c - nr)) (hkw : k ≤ kw) (hw : wi + k < UINT_MOD)
    (hwi1 : wi1 = (wi + k) % c) (hnr1 : nr1 = nr + k) :
    gport2_produce_available (zero_port c wi ri nr) (List.replicate kw 0) nmax =
      .ret (zero_port c wi1 ri nr1) k (List.replicate kw 0) false := by
  have hwf := zero_port_WF hc0 hc hwi hri (Nat.le_of_lt hnr)
  have h0 : (zero_port c wi ri nr).num_write_elements_available ≠ 0 := by
    simp only [zero_port]; omega
  have hk2 : min nmax (zero_port c wi ri nr).num_write_elements_available = k := hk.symm
  obtain ⟨q, b, s, hq⟩ := @produce_available_returns _ (List.replicate kw 0) nmax
    hwf h0 (by rw [hk2]; simpa [zero_port] using hkw) (by rw [hk2]; exact hw)
  rw [hk2] at hq
  rw [hq]
  obtain ⟨-, -, hb, hs, v2, hv, hq2⟩ := produce_available_ret_core hq
  have hv2 : v2 = List.replicate c 0 := by
    simp only [zero_port] at hv
    split at hv
    · obtain ⟨v1, e1, e2⟩ := bind_eq_some_elim hv
      have := memmove_zeros e1
      subst this
      rw [List.drop_replicate] at e2
      exact memmove_zeros e2
    · exact memmove_zeros hv
  have hkle : k ≤ c - nr := by omega
  subst hb hs hq2 hv2
  simp only [zero_port]
  rw [u32_sub_eq hkle (by omega), u32_add_eq hw, u32_add_eq (by omega)]
  subst hwi1 hnr1
  rw [Nat.sub_sub]

/-- The consumer gate on a port of zeros with a destination of zeros. -/
theorem consume_available_zero_port {c wi ri nr kr nmax k ri1 nr1 : Nat}
    (hc0 : 0 < c) (hc : c < UINT_MOD) (hwi : wi < c) (hri : ri < c) (hnr : nr ≤ c)
    (hnr0 : nr ≠ 0) (hk : k = min nmax nr) (hkr : k ≤ kr)
    (hri1 : ri1 = u32_add ri k % c) (hnr1 : nr1 = nr - k) :
    gport2_consume_available (zero_port c wi ri nr) (List.replicate kr 0) nmax =
      .ret (zero_port c wi ri1 nr1) k (List.replicate kr 0) false := by
  have hwf := zero_port_WF hc0 hc hwi hri hnr
  have h0 : (zero_port c wi ri nr).num_read_elements_available ≠ 0 := hnr0
  have hk2 : min nmax (zero_port c wi ri nr).num_read_elements_available = k := hk.symm
  obtain ⟨q, b, s, hq⟩ := @consume_available_returns _ (List.replicate kr 0) nmax
    hwf h0 (by rw [hk2]; simpa [zero_port] using hkr)
  rw [hk2] at hq
  rw [hq]
  obtain ⟨-, -, hs, hv, hq2⟩ := consume_available_ret_core hq
  have hb : b = List.replicate kr 0 := by
    simp only [zero_port] at hv
    rw [List.drop_replicate] at hv
    split at hv
    · obtain ⟨r1, e1, e2⟩ := bind_eq_some_elim hv
      have := memmove_zeros e1
      subst this
      exact memmove_zeros e2
    · exact memmove_zeros hv
  have hkle : k ≤ nr := by omega
  subst hb hs hq2
  simp only [zero_port]
  rw [u32_sub_eq hkle (by omega), u32_add_eq (by omega)]
  subst hri1 hnr1
  have e : c - nr + k = c - (nr - k) := by omega
  rw [e]

/-- The empty port with both indices at the last slot is reached by producing
and consuming `2^32 - 2` elements. -/
theorem wrap_port_empty_reachable : Reachable 4294967295 1 wrap_port_empty :=
  Reachable.consume_available (zero_port 4294967295 4294967294 0 4294967294) wrap_port_empty
    (List.replicate 4294967294 0) 4294967294 4294967294 (List.replicate 4294967294 0) false
    (Reachable.produce_available (zero_port 4294967295 0 0 0)
      (zero_port 4294967295 4294967294 0 4294967294)
      (List.replicate 4294967294 0) 4294967294 4294967294 (List.replicate 4294967294 0) false
      (Reachable.create zeroed _ (gport2_create_zeroed (by decide)))
      (produce_available_zero_port (by decide) (by decide) (by decide) (by decide) (by decide)
        (by decide) (by decide) (by decide) (by decide) (by decide)))
    (consume_available_zero_port (by decide) (by decide) (by decide) (by decide) (by decide)
      (by decide) (by decide) (by decide) (by decide) (by decide))

/-- Three more elements, accepted in two calls, lead to `wrap_port`. -/
theorem wrap_port_reachable : Reachable 4294967295 1 wrap_port :=
  Reachable.produce_available (zero_port 4294967295 0 4294967294 1) wrap_port
    (List.replicate 2 0) 2 2 (List.replicate 2 0) false
    (Reachable.produce_available wrap_port_empty (zero_port 4294967295 0 4294967294 1)
      (List.replicate 1 0) 1 1 (List.replicate 1 0) false
      wrap_port_empty_reachable
      (produce_available_zero_port (by decide) (by decide) (by decide) (by decide) (by decide)
        (by decide) (by decide) (by decide) (by decide) (by decide)))
    (produce_available_zero_port (by decide) (by decide) (by decide) (by decide) (by decide)
      (by decide) (by decide) (by decide) (by decide) (by decide))

/-- The producer gate on a port of zeros where the 32-bit index sum wraps: the
split test fails and the single copy runs past the end of the storage. -/
theorem produce_available_zero_port_wrap {c wi ri nr nmax k : Nat} (w : List Nat)
    (hc : c < UINT_MOD) (hnr : nr < c)
    (hk : k = min nmax (c - nr)) (hw : UINT_MOD ≤ wi + k) (hwi : wi < c) :
    gport2_produce_available (zero_port c wi ri nr) w nmax = .fault := by
  cases hres : gport2_produce_available (zero_port c wi ri nr) w nmax with
  | wait q =>
    have := (produce_available_wait hres).1
    simp only [zero_port] at this
    omega
  | fault => rfl
  | ret q k1 b s =>
    exfalso
    obtain ⟨-, hk1, -, -, v2, hv, -⟩ := produce_available_ret_core hres
    simp only [zero_port] at hk1 hv
    have hkk : k1 = k := by rw [hk1, hk]
    subst hkk
    have hkc : k1 ≤ c := by omega
    have ha : u32_add wi k1 = wi + k1 - UINT_MOD := by
      unfold u32_add UINT_MOD at *; omega
    rw [ha, if_neg (by omega)] at hv
    have := (memmove_eq_some hv).1
    rw [List.length_replicate] at this
    omega

theorem gport2_produce_fault {p : gport2} {w : List Nat} {n : Nat} (fuel : Nat)
    (hn : 0 < n) (h : gport2_produce_available p (w.drop (0 * p.size)) n = .fault) :
    gport2_produce (fuel + 1) p w n = .fault := by
  unfold gport2_produce gport2_produce_loop
  rw [if_pos hn]
  simp only [gport2_produce_body, h]

/-! ## Threads in the gates: suspension, signals and flags -/

theorem signalled_ne_suspended (s : role_state) (b : List Nat) (n : Nat) :
    s.signalled ≠ .suspended b n := by
  cases s <;> simp [role_state.signalled]

theorem signalled_eq_idle (s : role_state) : s.signalled = .idle ↔ s = .idle := by
  cases s <;> simp [role_state.signalled]

/-- What `producer_runs` does, by the outcome of the gate. -/
theorem producer_runs_eq_some {t u : threads} {w : List Nat} {nmax : Nat}
    (h : producer_runs t w nmax = some u) :
    (t.port.num_write_elements_available = 0 ∧
      u = { t with port := { t.port with producer_waiting := true },
                   producer := .suspended w nmax }) ∨
    (∃ q k b, gport2_produce_available t.port w nmax = .ret q k b t.port.consumer_waiting ∧
      q.producer_waiting = false ∧ q.consumer_waiting = t.port.consumer_waiting ∧
      u = { port := q, producer := .idle,
            consumer := if t.port.consumer_waiting then t.consumer.signalled
                        else t.consumer }) := by
  unfold producer_runs at h
  split at h
  · rename_i q hq
    obtain ⟨h0, rfl⟩ := produce_available_wait hq
    injection h with h
    exact Or.inl ⟨h0, h.symm⟩
  · cases h
  · rename_i q k b s hq
    obtain ⟨-, -, -, hs, v2, -, hq2⟩ := produce_available_ret_core hq
    subst hs
    injection h with h
    refine Or.inr ⟨q, k, b, hq, ?_, ?_, h.symm⟩
    · rw [hq2]
    · rw [hq2]

/-- What `consumer_runs` does, by the outcome of the gate. -/
theorem consumer_runs_eq_some {t u : threads} {r : List Nat} {nmax : Nat}
    (h : consumer_runs t r nmax = some u) :
    (t.port.num_read_elements_available = 0 ∧
      u = { t with port := { t.port with consumer_waiting := true },
                   consumer := .suspended r nmax }) ∨
    (∃ q k b, gport2_consume_available t.port r nmax = .ret q k b t.port.producer_waiting ∧
      q.consumer_waiting = false ∧ q.producer_waiting = t.port.producer_waiting ∧
      u = { port := q,
            producer := if t.port.producer_waiting then t.producer.signalled
                        else t.producer,
            consumer := .idle }) := by
  unfold consumer_runs at h
  split at h
  · rename_i q hq
    obtain ⟨h0, rfl⟩ := consume_available_wait hq
    injection h with h
    exact Or.inl ⟨h0, h.symm⟩
  · cases h
  · rename_i q k b s hq
    obtain ⟨-, -, hs, -, hq2⟩ := consume_available_ret_core hq
    subst hs
    injection h with h
    refine Or.inr ⟨q, k, b, hq, ?_, ?_, h.symm⟩
    · rw [hq2]
    · rw [hq2]

theorem producer_runs_TInv {t u : threads} {w : List Nat} {nmax : Nat} (hi : TInv t)
    (h : producer_runs t w nmax = some u) : TInv u := by
  rcases producer_runs_eq_some h with ⟨h0, rfl⟩ | ⟨q, k, b, -, -, hc, rfl⟩
  · refine ⟨fun _ _ _ => ⟨rfl, h0⟩, fun r n hr => hi.2 r n hr⟩
  · refine ⟨fun _ _ hp => (by cases hp), fun r n hr => ?_⟩
    simp only at hr
    cases hcw : t.port.consumer_waiting with
    | true =>
      rw [hcw, if_pos rfl] at hr
      exact absurd hr (signalled_ne_suspended _ _ _)
    | false =>
      rw [hcw] at hr
      simp only [Bool.false_eq_true, if_false] at hr
      have := (hi.2 r n hr).1
      rw [hcw] at this
      cases this

theorem consumer_runs_TInv {t u : threads} {r : List Nat} {nmax : Nat} (hi : TInv t)
    (h : consumer_runs t r nmax = some u) : TInv u := by
  rcases consumer_runs_eq_some h with ⟨h0, rfl⟩ | ⟨q, k, b, -, -, hc, rfl⟩
  · refine ⟨fun w n hw => hi.1 w n hw, fun _ _ _ => ⟨rfl, h0⟩⟩
  · refine ⟨fun w n hw => ?_, fun _ _ hp => by cases hp⟩
    simp only at hw
    cases hcw : t.port.producer_waiting with
    | true =>
      rw [hcw, if_pos rfl] at hw
      exact absurd hw (signalled_ne_suspended _ _ _)
    | false =>
      rw [hcw] at hw
      simp only [Bool.false_eq_true, if_false] at hw
      have := (hi.1 w n hw).1
      rw [hcw] at this
      cases this

theorem threads_step_TInv {t u : threads} {a : action} (hi : TInv t)
    (h : threads_step t a = some u) : TInv u := by
  cases a with
  | produce_call w nmax =>
    simp only [threads_step] at h
    split at h
    · exact producer_runs_TInv hi h
    · cases h
  | produce_resume =>
    simp only [threads_step] at h
    split at h
    · exact producer_runs_TInv hi h
    · cases h
  | produce_spurious =>
    simp only [threads_step] at h
    split at h
    · injection h with h
      subst h
      exact ⟨fun _ _ hp => (by cases hp), fun r n hr => hi.2 r n hr⟩
    · cases h
  | consume_call r nmax =>
    simp only [threads_step] at h
    split at h
    · exact consumer_runs_TInv hi h
    · cases h
  | consume_resume =>
    simp only [threads_step] at h
    split at h
    · exact consumer_runs_TInv hi h
    · cases h
  | consume_spurious =>
    simp only [threads_step] at h
    split at h
    · injection h with h
      subst h
      exact ⟨fun w n hw => hi.1 w n hw, fun _ _ hp => by cases hp⟩
    · cases h

theorem threads_run_TInv {as : List action} {t u : threads} (hi : TInv t)
    (h : threads_run t as = some u) : TInv u := by
  induction as generalizing t with
  | nil =>
    injection h with h
    subst h
    exact hi
  | cons a as ih =>
    simp only [threads_run] at h
    split at h
    · cases h
    · rename_i v hv
      exact ih (threads_step_TInv hi hv) h

theorem threads_start_TInv (p : gport2) : TInv (threads_start p) :=
  ⟨fun _ _ h => (by cases h), fun _ _ h => by cases h⟩

theorem signalled_ne_idle {s : role_state} : s.signalled ≠ .idle ↔ s ≠ .idle :=
  not_congr (signalled_eq_idle s)

theorem producer_runs_flags_track {t u : threads} {w : List Nat} {nmax : Nat}
    (hi : flags_track t) (h : producer_runs t w nmax = some u) : flags_track u := by
  rcases producer_runs_eq_some h with ⟨-, rfl⟩ | ⟨q, k, b, -, hp, hc, rfl⟩
  · exact ⟨⟨fun _ => (by intro h; cases h), fun _ => rfl⟩, hi.2⟩
  · refine ⟨⟨fun h1 => ?_, fun h1 => absurd rfl h1⟩, ?_⟩
    · simp only at h1
      rw [hp] at h1
      cases h1
    · simp only
      rw [hc]
      cases hcw : t.port.consumer_waiting with
      | true =>
        rw [if_pos rfl, signalled_ne_idle]
        have := hi.2
        rwa [hcw] at this
      | false =>
        simp only [Bool.false_eq_true, if_false]
        have := hi.2
        rw [hcw] at this
        simpa only [Bool.false_eq_true] using this

theorem consumer_runs_flags_track {t u : threads} {r : List Nat} {nmax : Nat}
    (hi : flags_track t) (h : consumer_runs t r nmax = some u) : flags_track u := by
  rcases consumer_runs_eq_some h with ⟨-, rfl⟩ | ⟨q, k, b, -, hc, hp, rfl⟩
  · exact ⟨hi.1, ⟨fun _ => (by intro h; cases h), fun _ => rfl⟩⟩
  · refine ⟨?_, ⟨fun h1 => ?_, fun h1 => absurd rfl h1⟩⟩
    · simp only
      rw [hp]
      cases hcw : t.port.producer_waiting with
      | true =>
        rw [if_pos rfl, signalled_ne_idle]
        have := hi.1
        rwa [hcw] at this
      | false =>
        simp only [Bool.false_eq_true, if_false]
        have := hi.1
        rw [hcw] at this
        simpa only [Bool.false_eq_true] using this
    · simp only at h1
      rw [hc] at h1
      cases h1

theorem threads_step_flags_track {t u : threads} {a : action} (hi : flags_track t)
    (h : threads_step t a = some u) : flags_track u := by
  cases a with
  | produce_call w nmax =>
    simp only [threads_step] at h
    split at h
    · exact producer_runs_flags_track hi h
    · cases h
  | produce_resume =>
    simp only [threads_step] at h
    split at h
    · exact producer_runs_flags_track hi h
    · cases h
  | produce_spurious =>
    simp only [threads_step] at h
    split at h
    · rename_i w n hs
      injection h with h
      subst h
      refine ⟨⟨fun _ => (by intro h; cases h), fun _ => ?_⟩, hi.2⟩
      exact hi.1.2 (by rw [hs]; intro h; cases h)
    · cases h
  | consume_call r nmax =>
    simp only [threads_step] at h
    split at h
    · exact consumer_runs_flags_track hi h
    · cases h
  | consume_resume =>
    simp only [threads_step] at h
    split at h
    · exact consumer_runs_flags_track hi h
    · cases h
  | consume_spurious =>
    simp only [threads_step] at h
    split at h
    · rename_i w n hs
      injection h with h
      subst h
      refine ⟨hi.1, ⟨fun _ => (by intro h; cases h), fun _ => ?_⟩⟩
      exact hi.2.2 (by rw [hs]; intro h; cases h)
    · cases h

/-- When the flags are clear while no thread is in a gate, they follow the
threads through every interleaving. -/
theorem threads_run_flags_track {as : List action} {t u : threads} (hi : flags_track t)
    (h : threads_run t as = some u) : flags_track u := by
  induction as generalizing t with
  | nil =>
    injection h with h
    subst h
    exact hi
  | cons a as ih =>
    simp only [threads_run] at h
    split at h
    · cases h
    · rename_i v hv
      exact ih (threads_step_flags_track hi hv) h

/-- The port of `gport2_create` has the flags that `malloc` left. -/
theorem gport2_create_flags {c size : Nat} {m : uninit} {p : gport2}
    (h : gport2_create c size m = .port p) :
    p.producer_waiting = m.producer_waiting ∧ p.consumer_waiting = m.consumer_waiting := by
  obtain ⟨-, -, -, rfl⟩ := gport2_create_eq_port h
  exact ⟨rfl, rfl⟩

/-- On memory whose flag bytes happen to be zero the flags follow the threads
from `gport2_create` on. -/
theorem threads_start_flags_track {c size : Nat} {m : uninit} {p : gport2}
    (h : gport2_create c size m = .port p) (hp : m.producer_waiting = false)
    (hc : m.consumer_waiting = false) : flags_track (threads_start p) := by
  obtain ⟨h1, h2⟩ := gport2_create_flags h
  refine ⟨⟨fun h3 => ?_, fun h3 => absurd rfl h3⟩, ⟨fun h3 => ?_, fun h3 => absurd rfl h3⟩⟩
  · simp only [threads_start] at h3
    rw [h1, hp] at h3
    cases h3
  · simp only [threads_start] at h3
    rw [h2, hc] at h3
    cases h3

/-- A gate call that has completed leaves its own flag clear. -/
theorem produce_available_ret_flag {p q : gport2} {w b : List Nat} {nmax k : Nat} {s : Bool}
    (h : gport2_produce_available p w nmax = .ret q k b s) :
    q.producer_waiting = false ∧ q.consumer_waiting = p.consumer_waiting := by
  obtain ⟨-, -, -, -, v2, -, hq2⟩ := produce_available_ret_core h
  rw [hq2]
  exact ⟨rfl, rfl⟩

theorem consume_available_ret_flag {p q : gport2} {r b : List Nat} {nmax k : Nat} {s : Bool}
    (h : gport2_consume_available p r nmax = .ret q k b s) :
    q.consumer_waiting = false ∧ q.producer_waiting = p.producer_waiting := by
  obtain ⟨-, -, -, -, hq2⟩ := consume_available_ret_core h
  rw [hq2]
  exact ⟨rfl, rfl⟩

/-! ## Interleavings of `gport2_produce` with a consumer -/

theorem accepted_before_append_le (cs : List gate_call) (e : gate_call) {k : Nat}
    (hk : k ≤ cs.length) : accepted_before (cs ++ [e]) k = accepted_before cs k := by
  unfold accepted_before
  rw [List.take_append_of_le_length hk]

theorem accepted_before_append_succ (cs : List gate_call) (e : gate_call) :
    accepted_before (cs ++ [e]) (cs ++ [e]).length =
      accepted_before cs cs.length + e.count := by
  unfold accepted_before
  simp

/-- One scheduled event keeps the invariant of the interleaving. -/
theorem system_step_SInv {w : List Nat} {count c size : Nat} {s t : system} {e : event}
    (hcount : count < UINT_MOD)
    (hi : SInv w count c size s) (hs : system_step s e = some t) :
    SInv w count c size t := by
  obtain ⟨hbuf, htot, hn, hsz, hinv, hsum, hcalls⟩ := hi
  have hinv0 := hinv
  obtain ⟨hwf, hcoh, hacc, hnum, hwle, hrle⟩ := hinv
  simp only [system_history] at hacc hnum hwle hrle
  cases e with
  | produce_turn =>
    unfold system_step at hs
    simp only at hs
    split at hs
    · rename_i hrem
      split at hs
      · rename_i q hb
        injection hs with hs
        subst hs
        obtain ⟨-, rfl⟩ := produce_available_wait (gport2_produce_body_wait hb)
        exact ⟨hbuf, htot, hn, hsz, hinv0, hsum, hcalls⟩
      · cases hs
      · rename_i q f k hb
        injection hs with hs
        subst hs
        obtain ⟨⟨b, sg, hg⟩, hf⟩ := gport2_produce_body_next hb
        have hk := (produce_available_ret_core hg).2.1
        have hkle : k ≤ s.producer.remaining := by rw [hk]; exact Nat.min_le_left _ _
        have hk1 : 1 ≤ k := by
          have := (produce_available_ret_core hg).1
          omega
        have hstep : gate_step s.port (system_history s)
            (.produce_available (s.producer.buf.drop (s.producer.total * s.port.size))
              s.producer.remaining) =
            some (q, { system_history s with
              accepted := (system_history s).accepted ++
                (s.producer.buf.drop (s.producer.total * s.port.size)).take (k * s.port.size)
              num_accepted := (system_history s).num_accepted + k }) := by
          unfold gate_step
          simp only [hg]
        have hnw : NoWrap s.port (.produce_available
            (s.producer.buf.drop (s.producer.total * s.port.size)) s.producer.remaining) := by
          unfold NoWrap
          simp only
          have := Nat.min_le_left s.producer.remaining s.port.num_write_elements_available
          omega
        obtain ⟨hinv1, hn1, hsz1⟩ := gate_step_Inv hinv0 hnw hstep
        have ht : u32_add s.producer.total k = s.producer.total + k := u32_add_eq (by omega)
        have hr : u32_sub s.producer.remaining k = s.producer.remaining - k :=
          u32_sub_eq hkle (by omega)
        subst hf
        refine ⟨hbuf, ?_, by rw [hn1, hn], by rw [hsz1, hsz], ?_, ?_, ?_⟩
        · simp only; rw [ht, hr]; omega
        · have e : system_history
              { s with
                port := q
                producer := { s.producer with total := u32_add s.producer.total k
                                              remaining := u32_sub s.producer.remaining k }
                calls := s.calls ++ [{ before := s.port, after := q, count := k }] } =
              { system_history s with
                accepted := (system_history s).accepted ++
                  (s.producer.buf.drop (s.producer.total * s.port.size)).take (k * s.port.size)
                num_accepted := (system_history s).num_accepted + k } := by
            simp only [system_history, ht, hsz1, Nat.add_mul, List.take_add]
          rw [e]
          exact hinv1
        · simp only
          rw [accepted_before_append_succ, hsum, ht]
        · intro j g hj
          simp only at hj
          by_cases hjl : j < s.calls.length
          · rw [List.getElem?_append_left hjl] at hj
            rw [accepted_before_append_le _ _ (Nat.le_of_lt hjl)]
            exact hcalls j g hj
          · have hjl2 : s.calls.length ≤ j := Nat.le_of_not_lt hjl
            rw [List.getElem?_append_right hjl2] at hj
            have hj0 : j - s.calls.length = 0 := by
              by_contra hne
              rw [List.getElem?_eq_none (by simp; omega)] at hj
              cases hj
            rw [hj0] at hj
            simp only [List.getElem?_cons_zero] at hj
            injection hj with hj
            have hje : j = s.calls.length := by omega
            subst hj hje
            simp only
            rw [accepted_before_append_le _ _ (Nat.le_refl _), hsum]
            have hb := (produce_available_ret_core hg).2.2.1
            have hre : s.producer.remaining = count - s.producer.total := by omega
            have hg2 := hg
            rw [hb, hbuf, hsz, hre] at hg2
            exact ⟨⟨sg, hg2⟩, hk1, by omega⟩
    · cases hs
  | consume_call r nmax =>
    unfold system_step at hs
    simp only at hs
    split at hs
    · rename_i q hg
      injection hs with hs
      subst hs
      obtain ⟨-, rfl⟩ := consume_available_wait hg
      exact ⟨hbuf, htot, hn, hsz, hinv0, hsum, hcalls⟩
    · cases hs
    · rename_i q k b sg hg
      injection hs with hs
      subst hs
      have hstep : gate_step s.port (system_history s) (.consume_available r nmax) =
          some (q, { system_history s with
            delivered := (system_history s).delivered ++ b.take (k * s.port.size)
            num_delivered := (system_history s).num_delivered + k }) := by
        unfold gate_step
        simp only [hg]
      have hnw : NoWrap s.port (.consume_available r nmax) := by
        unfold NoWrap
        simp only
        have := Nat.min_le_right nmax s.port.num_read_elements_available
        omega
      obtain ⟨hinv1, hn1, hsz1⟩ := gate_step_Inv hinv0 hnw hstep
      refine ⟨hbuf, htot, by rw [hn1, hn], by rw [hsz1, hsz], ?_, hsum, hcalls⟩
      have e : system_history
          { s with port := q, delivered := s.delivered ++ b.take (k * s.port.size)
                   num_delivered := s.num_delivered + k } =
          { system_history s with
            delivered := (system_history s).delivered ++ b.take (k * s.port.size)
            num_delivered := (system_history s).num_delivered + k } := by
        simp only [system_history, hsz1]
      rw [e]
      exact hinv1

theorem system_run_SInv {w : List Nat} {count c size : Nat} {es : List event}
    (hcount : count < UINT_MOD) : ∀ {s t : system},
    SInv w count c size s → system_run s es = some t → SInv w count c size t := by
  induction es with
  | nil =>
    intro s t hi hr
    unfold system_run at hr
    injection hr with hr
    subst hr
    exact hi
  | cons e es ih =>
    intro s t hi hr
    unfold system_run at hr
    split at hr
    · cases hr
    · rename_i s1 hs
      exact ih (system_step_SInv hcount hi hs) hr

/-- The interleaving starts in its invariant when the storage of the port was
allocated. -/
theorem system_start_SInv {c size : Nat} {m : uninit} {p0 : gport2} (w : List Nat)
    (count : Nat) (hc : c < UINT_MOD) (h : gport2_create c size m = .port p0)
    (hv : m.v_null = false) :
    SInv w count c size (system_start p0 w count) := by
  obtain ⟨hwf, hcoh, hn, hs, hnr, hwi, hri⟩ := gport2_create_WF h hc
  have hwf : WF p0 := by
    rcases hwf with ⟨-, h⟩ | ⟨h, -⟩
    · exact h
    · rw [hv] at h
      cases h
  refine ⟨rfl, by simp [system_start], hn, hs, ⟨hwf, hcoh, ?_, ?_, ?_, ?_⟩, rfl, ?_⟩
  · simp [system_history, system_start, buffered, hnr]
  · simp [system_history, system_start, hnr]
  · simp [system_history, system_start, hwi]
  · simp [system_history, system_start, hri]
  · intro k g hk
    simp [system_start] at hk

/-- On a port without storage no turn of `gport2_produce` gets an element
accepted and the consumer is never delivered one: the interleaving leaves
the locals of `gport2_produce` and the observations as they started. -/
theorem system_step_NoStorage {s t : system} {e : event}
    (hp : NoStorage s.port) (hs : system_step s e = some t) :
    NoStorage t.port ∧ t.producer = s.producer ∧ t.calls = s.calls ∧
    t.delivered = s.delivered ∧ t.num_delivered = s.num_delivered := by
  cases e with
  | produce_turn =>
    unfold system_step at hs
    simp only at hs
    split at hs
    · rename_i hrem
      split at hs
      · rename_i q hb
        exact (NoStorage_produce_wait hp (gport2_produce_body_wait hb)).elim
      · cases hs
      · rename_i q f k hb
        obtain ⟨⟨b, sg, hg⟩, -⟩ := gport2_produce_body_next hb
        have := (NoStorage_produce_ret hp hg).2.1
        omega
    · cases hs
  | consume_call r nmax =>
    unfold system_step at hs
    simp only at hs
    split at hs
    · rename_i q hg
      injection hs with hs
      subst hs
      obtain ⟨-, rfl⟩ := consume_available_wait hg
      exact ⟨NoStorage_consumer_waiting true hp, rfl, rfl, rfl, rfl⟩
    · cases hs
    · rename_i q k b sg hg
      exact (NoStorage_consume_ret hp hg).elim

theorem system_run_NoStorage {es : List event} : ∀ {s t : system},
    NoStorage s.port → system_run s es = some t →
    NoStorage t.port ∧ t.producer = s.producer ∧ t.calls = s.calls ∧
    t.delivered = s.delivered ∧ t.num_delivered = s.num_delivered := by
  induction es with
  | nil =>
    intro s t hp hr
    unfold system_run at hr
    injection hr with hr
    subst hr
    exact ⟨hp, rfl, rfl, rfl, rfl⟩
  | cons e es ih =>
    intro s t hp hr
    unfold system_run at hr
    split at hr
    · cases hr
    · rename_i s1 hs
      obtain ⟨h1, h2, h3, h4, h5⟩ := system_step_NoStorage hp hs
      obtain ⟨k1, k2, k3, k4, k5⟩ := ih h1 hr
      exact ⟨k1, by rw [k2, h2], by rw [k3, h3], by rw [k4, h4], by rw [k5, h5]⟩
/-! ## States reached without a wrapping index sum -/

theorem Reachable_of_ReachableNoWrap {c S : Nat} {p : gport2}
    (hr : ReachableNoWrap c S p) : Reachable c S p := by
  induction hr with
  | create m p h => exact Reachable.create m p h
  | produce_available p q w nmax k b s _ h _ ih =>
    exact Reachable.produce_available p q w nmax k b s ih h
  | produce_available_wait p q w nmax _ h ih =>
    exact Reachable.produce_available_wait p q w nmax ih h
  | consume_available p q r nmax k b s _ h _ ih =>
    exact Reachable.consume_available p q r nmax k b s ih h
  | consume_available_wait p q r nmax _ h ih =>
    exact Reachable.consume_available_wait p q r nmax ih h

/-- States reached without a wrapping index sum have their write index where
the buffered elements end, whatever the capacity. -/
theorem ReachableNoWrap_Coherent {c S : Nat} {p : gport2} (hc : c < UINT_MOD)
    (hr : ReachableNoWrap c S p) : Coherent p := by
  induction hr with
  | create m p h => exact (gport2_create_WF h hc).2.1
  | produce_available p q w nmax k b s hr h hw ih =>
    obtain ⟨hwf | hns, -, -⟩ := Reachable_WF hc (Reachable_of_ReachableNoWrap hr)
    · exact (produce_available_ret_buffered hwf ih h hw).2
    · exact NoStorage_Coherent (NoStorage_produce_ret_keeps hns h).1
  | produce_available_wait p q w nmax _ h ih =>
    obtain ⟨-, rfl⟩ := produce_available_wait h
    exact ih
  | consume_available p q r nmax k b s hr h hw ih =>
    obtain ⟨hwf | hns, -, -⟩ := Reachable_WF hc (Reachable_of_ReachableNoWrap hr)
    · exact (consume_available_ret_buffered hwf h hw).2 ih
    · exact (NoStorage_consume_ret hns h).elim
  | consume_available_wait p q r nmax _ h ih =>
    obtain ⟨-, rfl⟩ := consume_available_wait h
    exact ih

/-- With `2 * c ≤ 2^32` no index sum of a gate call in a reachable state
wraps. -/
theorem no_wrap_of_small {c S : Nat} {p : gport2} (hs : c + c ≤ UINT_MOD)
    (hr : Reachable c S p) (k : Nat)
    (hk : k ≤ p.num_write_elements_available ∨ k ≤ p.num_read_elements_available) :
    p.write_index + k < UINT_MOD ∧ p.read_index + k < UINT_MOD := by
  have hc : c < UINT_MOD := by
    cases hr0 : c with
    | zero => unfold UINT_MOD; omega
    | succ k => omega
  obtain ⟨-, hn, -, hwi, hri, hsum, -⟩ := Reachable_ranges hc hr
  omega

/-! ## Where the elements not yet consumed lie -/

theorem example_port_3_reachable : Reachable 4 4 example_port_3 :=
  Reachable.consume_available example_port_123 example_port_3 (List.replicate 8 0) 2 2
    (int32s [1, 2]) false
    (Reachable.produce_available fresh_4x4 example_port_123 (int32s [1, 2, 3]) 3 3
      (int32s [1, 2, 3]) false (Reachable.create zeroed fresh_4x4 (by decide)) (by decide))
    (by decide)

/-- A producer gate call that returns did not have its index sum wrap: with a
wrapped sum the split test fails and the single copy leaves the storage. -/
theorem produce_available_ret_no_wrap {p q : gport2} {w b : List Nat} {nmax k : Nat} {s : Bool}
    (hp : WF p) (hs : 0 < p.size) (h : gport2_produce_available p w nmax = .ret q k b s) :
    p.write_index + k < UINT_MOD := by
  by_contra hw
  obtain ⟨h0, hk, -, -, v2, hv, -⟩ := produce_available_ret_core h
  obtain ⟨hn0, hn, hlen, hwi, hri, hsum⟩ := hp
  have hkle : k ≤ p.num_write_elements_available := by omega
  have ha : u32_add p.write_index k = p.write_index + k - UINT_MOD := by
    unfold u32_add UINT_MOD at *; omega
  rw [ha, if_neg (by omega)] at hv
  have h1 := (memmove_eq_some hv).1
  rw [hlen, ← Nat.add_mul] at h1
  have h2 := Nat.le_of_mul_le_mul_right h1 hs
  omega

theorem slot_length {S : Nat} {l : List Nat} {k : Nat} (h : (k + 1) * S ≤ l.length) :
    (slot S l k).length = S := by
  unfold slot
  rw [List.length_take, List.length_drop]
  have : (k + 1) * S = k * S + S := by ring
  omega

theorem length_flatMap_range {f : Nat → List Nat} {m S : Nat}
    (h : ∀ i, i < m → (f i).length = S) : ((List.range m).flatMap f).length = m * S := by
  induction m with
  | zero => simp
  | succ m ih =>
    rw [List.range_succ, List.flatMap_append, List.length_append, ih (fun i hi => h i (by omega))]
    simp only [List.flatMap_cons, List.flatMap_nil, List.append_nil]
    rw [h m (by omega)]
    ring

/-- A returning producer gate appends the accepted chunk to the elements that
lie before the write index. -/
theorem produce_available_ret_undelivered {p q : gport2} {w b : List Nat} {nmax k : Nat}
    {s : Bool} (hp : WF p) (hs : 0 < p.size)
    (h : gport2_produce_available p w nmax = .ret q k b s) :
    undelivered q = undelivered p ++ w.take (k * p.size) := by
  have hw := produce_available_ret_no_wrap hp hs h
  obtain ⟨hq, hn, hsz, hkle, hnw, hnr, hri⟩ := produce_available_ret_WF hp h
  obtain ⟨hlen, hwi, hin, hout⟩ := produce_available_ret_slots hp h hw
  obtain ⟨hn0, hnlt, hvlen, hwlt, hrlt, hsum⟩ := hp
  have hbase : ∀ j, (q.write_index + q.num_write_elements_available + j) % p.n =
      (p.write_index + (p.num_write_elements_available + j)) % p.n := by
    intro j
    rw [hwi, hnw, Nat.add_assoc, Nat.mod_add_mod]
    congr 1; omega
  unfold undelivered
  rw [hnr, hsz, hn, flatMap_range_add, take_eq_flatMap_slot]
  congr 1
  · apply flatMap_range_congr
    intro j hj
    rw [hbase, ← Nat.add_assoc]
    apply hout
    intro i hi
    rw [Nat.add_assoc]
    exact (add_mod_ne (by omega) (by omega)).symm
  · apply flatMap_range_congr
    intro j hj
    rw [hbase]
    have e : p.write_index + (p.num_write_elements_available +
        (p.num_read_elements_available + j)) = p.write_index + j + p.n := by omega
    rw [e, Nat.add_mod_right]
    exact hin j hj

/-- A returning consumer gate leaves, before the write index, the elements
beyond the `k` oldest ones. -/
theorem consume_available_ret_undelivered {p q : gport2} {r b : List Nat} {nmax k : Nat}
    {s : Bool} (hp : WF p) (h : gport2_consume_available p r nmax = .ret q k b s) :
    undelivered q = (undelivered p).drop (k * p.size) := by
  obtain ⟨hq, hn, hsz, hkle, hnr, hnw, hwi, hv⟩ := consume_available_ret_WF hp h
  obtain ⟨hn0, hnlt, hvlen, hwlt, hrlt, hsum⟩ := hp
  have e : p.num_read_elements_available = k + (p.num_read_elements_available - k) := by
    omega
  have hsplit : undelivered p =
      ((List.range k).flatMap fun j => slot p.size p.v
        ((p.write_index + p.num_write_elements_available + j) % p.n)) ++ undelivered q := by
    unfold undelivered
    rw [hnr, hsz, hn, hv, hwi, hnw]
    conv => lhs; rw [e]
    rw [flatMap_range_add]
    congr 1
    apply flatMap_range_congr
    intro j hj
    congr 2; omega
  have hlen : ((List.range k).flatMap fun j => slot p.size p.v
      ((p.write_index + p.num_write_elements_available + j) % p.n)).length = k * p.size := by
    apply length_flatMap_range
    intro i hi
    apply slot_length
    rw [hvlen]
    exact Nat.mul_le_mul_right _ (Nat.mod_lt _ hn0)
  rw [hsplit, List.drop_append_of_le_length (by rw [hlen]), List.drop_of_length_le (by rw [hlen]),
    List.nil_append]

theorem Inv2_producer_waiting {p : gport2} {h : history} (b : Bool) (hi : Inv2 p h) :
    Inv2 { p with producer_waiting := b } h := hi

theorem Inv2_consumer_waiting {p : gport2} {h : history} (b : Bool) (hi : Inv2 p h) :
    Inv2 { p with consumer_waiting := b } h := hi

/-- One gate step keeps the producer's view of the history, whatever the
capacity. -/
theorem gate_step_Inv2 {p q : gport2} {h g : history} {c : call}
    (hi : Inv2 p h) (hs : gate_step p h c = some (q, g)) : Inv2 q g := by
  obtain ⟨hwf, hsz, hnum, hlen, hdrop⟩ := hi
  cases c with
  | produce_available w nmax =>
    unfold gate_step at hs
    simp only at hs
    split at hs
    · rename_i q1 hq
      injection hs with hs; injection hs with e1 e2
      subst e1 e2
      obtain ⟨-, rfl⟩ := produce_available_wait hq
      exact Inv2_producer_waiting true ⟨hwf, hsz, hnum, hlen, hdrop⟩
    · cases hs
    · rename_i q1 k b s hq
      injection hs with hs; injection hs with e1 e2
      subst e1 e2
      have hw := produce_available_ret_no_wrap hwf hsz hq
      obtain ⟨hq1, hn, hsz1, hkle, hnw, hnr, hri⟩ := produce_available_ret_WF hwf hq
      obtain ⟨hwlen, -, -, -⟩ := produce_available_ret_slots hwf hq hw
      have hund := produce_available_ret_undelivered hwf hsz hq
      have hle : h.num_delivered * p.size ≤ h.accepted.length := by
        rw [hlen]; exact Nat.mul_le_mul_right _ (by omega)
      refine ⟨hq1, by rw [hsz1]; exact hsz, ?_, ?_, ?_⟩
      · simp only; rw [hnr]; omega
      · simp only
        rw [List.length_append, List.length_take, hlen, hsz1, Nat.add_mul,
          Nat.min_eq_left hwlen]
      · simp only
        rw [hsz1, List.drop_append_of_le_length hle, hdrop, hund]
  | consume_available r nmax =>
    unfold gate_step at hs
    simp only at hs
    split at hs
    · rename_i q1 hq
      injection hs with hs; injection hs with e1 e2
      subst e1 e2
      obtain ⟨-, rfl⟩ := consume_available_wait hq
      exact Inv2_consumer_waiting true ⟨hwf, hsz, hnum, hlen, hdrop⟩
    · cases hs
    · rename_i q1 k b s hq
      injection hs with hs; injection hs with e1 e2
      subst e1 e2
      obtain ⟨hq1, hn, hsz1, hkle, hnr, hnw, hwi, hv⟩ := consume_available_ret_WF hwf hq
      have hund := consume_available_ret_undelivered hwf hq
      refine ⟨hq1, by rw [hsz1]; exact hsz, ?_, ?_, ?_⟩
      · simp only; rw [hnr]; omega
      · simp only; rw [hlen, hsz1]
      · simp only
        rw [hsz1, hund, ← hdrop, List.drop_drop, Nat.add_mul]

theorem run_Inv2 {cs : List call} : ∀ {p q : gport2} {h g : history},
    Inv2 p h → run p h cs = some (q, g) → Inv2 q g := by
  induction cs with
  | nil =>
    intro p q h g hi hr
    unfold run at hr
    injection hr with hr; injection hr with e1 e2
    subst e1 e2
    exact hi
  | cons c cs ih =>
    intro p q h g hi hr
    unfold run at hr
    split at hr
    · cases hr
    · rename_i q1 g1 hstep
      exact ih (gate_step_Inv2 hi hstep) hr

/-- After any sequence of gate calls on a port fresh from `gport2_create`, of
any capacity, the elements accepted beyond the number delivered are the
contents of the slots that end at the write index: those are the slots that
hold the elements not yet consumed. -/
theorem run_undelivered (c size : Nat) (m : uninit) (p0 : gport2) (cs : List call)
    (p : gport2) (h : history) (hc : c < UINT_MOD)
    (hcreate : gport2_create c size m = .port p0)
    (hrun : run p0 no_history cs = some (p, h)) :
    h.num_accepted = h.num_delivered + p.num_read_elements_available ∧
    h.accepted.drop (h.num_delivered * size) = undelivered p := by
  obtain ⟨hwf, hcoh, hn, hs, hnr, hwi, hri⟩ := gport2_create_WF hcreate hc
  rcases hwf with ⟨-, hwf⟩ | ⟨-, hns⟩
  swap
  · obtain ⟨hq, -, -, rfl⟩ := NoStorage_run hns hrun
    have hnr1 := hq.2.2.2.2.2.2.2
    simp [no_history, undelivered, hnr1]
  have hs0 : 0 < p0.size := by
    rw [hs]; exact Nat.pos_of_ne_zero (gport2_create_eq_port hcreate).2.1
  have hi0 : Inv2 p0 no_history := by
    refine ⟨hwf, hs0, ?_, ?_, ?_⟩
    · simp [no_history, hnr]
    · simp [no_history]
    · simp [no_history, undelivered, hnr]
  obtain ⟨hwf1, -, hnum, -, hdrop⟩ := run_Inv2 hi0 hrun
  have hsz : p.size = size := by
    have : ∀ {cs : List call} {p q : gport2} {h g : history},
        WF p → run p h cs = some (q, g) → q.size = p.size := by
      intro cs
      induction cs with
      | nil =>
        intro p q h g _ hr
        unfold run at hr
        injection hr with hr; injection hr with e1 e2
        subst e1 e2
        rfl
      | cons c cs ih =>
        intro p q h g hp hr
        unfold run at hr
        split at hr
        · cases hr
        · rename_i q1 g1 hstep
          have hq1 : WF q1 ∧ q1.size = p.size := by
            cases c with
            | produce_available w nmax =>
              unfold gate_step at hstep
              simp only at hstep
              split at hstep
              · rename_i q2 hq
                injection hstep with hs; injection hs with e1 e2
                subst e1 e2
                obtain ⟨-, rfl⟩ := produce_available_wait hq
                exact ⟨WF_producer_waiting true hp, rfl⟩
              · cases hstep
              · rename_i q2 k b s hq
                injection hstep with hs; injection hs with e1 e2
                subst e1 e2
                obtain ⟨h1, -, h3, -⟩ := produce_available_ret_WF hp hq
                exact ⟨h1, h3⟩
            | consume_available r nmax =>
              unfold gate_step at hstep
              simp only at hstep
              split at hstep
              · rename_i q2 hq
                injection hstep with hs; injection hs with e1 e2
                subst e1 e2
                obtain ⟨-, rfl⟩ := consume_available_wait hq
                exact ⟨WF_consumer_waiting true hp, rfl⟩
              · cases hstep
              · rename_i q2 k b s hq
                injection hstep with hs; injection hs with e1 e2
                subst e1 e2
                obtain ⟨h1, -, h3, -⟩ := consume_available_ret_WF hp hq
                exact ⟨h1, h3⟩
          rw [ih hq1.1 hr, hq1.2]
    rw [this hwf hrun, hs]
  rw [hsz] at hdrop
  exact ⟨hnum, hdrop⟩

/-! ## The number of gate calls of a transfer loop -/

/-- A pass through the body of `gport2_produce` whose gate call returns lowers
the remaining count by the count reported, which is at least one and at most
the remaining count. -/
theorem gport2_produce_body_decreases {p q : gport2} {f g : frame} {k : Nat}
    (hpos : 0 < f.remaining) (hlt : f.remaining < UINT_MOD)
    (h : gport2_produce_body p f = .next q g k) :
    1 ≤ k ∧ k ≤ f.remaining ∧ g.remaining = f.remaining - k ∧ g.buf = f.buf := by
  obtain ⟨⟨b, s, hg⟩, rfl⟩ := gport2_produce_body_next h
  obtain ⟨h0, hk, -⟩ := produce_available_ret_core hg
  have hkle : k ≤ f.remaining := by omega
  exact ⟨by omega, hkle, u32_sub_eq hkle hlt, rfl⟩

theorem gport2_consume_body_decreases {p q : gport2} {f g : frame} {k : Nat}
    (hpos : 0 < f.remaining) (hlt : f.remaining < UINT_MOD)
    (h : gport2_consume_body p f = .next q g k) :
    1 ≤ k ∧ k ≤ f.remaining ∧ g.remaining = f.remaining - k := by
  obtain ⟨b, s, hg, rfl⟩ := gport2_consume_body_next h
  obtain ⟨h0, hk, -⟩ := consume_available_ret_core hg
  have hkle : k ≤ f.remaining := by omega
  exact ⟨by omega, hkle, u32_sub_eq hkle hlt⟩

/-- With as many passes allowed as elements remain, the loop of `gport2_produce`
ends, whatever the other threads do, within that many gate calls. -/
theorem gport2_produce_loop_env_bound (env : Nat → gport2 → gport2) {fuel : Nat} :
    ∀ {p : gport2} {f : frame} {calls : Nat},
    f.remaining ≤ fuel → f.remaining < UINT_MOD →
    gport2_produce_loop_env env fuel p f calls ≠ .fuel ∧
    ∀ q b n, gport2_produce_loop_env env fuel p f calls = .ret q b n →
      n ≤ calls + f.remaining := by
  induction fuel with
  | zero =>
    intro p f calls hle _
    unfold gport2_produce_loop_env
    rw [if_neg (by omega)]
    refine ⟨(by intro h; cases h), ?_⟩
    intro q b n h
    injection h with _ _ h3
    omega
  | succ fuel ih =>
    intro p f calls hle hlt
    unfold gport2_produce_loop_env
    split
    · rename_i hpos
      simp only
      split
      · exact ⟨(by intro h; cases h), by intro q b n h; cases h⟩
      · exact ⟨(by intro h; cases h), by intro q b n h; cases h⟩
      · rename_i q1 g k hb
        obtain ⟨h1, h2, h3, -⟩ := gport2_produce_body_decreases hpos hlt hb
        obtain ⟨i1, i2⟩ := @ih q1 g (calls + 1) (by omega) (by omega)
        refine ⟨i1, ?_⟩
        intro q b n h
        have := i2 q b n h
        omega
    · refine ⟨(by intro h; cases h), ?_⟩
      intro q b n h
      injection h with _ _ h3
      omega

theorem gport2_consume_loop_env_bound (env : Nat → gport2 → gport2) {fuel : Nat} :
    ∀ {p : gport2} {f : frame} {calls : Nat},
    f.remaining ≤ fuel → f.remaining < UINT_MOD →
    gport2_consume_loop_env env fuel p f calls ≠ .fuel ∧
    ∀ q b n, gport2_consume_loop_env env fuel p f calls = .ret q b n →
      n ≤ calls + f.remaining := by
  induction fuel with
  | zero =>
    intro p f calls hle _
    unfold gport2_consume_loop_env
    rw [if_neg (by omega)]
    refine ⟨(by intro h; cases h), ?_⟩
    intro q b n h
    injection h with _ _ h3
    omega
  | succ fuel ih =>
    intro p f calls hle hlt
    unfold gport2_consume_loop_env
    split
    · rename_i hpos
      simp only
      split
      · exact ⟨(by intro h; cases h), by intro q b n h; cases h⟩
      · exact ⟨(by intro h; cases h), by intro q b n h; cases h⟩
      · rename_i q1 g k hb
        obtain ⟨h1, h2, h3⟩ := gport2_consume_body_decreases hpos hlt hb
        obtain ⟨i1, i2⟩ := @ih q1 g (calls + 1) (by omega) (by omega)
        refine ⟨i1, ?_⟩
        intro q b n h
        have := i2 q b n h
        omega
    · refine ⟨(by intro h; cases h), ?_⟩
      intro q b n h
      injection h with _ _ h3
      omega

/-- Alone on the port, the loop of `gport2_produce` is the loop among other
threads that do nothing. -/
theorem gport2_produce_loop_eq_env {fuel : Nat} : ∀ {p : gport2} {f : frame} {calls : Nat},
    gport2_produce_loop fuel p f calls =
      gport2_produce_loop_env (fun _ q => q) fuel p f calls := by
  induction fuel with
  | zero =>
    intro p f calls
    unfold gport2_produce_loop gport2_produce_loop_env
    rfl
  | succ fuel ih =>
    intro p f calls
    unfold gport2_produce_loop gport2_produce_loop_env
    split
    · simp only
      split
      · rfl
      · rfl
      · exact ih
    · rfl

theorem gport2_consume_loop_eq_env {fuel : Nat} : ∀ {p : gport2} {f : frame} {calls : Nat},
    gport2_consume_loop fuel p f calls =
      gport2_consume_loop_env (fun _ q => q) fuel p f calls := by
  induction fuel with
  | zero =>
    intro p f calls
    unfold gport2_consume_loop gport2_consume_loop_env
    rfl
  | succ fuel ih =>
    intro p f calls
    unfold gport2_consume_loop gport2_consume_loop_env
    split
    · simp only
      split
      · rfl
      · rfl
      · exact ih
    · rfl

/-- When the count asked is at most the free slots, a returning `gport2_produce`
made exactly one gate call. -/
theorem gport2_produce_one_call {p q : gport2} {w b : List Nat} {count fuel calls : Nat}
    (hpos : 0 < count) (hlt : count < UINT_MOD)
    (hle : count ≤ p.num_write_elements_available)
    (h : gport2_produce fuel p w count = .ret q b calls) : calls = 1 := by
  unfold gport2_produce gport2_produce_loop at h
  rw [if_pos hpos] at h
  cases fuel with
  | zero => cases h
  | succ fuel =>
    simp only at h
    split at h
    · cases h
    · cases h
    · rename_i q1 g k hb
      obtain ⟨⟨b1, s1, hg⟩, hgf⟩ := gport2_produce_body_next hb
      obtain ⟨-, hk, -⟩ := produce_available_ret_core hg
      simp only at hk hgf
      have hkc : k = count := by omega
      have hrem : g.remaining = 0 := by
        rw [hgf]; simp only
        rw [hkc, u32_sub_eq (Nat.le_refl _) hlt]; omega
      unfold gport2_produce_loop at h
      rw [if_neg (by omega)] at h
      injection h with _ _ h3
      omega

theorem gport2_consume_one_call {p q : gport2} {r b : List Nat} {count fuel calls : Nat}
    (hpos : 0 < count) (hlt : count < UINT_MOD)
    (hle : count ≤ p.num_read_elements_available)
    (h : gport2_consume fuel p r count = .ret q b calls) : calls = 1 := by
  unfold gport2_consume gport2_consume_loop at h
  rw [if_pos hpos] at h
  cases fuel with
  | zero => cases h
  | succ fuel =>
    simp only at h
    split at h
    · cases h
    · cases h
    · rename_i q1 g k hb
      obtain ⟨b1, s1, hg, hgf⟩ := gport2_consume_body_next hb
      obtain ⟨-, hk, -⟩ := consume_available_ret_core hg
      simp only at hk hgf
      have hkc : k = count := by omega
      have hrem : g.remaining = 0 := by
        rw [hgf]; simp only
        rw [hkc, u32_sub_eq (Nat.le_refl _) hlt]; omega
      unfold gport2_consume_loop at h
      rw [if_neg (by omega)] at h
      injection h with _ _ h3
      omega

/-! ## C1: FIFO order -/

/-- C1 (FIFO order). On a port created by `gport2_create c size` whose capacity is
small enough that no index sum wraps in 32-bit arithmetic (`2 * c ≤ 2^32`), after
any finite sequence of gate calls taken as atomic steps, the bytes delivered to
consumers, concatenated in call order, are an initial segment of the bytes
accepted from producers, concatenated in call order: the accepted bytes are the
delivered ones followed by the buffered ones.  In particular, when as many
elements have been delivered as accepted, the delivered sequence is exactly
the accepted sequence. -/
theorem C1_fifo_order (c size : Nat) (m : uninit) (p0 : gport2) (cs : List call)
    (p : gport2) (h : history)
    (hsmall : c + c ≤ UINT_MOD)
    (hcreate : gport2_create c size m = .port p0)
    (hrun : run p0 no_history cs = some (p, h)) :
    h.delivered <+: h.accepted ∧
    h.accepted = h.delivered ++ buffered p ∧
    (h.num_delivered = h.num_accepted → h.delivered = h.accepted) := by
  have hc : c < UINT_MOD := by
    have := (gport2_create_eq_port hcreate).1
    omega
  obtain ⟨hwf, hcoh, hn, hs, hnr, hwi, hri⟩ := gport2_create_WF hcreate hc
  rcases hwf with ⟨-, hwf⟩ | ⟨-, hns⟩
  swap
  · obtain ⟨hq, -, -, rfl⟩ := NoStorage_run hns hrun
    have hnr1 := hq.2.2.2.2.2.2.2
    simp [no_history, buffered, hnr1]
  have hi0 : Inv p0 no_history := by
    refine ⟨hwf, hcoh, ?_, ?_, ?_, ?_⟩
    · simp [no_history, buffered, hnr]
    · simp [no_history, hnr]
    · simp [no_history, hwi]
    · simp [no_history, hri]
  obtain ⟨-, -, hacc, hnum, -, -⟩ := run_Inv hi0 (by rw [hn]; exact hsmall) hrun
  refine ⟨⟨buffered p, hacc.symm⟩, hacc, ?_⟩
  intro he
  have h0 : p.num_read_elements_available = 0 := by omega
  rw [hacc]
  simp [buffered, h0]

/-- C1 at a concrete sequence on a port of four 4-byte elements. -/
theorem C1_fifo_order_witness :
    example_history.delivered <+: example_history.accepted ∧
    example_history.accepted = example_history.delivered ++ buffered example_port ∧
    (example_history.num_delivered = example_history.num_accepted →
      example_history.delivered = example_history.accepted) :=
  C1_fifo_order 4 4 zeroed fresh_4x4 example_calls example_port example_history
    (by decide) (by decide) (by decide)

/-! ## C2: capacity invariant -/

/-- C2 (capacity invariant). In every state reachable from `gport2_create c size`
(with `c` an `unsigned int`) through gate calls and transfer loops,
`num_write_elements_available + num_read_elements_available` equals the capacity
`n = c` fixed at creation; and no count underflows or overflows: a returning
producer gate takes `k ≤ num_write_elements_available` from the write count and
adds it to the read count, a returning consumer gate does the reverse, the
32-bit results being the exact differences and sums. -/
theorem C2_capacity_invariant (c size : Nat) (p : gport2)
    (hc : c < UINT_MOD) (hr : Reachable c size p) :
    p.num_write_elements_available + p.num_read_elements_available = c ∧ p.n = c ∧
    (∀ w nmax q k b s, gport2_produce_available p w nmax = .ret q k b s →
      k ≤ p.num_write_elements_available ∧
      q.num_write_elements_available = p.num_write_elements_available - k ∧
      q.num_read_elements_available = p.num_read_elements_available + k) ∧
    (∀ r nmax q k b s, gport2_consume_available p r nmax = .ret q k b s →
      k ≤ p.num_read_elements_available ∧
      q.num_read_elements_available = p.num_read_elements_available - k ∧
      q.num_write_elements_available = p.num_write_elements_available + k) := by
  obtain ⟨hwf | hns, hn, -⟩ := Reachable_WF hc hr
  · refine ⟨?_, hn, ?_, ?_⟩
    · rw [← hn]; exact hwf.2.2.2.2.2
    · intro w nmax q k b s h
      obtain ⟨-, -, -, h1, h2, h3, -⟩ := produce_available_ret_WF hwf h
      exact ⟨h1, h2, h3⟩
    · intro r nmax q k b s h
      obtain ⟨-, -, -, h1, h2, h3, -⟩ := consume_available_ret_WF hwf h
      exact ⟨h1, h2, h3⟩
  · refine ⟨?_, hn, ?_, ?_⟩
    · rw [hns.2.2.2.2.2.2.1, hns.2.2.2.2.2.2.2, hn]
      rfl
    · intro w nmax q k b s h
      obtain ⟨rfl, -, -, rfl⟩ := NoStorage_produce_ret hns h
      exact ⟨Nat.zero_le _, rfl, rfl⟩
    · intro r nmax q k b s h
      exact (NoStorage_consume_ret hns h).elim

/-- C2 at the state reached by producing three elements into a fresh port of
capacity four: one slot writable, three readable. -/
theorem C2_capacity_invariant_witness :
    example_port_123.num_write_elements_available +
      example_port_123.num_read_elements_available = 4 ∧ example_port_123.n = 4 :=
  have h := C2_capacity_invariant 4 4 example_port_123 (by decide)
    (Reachable.produce_available fresh_4x4 example_port_123 (int32s [1, 2, 3]) 3 3
      (int32s [1, 2, 3]) false (Reachable.create zeroed fresh_4x4 (by decide)) (by decide))
  ⟨h.1, h.2.1⟩

/-! ## C3: wraparound of the write -/

/-- C3 (wraparound correctness of the write). In every state reachable from
`gport2_create c size`, with write index `w`, a returning
`gport2_produce_available` call that accepts `n` elements with `w + n` not
wrapping in 32-bit arithmetic leaves source element `i` in slot `(w + i) mod c`
of the storage, for every `i < n`; when `w + n > c` the first `c - w` elements
are in slots `w .. c-1` and the remaining `n - (c - w)` in slots `0 ..`.  And
the scenario of the specification holds: on a fresh port of capacity 4 with
4-byte elements whose storage was allocated (whatever the uninitialised
storage and the destination blocks hold), producing `[1,2,3]`, consuming 2, producing `[4,5,6]` and consuming 4
delivers `[1,2]` and then `[3,4,5,6]`. -/
theorem C3_wraparound_write (c size : Nat) (p q : gport2) (w b : List Nat)
    (_nmax n : Nat) (s : Bool)
    (hc : c < UINT_MOD) (hr : Reachable c size p)
    (hret : gport2_produce_available p w _nmax = .ret q n b s)
    (hw : p.write_index + n < UINT_MOD) :
    (∀ i, i < n → slot size q.v ((p.write_index + i) % c) = slot size w i) ∧
    (c < p.write_index + n →
      (∀ i, i < c - p.write_index → slot size q.v (p.write_index + i) = slot size w i) ∧
      (∀ j, j < n - (c - p.write_index) →
        slot size q.v j = slot size w (c - p.write_index + j))) ∧
    (∀ (m : uninit) (p0 : gport2) (r1 r2 : List Nat),
      gport2_create 4 4 m = .port p0 → m.v_null = false →
      r1.length = 8 → r2.length = 16 →
      ∃ p1 p2 p3 p4,
        gport2_produce 3 p0 (int32s [1, 2, 3]) 3 = .ret p1 (int32s [1, 2, 3]) 1 ∧
        gport2_consume 2 p1 r1 2 = .ret p2 (int32s [1, 2]) 1 ∧
        gport2_produce 3 p2 (int32s [4, 5, 6]) 3 = .ret p3 (int32s [4, 5, 6]) 1 ∧
        gport2_consume 4 p3 r2 4 = .ret p4 (int32s [3, 4, 5, 6]) 1) := by
  obtain ⟨hwf | hns, hn, hs⟩ := Reachable_WF hc hr
  swap
  · obtain ⟨rfl, -, -, -⟩ := NoStorage_produce_ret hns hret
    have hwi0 := hns.2.2.2.2.1
    have hc0 : 0 < c := by rw [← hn]; exact hns.2.1
    refine ⟨fun i hi => absurd hi (Nat.not_lt_zero i), fun hsplit => ?_, wraparound_scenario⟩
    rw [hwi0] at hsplit
    omega
  obtain ⟨-, -, hin, -⟩ := produce_available_ret_slots hwf hret hw
  rw [hn, hs] at hin
  have hwi : p.write_index < c := by rw [← hn]; exact hwf.2.2.2.1
  have hnle : n ≤ c := by
    have h1 := (produce_available_ret_WF hwf hret).2.2.2.1
    have h2 := hwf.2.2.2.2.2
    omega
  refine ⟨hin, ?_, wraparound_scenario⟩
  intro hsplit
  constructor
  · intro i hi
    have := hin i (by omega)
    rwa [Nat.mod_eq_of_lt (by omega)] at this
  · intro j hj
    have := hin (c - p.write_index + j) (by omega)
    rw [mod_wrap (by omega) (by omega)] at this
    rw [← this]
    congr 1; omega

/-- C3 at the wrapping call of the scenario: producing `[4,5,6]` at write index 3
of a port of capacity 4 puts source element 1 (the integer 5) in slot 0; and
the scenario evaluated on zeroed memory, state by state. -/
theorem C3_wraparound_write_witness :
    slot 4 example_port_3456.v ((example_port_3.write_index + 1) % 4) =
      slot 4 (int32s [4, 5, 6]) 1 ∧
    (gport2_create 4 4 zeroed = .port fresh_4x4 ∧
      gport2_produce 3 fresh_4x4 (int32s [1, 2, 3]) 3 =
        .ret example_port_123 (int32s [1, 2, 3]) 1 ∧
      gport2_consume 2 example_port_123 (List.replicate 8 0) 2 =
        .ret example_port_3 (int32s [1, 2]) 1 ∧
      gport2_produce 3 example_port_3 (int32s [4, 5, 6]) 3 =
        .ret example_port_3456 (int32s [4, 5, 6]) 1 ∧
      gport2_consume 4 example_port_3456 (List.replicate 16 0) 4 =
        .ret example_port (int32s [3, 4, 5, 6]) 1) :=
  ⟨(C3_wraparound_write 4 4 example_port_3 example_port_3456 (int32s [4, 5, 6])
    (int32s [4, 5, 6]) 3 3 false (by decide)
    (Reachable.consume_available example_port_123 example_port_3 (List.replicate 8 0) 2 2
      (int32s [1, 2]) false
      (Reachable.produce_available fresh_4x4 example_port_123 (int32s [1, 2, 3]) 3 3
        (int32s [1, 2, 3]) false (Reachable.create zeroed fresh_4x4 (by decide)) (by decide))
      (by decide))
    (by decide) (by decide)).1 1 (by decide), by decide⟩

/-! ## C4: no data loss under partial transfers -/

/-- C4 (no data loss under partial transfers). Take a port fresh from
`gport2_create c size` (any capacity `c ≥ 1` that is an `unsigned int`), a call
`gport2_produce(p, w, count)` and any interleaving of its gate calls with
`gport2_consume_available` calls of a consumer, in which no call faults.  If at
the end `gport2_produce` has returned (its remaining count is zero) and the
consumer has been delivered `count` elements, then: every returned gate call of
`gport2_produce`, as observed on the port it found and the port it left, is the
call of `gport2_produce_available` with the remaining count (`count` minus the
counts accepted before) and with the source advanced by exactly the bytes of
the elements accepted before, and it accepted at least one element; the
accepted counts sum to `count`; and the chunks delivered to the consumer,
concatenated, are exactly the first `count` elements of the source. -/
theorem C4_no_data_loss (c size : Nat) (m : uninit) (p0 : gport2) (w : List Nat)
    (count : Nat) (es : List event) (s : system)
    (hc : c < UINT_MOD) (hcount : count < UINT_MOD)
    (hcreate : gport2_create c size m = .port p0)
    (hrun : system_run (system_start p0 w count) es = some s)
    (hreturned : s.producer.remaining = 0)
    (hdrained : s.num_delivered = count) :
    (∀ k g, s.calls[k]? = some g →
      (∃ signal,
        gport2_produce_available g.before (w.drop (accepted_before s.calls k * size))
          (count - accepted_before s.calls k) =
          .ret g.after g.count (w.drop (accepted_before s.calls k * size)) signal) ∧
      1 ≤ g.count ∧ g.count ≤ count - accepted_before s.calls k) ∧
    accepted_before s.calls s.calls.length = count ∧
    s.delivered = w.take (count * size) := by
  obtain ⟨hwf, -⟩ := gport2_create_WF hcreate hc
  rcases hwf with ⟨hv, -⟩ | ⟨-, hns⟩
  · obtain ⟨hbuf, htot, hn, hsz, hinv, hsum, hcalls⟩ :=
      system_run_SInv hcount (system_start_SInv w count hc hcreate hv) hrun
    obtain ⟨hwf, hcoh, hacc, hnum, hwle, hrle⟩ := hinv
    simp only [system_history] at hacc hnum
    have htotal : s.producer.total = count := by omega
    refine ⟨hcalls, by rw [hsum, htotal], ?_⟩
    have h0 : s.port.num_read_elements_available = 0 := by omega
    rw [hbuf, htotal, hsz] at hacc
    rw [hacc]
    simp [buffered, h0]
  · have hns0 : NoStorage (system_start p0 w count).port := hns
    obtain ⟨-, h2, h3, h4, -⟩ := system_run_NoStorage hns0 hrun
    rw [h2] at hreturned
    simp only [system_start] at hreturned h3 h4
    subst hreturned
    rw [h3, h4]
    refine ⟨?_, rfl, by simp⟩
    intro k g hk
    simp at hk

/-- C4 on a port of capacity two and a source of `3 * 2` elements: four gate
calls accept 2, 2, 1 and 1 elements, each being the gate call with the
remaining count on the source advanced by what was accepted before, and the
consumer receives `[1, 2, 3, 4, 5, 6]`. -/
theorem C4_no_data_loss_witness :
    (∀ k g, example_system.calls[k]? = some g →
      (∃ signal,
        gport2_produce_available g.before
          (List.drop (accepted_before example_system.calls k * 1) [1, 2, 3, 4, 5, 6])
          (6 - accepted_before example_system.calls k) =
          .ret g.after g.count
            (List.drop (accepted_before example_system.calls k * 1) [1, 2, 3, 4, 5, 6])
            signal) ∧
      1 ≤ g.count ∧ g.count ≤ 6 - accepted_before example_system.calls k) ∧
    accepted_before example_system.calls example_system.calls.length = 6 ∧
    example_system.delivered = List.take (6 * 1) [1, 2, 3, 4, 5, 6] :=
  C4_no_data_loss 2 1 zeroed fresh_2x1 [1, 2, 3, 4, 5, 6] 6 example_events example_system
    (by decide) (by decide) (by decide) (by decide) (by decide) (by decide)
/-! ## C5: round trip -/

/-- C5 (round trip), evaluated where it fails.  The port `wrap_port_empty`
(capacity `2^32 - 1`, one-byte elements, empty, both indices `2^32 - 2`) is
reachable from `gport2_create`; `gport2_produce` of the three elements
`[1, 2, 3]` does not complete the transfer: the 32-bit sum
`write_index + 3` wraps to `1`, the split test `1 > n` fails, and the single
`memmove` of three bytes from offset `2^32 - 2` runs past the end of the
`2^32 - 1` bytes of storage. -/
theorem C5_round_trip_overflows :
    Reachable 4294967295 1 wrap_port_empty ∧
    wrap_port_empty.n = 4294967295 ∧ wrap_port_empty.num_read_elements_available = 0 ∧
    wrap_port_empty.write_index = 4294967294 ∧
    u32_add wrap_port_empty.write_index 3 = 1 ∧
    gport2_produce 3 wrap_port_empty [1, 2, 3] 3 = .fault :=
  ⟨wrap_port_empty_reachable, rfl, rfl, rfl, by decide,
    gport2_produce_fault 2 (by decide)
      (@produce_available_zero_port_wrap 4294967295 4294967294 4294967294 0 3 3 _
        (by decide) (by decide) (by decide) (by decide) (by decide))⟩

/-! ## C6: saturation of the producer gate -/

/-- C6 (saturation of the producer gate). In a state whose two counts fit an
`unsigned int` together (in every reachable state they add up to the capacity),
a returning `gport2_produce_available` call found
`num_write_elements_available = a > 0`, reports `min _nmax a`, decreases
`num_write_elements_available` by exactly that amount and increases
`num_read_elements_available` by exactly that amount. -/
theorem C6_producer_saturation (p : gport2) (w : List Nat) (_nmax : Nat)
    (q : gport2) (k : Nat) (b : List Nat) (s : Bool)
    (hfit : p.num_write_elements_available + p.num_read_elements_available < UINT_MOD)
    (h : gport2_produce_available p w _nmax = .ret q k b s) :
    0 < p.num_write_elements_available ∧
    k = min _nmax p.num_write_elements_available ∧
    k ≤ p.num_write_elements_available ∧
    q.num_write_elements_available = p.num_write_elements_available - k ∧
    q.num_read_elements_available = p.num_read_elements_available + k := by
  obtain ⟨h0, hk, -, -, v2, -, rfl⟩ := produce_available_ret_core h
  have hkle : k ≤ p.num_write_elements_available := by omega
  refine ⟨by omega, hk, hkle, ?_, ?_⟩
  · exact u32_sub_eq hkle (by omega)
  · exact u32_add_eq (by omega)

/-- C6 on the example of the specification: with capacity 4 and 4 writable
slots, `_nmax = 10` reports `4`, leaving `0` writable and `4` readable. -/
theorem C6_producer_saturation_witness :
    gport2_produce_available fresh_4x4 (int32s [1, 2, 3, 4, 5, 6, 7, 8, 9, 10]) 10 =
      .ret { fresh_4x4 with v := int32s [1, 2, 3, 4], num_write_elements_available := 0
                            num_read_elements_available := 4 }
        4 (int32s [1, 2, 3, 4, 5, 6, 7, 8, 9, 10]) false ∧
    (0 < 4 ∧ 4 = min 10 4 ∧ 4 ≤ 4 ∧ 0 = 4 - 4 ∧ 4 = 0 + 4) :=
  ⟨by decide,
   C6_producer_saturation fresh_4x4 (int32s [1, 2, 3, 4, 5, 6, 7, 8, 9, 10]) 10
     { fresh_4x4 with v := int32s [1, 2, 3, 4], num_write_elements_available := 0
                      num_read_elements_available := 4 }
     4 (int32s [1, 2, 3, 4, 5, 6, 7, 8, 9, 10]) false (by decide) (by decide)⟩

/-! ## C7: the consumer gate -/

/-- C7 (the consumer gate as the mirror of the producer gate), evaluated where
it fails.  The port `wrap_port` (capacity `c = 2^32 - 1`, one-byte elements,
read index `q = 2^32 - 2`, three elements buffered) is reachable from
`gport2_create`; `gport2_consume_available` asked for three elements returns
`3` and takes them from the read to the write count, but sets `read_index` to
`((q + 3) mod 2^32) mod c = 1`, whereas `(q + 3) mod c = 2`. -/
theorem C7_consumer_read_index_wraps :
    Reachable 4294967295 1 wrap_port ∧
    wrap_port.n = 4294967295 ∧ wrap_port.read_index = 4294967294 ∧
    wrap_port.num_read_elements_available = 3 ∧
    gport2_consume_available wrap_port (List.replicate 3 0) 3 =
      .ret (zero_port 4294967295 2 1 0) 3 (List.replicate 3 0) false ∧
    (zero_port 4294967295 2 1 0).read_index = 1 ∧
    (wrap_port.read_index + 3) % wrap_port.n = 2 :=
  ⟨wrap_port_reachable, rfl, rfl, rfl,
    consume_available_zero_port (by decide) (by decide) (by decide) (by decide) (by decide)
      (by decide) (by decide) (by decide) (by decide) (by decide),
    rfl, by decide⟩

/-! ## C8: a gate reports zero only when asked for zero -/

/-- C8 (a gate never reports zero unless asked for zero). For every returning
call of `gport2_produce_available`, and of `gport2_consume_available`, in any
state, the reported count is `0` exactly when `_nmax = 0`, and for `_nmax ≥ 1`
it lies between `1` and `_nmax`. -/
theorem C8_gate_count (p : gport2) (buf : List Nat) (_nmax : Nat)
    (q : gport2) (k : Nat) (b : List Nat) (s : Bool) :
    (gport2_produce_available p buf _nmax = .ret q k b s →
      (k = 0 ↔ _nmax = 0) ∧ (1 ≤ _nmax → 1 ≤ k ∧ k ≤ _nmax)) ∧
    (gport2_consume_available p buf _nmax = .ret q k b s →
      (k = 0 ↔ _nmax = 0) ∧ (1 ≤ _nmax → 1 ≤ k ∧ k ≤ _nmax)) := by
  constructor
  · intro h
    obtain ⟨h0, hk, -⟩ := produce_available_ret_core h
    omega
  · intro h
    obtain ⟨h0, hk, -⟩ := consume_available_ret_core h
    omega

/-- C8 at concrete calls: asked for three of four free slots the producer gate
reports `3`, and asked for two of three buffered elements the consumer gate
reports `2`. -/
theorem C8_gate_count_witness :
    (gport2_produce_available fresh_4x4 (int32s [1, 2, 3]) 3 =
        .ret example_port_123 3 (int32s [1, 2, 3]) false ∧
      ((3 = 0 ↔ 3 = 0) ∧ (1 ≤ 3 → 1 ≤ 3 ∧ 3 ≤ 3))) ∧
    (gport2_consume_available example_port_123 (List.replicate 8 0) 2 =
        .ret example_port_3 2 (int32s [1, 2]) false ∧
      ((2 = 0 ↔ 2 = 0) ∧ (1 ≤ 2 → 1 ≤ 2 ∧ 2 ≤ 2))) :=
  ⟨⟨by decide,
    (C8_gate_count fresh_4x4 (int32s [1, 2, 3]) 3 example_port_123 3 (int32s [1, 2, 3])
      false).1 (by decide)⟩,
   ⟨by decide,
    (C8_gate_count example_port_123 (List.replicate 8 0) 2 example_port_3 2 (int32s [1, 2])
      false).2 (by decide)⟩⟩

/-! ## C9: creation -/

/-- C9 (creation). `gport2_create _n _size` exits exactly when `_n = 0` or
`_size = 0`.  Otherwise, when `malloc` returned the block of the struct, it
returns a port with capacity `_n`, element size `_size`, both indices `0`, `_n`
writable and `0` readable elements, whatever the uninitialised memory holds;
the storage of that port is a block of `_n * _size` bytes when `malloc`
returned it, and `NULL` when it did not (the result is not tested).  When
`malloc` returned `NULL` for the struct, the first assignment writes through
it.  Every port that is returned has the fields above. -/
theorem C9_create (_n _size : Nat) (m : uninit) :
    (gport2_create _n _size m = .exit ↔ (_n = 0 ∨ _size = 0)) ∧
    (¬ (_n = 0 ∨ _size = 0) → m.p_null = false →
      ∃ p, gport2_create _n _size m = .port p ∧
        p.n = _n ∧ p.size = _size ∧ p.write_index = 0 ∧ p.read_index = 0 ∧
        p.num_write_elements_available = _n ∧ p.num_read_elements_available = 0 ∧
        (m.v_null = false → p.v.length = _n * _size) ∧
        (m.v_null = true → p.v = [])) ∧
    (¬ (_n = 0 ∨ _size = 0) → m.p_null = true → gport2_create _n _size m = .fault) ∧
    (∀ p, gport2_create _n _size m = .port p →
      ¬ (_n = 0 ∨ _size = 0) ∧
      p.n = _n ∧ p.size = _size ∧ p.write_index = 0 ∧ p.read_index = 0 ∧
      p.num_write_elements_available = _n ∧ p.num_read_elements_available = 0) := by
  refine ⟨?_, ?_, ?_, ?_⟩
  · unfold gport2_create
    constructor
    · intro h
      by_contra hne
      rw [if_neg (fun e => hne (Or.inl e)), if_neg (fun e => hne (Or.inr e))] at h
      split at h <;> cases h
    · rintro (h | h)
      · rw [if_pos h]
      · by_cases h0 : _n = 0
        · rw [if_pos h0]
        · rw [if_neg h0, if_pos h]
  · intro hne hp
    unfold gport2_create
    rw [if_neg (fun e => hne (Or.inl e)), if_neg (fun e => hne (Or.inr e)), hp]
    refine ⟨_, rfl, rfl, rfl, rfl, rfl, rfl, rfl, ?_, ?_⟩
    · intro hv
      simp [hv]
    · intro hv
      simp [hv]
  · intro hne hp
    unfold gport2_create
    rw [if_neg (fun e => hne (Or.inl e)), if_neg (fun e => hne (Or.inr e)), hp]
    rfl
  · intro p h
    obtain ⟨h1, h2, -, rfl⟩ := gport2_create_eq_port h
    exact ⟨fun e => e.elim h1 h2, rfl, rfl, rfl, rfl, rfl, rfl⟩

/-- C9 at concrete arguments: `gport2_create(4, 4)` returns the fresh port,
`gport2_create(0, 4)` and `gport2_create(4, 0)` exit, and `gport2_create(4, 4)`
returns the port with `v == NULL` when the storage allocation fails. -/
theorem C9_create_witness :
    gport2_create 4 4 zeroed = .port fresh_4x4 ∧
    gport2_create 0 4 zeroed = .exit ∧ gport2_create 4 0 zeroed = .exit ∧
    gport2_create 4 4 no_storage = .port null_4x4 ∧ null_4x4.v = [] :=
  ⟨by decide, ((C9_create 0 4 zeroed).1).2 (Or.inl rfl),
    ((C9_create 4 0 zeroed).1).2 (Or.inr rfl), by decide, rfl⟩
/-! ## C10: blocking -/

theorem consume_available_of_empty {p : gport2} (h0 : p.num_read_elements_available = 0)
    (r : List Nat) (nmax : Nat) :
    gport2_consume_available p r nmax = .wait { p with consumer_waiting := true } := by
  unfold gport2_consume_available
  rw [if_pos h0]

theorem produce_available_of_full {p : gport2} (h0 : p.num_write_elements_available = 0)
    (w : List Nat) (nmax : Nat) :
    gport2_produce_available p w nmax = .wait { p with producer_waiting := true } := by
  unfold gport2_produce_available
  rw [if_pos h0]

/-- From an empty port, a consumer gate call returns only after a producer gate
call that accepted at least one element has returned. -/
theorem results_consume_after_produce {cs : List call} : ∀ {p : gport2} {i : Nat}
    {r : List Nat} {nmax : Nat} {q : gport2} {k : Nat} {b : List Nat} {s : Bool},
    p.num_read_elements_available = 0 →
    cs[i]? = some (.consume_available r nmax) →
    (results p cs)[i]? = some (.ret q k b s) →
    ∃ j w m q1 k1 b1 s1, j < i ∧ cs[j]? = some (.produce_available w m) ∧
      (results p cs)[j]? = some (.ret q1 k1 b1 s1) ∧ 0 < k1 := by
  induction cs with
  | nil =>
    intro p i r nmax q k b s _ hc _
    simp at hc
  | cons c cs ih =>
    intro p i r nmax q k b s h0 hc hr
    cases c with
    | consume_available r0 n0 =>
      unfold results at hr
      rw [consume_available_of_empty h0] at hr
      simp only at hr
      cases i with
      | zero => simp at hr
      | succ i =>
        simp only [List.getElem?_cons_succ] at hc hr
        obtain ⟨j, w, m, q1, k1, b1, s1, hj, h1, h2, h3⟩ := ih (p := { p with consumer_waiting := true }) h0 hc hr
        refine ⟨j + 1, w, m, q1, k1, b1, s1, by omega, ?_, ?_, h3⟩
        · simpa using h1
        · unfold results
          rw [consume_available_of_empty h0]
          simpa using h2
    | produce_available w0 m0 =>
      cases i with
      | zero => simp at hc
      | succ i =>
        unfold results at hr
        unfold results
        cases hg : gport2_produce_available p w0 m0 with
        | wait q0 =>
          rw [hg] at hr
          simp only [List.getElem?_cons_succ] at hc hr
          obtain ⟨-, rfl⟩ := produce_available_wait hg
          obtain ⟨j, w, m, q1, k1, b1, s1, hj, h1, h2, h3⟩ :=
            ih (p := { p with producer_waiting := true }) h0 hc hr
          refine ⟨j + 1, w, m, q1, k1, b1, s1, by omega, ?_, ?_, h3⟩
          · simpa using h1
          · simpa using h2
        | fault =>
          rw [hg] at hr
          simp at hr
        | ret q0 k0 b0 s0 =>
          rw [hg] at hr
          simp only [List.getElem?_cons_succ] at hc hr
          by_cases hk0 : k0 = 0
          · obtain ⟨-, -, -, -, v2, -, hq⟩ := produce_available_ret_core hg
            have hq0 : q0.num_read_elements_available = 0 := by
              rw [hq, hk0]; simp only; rw [h0]; rfl
            obtain ⟨j, w, m, q1, k1, b1, s1, hj, h1, h2, h3⟩ := ih hq0 hc hr
            refine ⟨j + 1, w, m, q1, k1, b1, s1, by omega, ?_, ?_, h3⟩
            · simpa using h1
            · simpa using h2
          · exact ⟨0, w0, m0, q0, k0, b0, s0, by omega, by simp, by simp,
              Nat.pos_of_ne_zero hk0⟩

/-- C10 (blocking, as a property of the atomic gate steps). In any state:
a gate call returns only from a state where its count is positive; where its
count is zero its step is to set its waiting flag and suspend, with indices,
counts and storage unchanged; where its count is not zero it never suspends,
and it returns whenever its copies stay inside the blocks (for the producer,
when moreover the index sum does not wrap).  Hence, in a sequence of gate
calls started on an empty port, a consumer call that returns is preceded by a
producer call that returned having accepted at least one element. -/
theorem C10_blocking (p : gport2) (buf : List Nat) (_nmax : Nat) :
    (∀ q k b s, gport2_consume_available p buf _nmax = .ret q k b s →
      0 < p.num_read_elements_available) ∧
    (∀ q k b s, gport2_produce_available p buf _nmax = .ret q k b s →
      0 < p.num_write_elements_available) ∧
    (p.num_read_elements_available = 0 →
      gport2_consume_available p buf _nmax = .wait { p with consumer_waiting := true }) ∧
    (p.num_write_elements_available = 0 →
      gport2_produce_available p buf _nmax = .wait { p with producer_waiting := true }) ∧
    (p.num_read_elements_available ≠ 0 →
      (∀ q, gport2_consume_available p buf _nmax ≠ .wait q) ∧
      (WF p → min _nmax p.num_read_elements_available * p.size ≤ buf.length →
        ∃ q b s, gport2_consume_available p buf _nmax =
          .ret q (min _nmax p.num_read_elements_available) b s)) ∧
    (p.num_write_elements_available ≠ 0 →
      (∀ q, gport2_produce_available p buf _nmax ≠ .wait q) ∧
      (WF p → min _nmax p.num_write_elements_available * p.size ≤ buf.length →
        p.write_index + min _nmax p.num_write_elements_available < UINT_MOD →
        ∃ q b s, gport2_produce_available p buf _nmax =
          .ret q (min _nmax p.num_write_elements_available) b s)) ∧
    (p.num_read_elements_available = 0 →
      ∀ (cs : List call) (i : Nat) (r : List Nat) (nmax : Nat) (q : gport2) (k : Nat)
        (b : List Nat) (s : Bool),
        cs[i]? = some (.consume_available r nmax) →
        (results p cs)[i]? = some (.ret q k b s) →
        ∃ j w m q1 k1 b1 s1, j < i ∧ cs[j]? = some (.produce_available w m) ∧
          (results p cs)[j]? = some (.ret q1 k1 b1 s1) ∧ 0 < k1) := by
  refine ⟨?_, ?_, ?_, ?_, ?_, ?_, ?_⟩
  · intro q k b s h
    exact Nat.pos_of_ne_zero (consume_available_ret_core h).1
  · intro q k b s h
    exact Nat.pos_of_ne_zero (produce_available_ret_core h).1
  · intro h0
    exact consume_available_of_empty h0 buf _nmax
  · intro h0
    exact produce_available_of_full h0 buf _nmax
  · intro h0
    exact ⟨fun q h => h0 (consume_available_wait h).1,
      fun hp hlen => consume_available_returns hp h0 hlen⟩
  · intro h0
    exact ⟨fun q h => h0 (produce_available_wait h).1,
      fun hp hlen hw => produce_available_returns hp h0 hlen hw⟩
  · intro h0 cs i r nmax q k b s hc hr
    exact results_consume_after_produce h0 hc hr

/-- C10 on the fresh port of four elements: a consumer call suspends with only
its flag changed, a producer call returns, and the consumer call made after it
returns. -/
theorem C10_blocking_witness :
    gport2_consume_available fresh_4x4 (List.replicate 8 0) 2 =
      .wait { fresh_4x4 with consumer_waiting := true } ∧
    results fresh_4x4 [.consume_available (List.replicate 8 0) 2,
        .produce_available (int32s [1, 2, 3]) 3, .consume_available (List.replicate 8 0) 2] =
      [.wait { fresh_4x4 with consumer_waiting := true },
       .ret { example_port_123 with consumer_waiting := true } 3 (int32s [1, 2, 3]) true,
       .ret example_port_3 2 (int32s [1, 2]) false] :=
  ⟨(C10_blocking fresh_4x4 (List.replicate 8 0) 2).2.2.1 rfl, by decide⟩

/-! ## C11: no lost wake-up -/

/-- C11 (no lost wake-up). Take any interleaving `as` of producer-role and
consumer-role threads on a port `p` with no thread in a gate at the start, and
the state `t` it leads to.  If a producer is suspended in the wait loop of
`gport2_produce_available` then `num_write_elements_available` is zero and
`producer_waiting` is set, so every `gport2_consume_available` call that
returns from `t` calls `pthread_cond_signal` and leaves the producer woken;
symmetrically for a suspended consumer and `gport2_produce_available`.  Hence
no thread is suspended while its count is non-zero, and a thread that tests
its loop condition with a non-zero count does not wait again. -/
theorem C11_no_lost_wakeup (p : gport2) (as : List action) (t : threads)
    (hrun : threads_run (threads_start p) as = some t) :
    (∀ w n, t.producer = .suspended w n →
      t.port.num_write_elements_available = 0 ∧ t.port.producer_waiting = true ∧
      ∀ r nmax q k b s, gport2_consume_available t.port r nmax = .ret q k b s →
        s = true ∧
        consumer_runs t r nmax =
          some { port := q, producer := .woken w n, consumer := .idle }) ∧
    (∀ r n, t.consumer = .suspended r n →
      t.port.num_read_elements_available = 0 ∧ t.port.consumer_waiting = true ∧
      ∀ w nmax q k b s, gport2_produce_available t.port w nmax = .ret q k b s →
        s = true ∧
        producer_runs t w nmax =
          some { port := q, producer := .idle, consumer := .woken r n }) ∧
    (t.port.num_write_elements_available ≠ 0 →
      (∀ w n, t.producer ≠ .suspended w n) ∧
      ∀ w n q, gport2_produce_available t.port w n ≠ .wait q) ∧
    (t.port.num_read_elements_available ≠ 0 →
      (∀ r n, t.consumer ≠ .suspended r n) ∧
      ∀ r n q, gport2_consume_available t.port r n ≠ .wait q) := by
  have hi := threads_run_TInv (threads_start_TInv p) hrun
  refine ⟨fun w n hw => ?_, fun r n hr => ?_, fun h0 => ?_, fun h0 => ?_⟩
  · obtain ⟨hf, hz⟩ := hi.1 w n hw
    refine ⟨hz, hf, fun r nmax q k b s hq => ?_⟩
    obtain ⟨-, -, hs, -, -⟩ := consume_available_ret_core hq
    rw [hf] at hs
    subst hs
    refine ⟨rfl, ?_⟩
    unfold consumer_runs
    rw [hq, hw]
    rfl
  · obtain ⟨hf, hz⟩ := hi.2 r n hr
    refine ⟨hz, hf, fun w nmax q k b s hq => ?_⟩
    obtain ⟨-, -, -, hs, -⟩ := produce_available_ret_core hq
    rw [hf] at hs
    subst hs
    refine ⟨rfl, ?_⟩
    unfold producer_runs
    rw [hq, hr]
    rfl
  · exact ⟨fun w n hw => h0 (hi.1 w n hw).2,
      fun w n q hq => h0 (produce_available_wait hq).1⟩
  · exact ⟨fun r n hr => h0 (hi.2 r n hr).2,
      fun r n q hq => h0 (consume_available_wait hq).1⟩

/-- C11 on the fresh port of four integers: a consumer that called
`gport2_consume_available` is suspended, and the producer gate call that puts
three integers signals it and leaves it woken (its flag stays set until it
leaves its wait loop). -/
theorem C11_no_lost_wakeup_witness :
    threads_run (threads_start fresh_4x4) [.consume_call (List.replicate 8 0) 2] =
      some consumer_suspended_4x4 ∧
    consumer_suspended_4x4.port.num_read_elements_available = 0 ∧
    consumer_suspended_4x4.port.consumer_waiting = true ∧
    producer_runs consumer_suspended_4x4 (int32s [1, 2, 3]) 3 =
      some { port := { example_port_123 with consumer_waiting := true }, producer := .idle,
             consumer := .woken (List.replicate 8 0) 2 } :=
  have h := (C11_no_lost_wakeup fresh_4x4 [.consume_call (List.replicate 8 0) 2]
    consumer_suspended_4x4 (by decide)).2.1 (List.replicate 8 0) 2 rfl
  ⟨by decide, h.1, h.2.1,
    (h.2.2 (int32s [1, 2, 3]) 3 { example_port_123 with consumer_waiting := true } 3
      (int32s [1, 2, 3]) true (by decide)).2⟩

/-! ## C12: index advance under machine arithmetic -/

/-- C12 (index advance under machine arithmetic), evaluated where it fails, at
capacity `c = 2^32 - 1` with one-byte elements, on two states that satisfy the
port invariants and are reachable from `gport2_create`.
Consumer: on `wrap_port` (read index `2^32 - 2`, three elements buffered)
`gport2_consume_available` asked for two elements returns `2` and sets
`read_index` to `((2^32 - 2 + 2) mod 2^32) mod c = 0`, whereas
`(2^32 - 2 + 2) mod c = 1`.
Producer: on `wrap_port_empty` (write index `2^32 - 2`, all of the storage
writable) a call with two elements has `write_index + 2 > c`, yet the test
`_p->write_index + n > _p->n` of the program compares the wrapped sum `0` and
is false: the split branch is not taken, and the single `memmove` of two bytes
from offset `2^32 - 2` leaves the `2^32 - 1` bytes of storage. -/
theorem C12_index_sum_wraps :
    Reachable 4294967295 1 wrap_port ∧ WF wrap_port ∧
    wrap_port.read_index = 4294967294 ∧
    gport2_consume_available wrap_port (List.replicate 2 0) 2 =
      .ret (zero_port 4294967295 2 0 1) 2 (List.replicate 2 0) false ∧
    (zero_port 4294967295 2 0 1).read_index = 0 ∧
    (wrap_port.read_index + 2) % wrap_port.n = 1 ∧
    Reachable 4294967295 1 wrap_port_empty ∧ WF wrap_port_empty ∧
    min 2 wrap_port_empty.num_write_elements_available = 2 ∧
    wrap_port_empty.n < wrap_port_empty.write_index + 2 ∧
    ¬ (u32_add wrap_port_empty.write_index 2 > wrap_port_empty.n) ∧
    gport2_produce_available wrap_port_empty [1, 2] 2 = .fault :=
  ⟨wrap_port_reachable,
    zero_port_WF (by decide) (by decide) (by decide) (by decide) (by decide),
    rfl,
    consume_available_zero_port (by decide) (by decide) (by decide) (by decide) (by decide)
      (by decide) (by decide) (by decide) (by decide) (by decide),
    rfl, by decide,
    wrap_port_empty_reachable,
    zero_port_WF (by decide) (by decide) (by decide) (by decide) (by decide),
    by decide, by decide, by decide,
    @produce_available_zero_port_wrap 4294967295 4294967294 4294967294 0 2 2 _
      (by decide) (by decide) (by decide) (by decide) (by decide)⟩

/-! ## C13: bounds safety of the copies -/

/-- C13 (bounds safety of the copies). In every state reachable from
`gport2_create c size`, for the count `n = min _nmax available` that a gate
passes to its circular copy: `n` is at most the available region size; the
producer gate, where `write_index + n` does not wrap, takes the unsplit branch
only with `write_index + n ≤ c` and the split branch only with
`b = c - write_index` (slots `write_index .. c-1`) and `n - b ≤ write_index`
(slots `0 .. n-b-1`); the consumer gate likewise with `read_index`, with no
condition on the index sum.  The storage is the block of `c * size` bytes that
`malloc` returned, or `NULL` when it returned none.  On the block no copy
leaves the storage: a gate call faults only when the caller's own block is
shorter than `n` elements.  Through `NULL` (the result of `malloc` is not
tested) every producer call of one element or more faults, and the consumer
gate only waits. -/
theorem C13_copy_bounds (c size : Nat) (p : gport2) (buf : List Nat) (_nmax : Nat)
    (hc : c < UINT_MOD) (hr : Reachable c size p) :
    (p.v = [] ∨ p.v.length = c * size) ∧
    (∀ n, n = min _nmax p.num_write_elements_available →
      p.write_index + n < UINT_MOD →
      n ≤ p.num_write_elements_available ∧
      (¬ u32_add p.write_index n > p.n → p.write_index + n ≤ c) ∧
      (u32_add p.write_index n > p.n →
        c < p.write_index + n ∧ u32_sub p.n p.write_index = c - p.write_index ∧
        u32_sub n (u32_sub p.n p.write_index) = n - (c - p.write_index) ∧
        n - (c - p.write_index) ≤ p.write_index) ∧
      (p.v ≠ [] → n * size ≤ buf.length → gport2_produce_available p buf _nmax ≠ .fault) ∧
      (p.v = [] → 0 < n → gport2_produce_available p buf _nmax = .fault)) ∧
    (∀ n, n = min _nmax p.num_read_elements_available →
      n ≤ p.num_read_elements_available ∧
      (¬ n > u32_sub p.n p.read_index → p.read_index + n ≤ c) ∧
      (n > u32_sub p.n p.read_index →
        c < p.read_index + n ∧ u32_sub p.n p.read_index = c - p.read_index ∧
        u32_sub n (u32_sub p.n p.read_index) = n - (c - p.read_index) ∧
        n - (c - p.read_index) ≤ p.read_index) ∧
      (p.v ≠ [] → n * size ≤ buf.length → gport2_consume_available p buf _nmax ≠ .fault) ∧
      (p.v = [] → n = 0 ∧
        gport2_consume_available p buf _nmax = .wait { p with consumer_waiting := true })) := by
  obtain ⟨hc0, hn, hs, hwi, hri, hsum, hv⟩ := Reachable_ranges hc hr
  refine ⟨hv, ?_, ?_⟩
  · intro n hk hw
    have hkle : n ≤ p.num_write_elements_available := by
      rw [hk]; exact Nat.min_le_right _ _
    have ea : u32_add p.write_index n = p.write_index + n := u32_add_eq hw
    have eb : u32_sub p.n p.write_index = c - p.write_index := by
      rw [hn]; exact u32_sub_eq (by omega) hc
    rw [ea, eb, hn]
    refine ⟨hkle, by omega, ?_, ?_, ?_⟩
    · intro hsplit
      exact ⟨hsplit, rfl, u32_sub_eq (by omega) (by omega), by omega⟩
    · intro hne hlen h
      obtain ⟨hwf, -, -⟩ := Reachable_WF_of_storage hc hr hne
      by_cases h0 : p.num_write_elements_available = 0
      · rw [produce_available_of_full h0] at h
        cases h
      · obtain ⟨q, b, s, hq⟩ := @produce_available_returns p buf _nmax hwf h0
          (by rw [← hk, hs]; exact hlen) (by rw [← hk]; exact hw)
        rw [hq] at h
        cases h
    · intro hnull hpos
      have hns := Reachable_NoStorage_of_null hc hr hnull
      have hnmax : 0 < _nmax := by
        have := Nat.min_le_left _nmax p.num_write_elements_available
        omega
      exact NoStorage_produce_fault buf hns hnmax
  · intro n hk
    have hkle : n ≤ p.num_read_elements_available := by
      rw [hk]; exact Nat.min_le_right _ _
    have eb : u32_sub p.n p.read_index = c - p.read_index := by
      rw [hn]; exact u32_sub_eq (by omega) hc
    rw [eb]
    refine ⟨hkle, by omega, ?_, ?_, ?_⟩
    · intro hsplit
      exact ⟨by omega, rfl, u32_sub_eq (by omega) (by omega), by omega⟩
    · intro hne hlen h
      obtain ⟨hwf, -, -⟩ := Reachable_WF_of_storage hc hr hne
      by_cases h0 : p.num_read_elements_available = 0
      · rw [consume_available_of_empty h0] at h
        cases h
      · obtain ⟨q, b, s, hq⟩ := @consume_available_returns p buf _nmax hwf h0
          (by rw [← hk, hs]; exact hlen)
        rw [hq] at h
        cases h
    · intro hnull
      have hns := Reachable_NoStorage_of_null hc hr hnull
      have hnr := hns.2.2.2.2.2.2.2
      exact ⟨by omega, NoStorage_consume_wait buf _nmax hns⟩

/-- C13 at the wrapping call of the scenario: write index 3, three elements
asked of three free slots, capacity 4: the split branch, one slot at the tail
and two from slot 0, and no fault. -/
theorem C13_copy_bounds_witness :
    (example_port_3.v = [] ∨ example_port_3.v.length = 4 * 4) ∧
    (3 ≤ example_port_3.num_write_elements_available ∧
      (¬ u32_add example_port_3.write_index 3 > example_port_3.n →
        example_port_3.write_index + 3 ≤ 4) ∧
      (u32_add example_port_3.write_index 3 > example_port_3.n →
        4 < example_port_3.write_index + 3 ∧
        u32_sub example_port_3.n example_port_3.write_index =
          4 - example_port_3.write_index ∧
        u32_sub 3 (u32_sub example_port_3.n example_port_3.write_index) =
          3 - (4 - example_port_3.write_index) ∧
        3 - (4 - example_port_3.write_index) ≤ example_port_3.write_index) ∧
      (example_port_3.v ≠ [] → 3 * 4 ≤ (int32s [4, 5, 6]).length →
        gport2_produce_available example_port_3 (int32s [4, 5, 6]) 3 ≠ .fault) ∧
      (example_port_3.v = [] → 0 < 3 →
        gport2_produce_available example_port_3 (int32s [4, 5, 6]) 3 = .fault)) :=
  have h := C13_copy_bounds 4 4 example_port_3 (int32s [4, 5, 6]) 3 (by decide)
    example_port_3_reachable
  ⟨h.1, h.2.1 3 (by decide) (by decide)⟩
/-! ## C14: the waiting flags -/

/-- C14 (the waiting flags record whether a thread is blocked in the gate),
evaluated where it fails.  `gport2_create` assigns neither `producer_waiting`
nor `consumer_waiting`, so the port it returns has in them what `malloc` left:
on `garbage` the call `gport2_create(4, 4)` returns `garbage_4x4` with both
flags set although no thread is in a gate, the flags do not follow the
threads, the first producer gate call finds `consumer_waiting` set and calls
`pthread_cond_signal` with no consumer waiting, and after that completed call
`consumer_waiting` is still set. -/
theorem C14_flags_uninitialised :
    gport2_create 4 4 garbage = .port garbage_4x4 ∧
    garbage_4x4.producer_waiting = true ∧ garbage_4x4.consumer_waiting = true ∧
    (threads_start garbage_4x4).producer = .idle ∧
    (threads_start garbage_4x4).consumer = .idle ∧
    ¬ flags_track (threads_start garbage_4x4) ∧
    gport2_produce_available garbage_4x4 (int32s [1]) 1 =
      .ret garbage_4x4_1 1 (int32s [1]) true ∧
    threads_run (threads_start garbage_4x4) [.produce_call (int32s [1]) 1] =
      some { port := garbage_4x4_1, producer := .idle, consumer := .idle } ∧
    garbage_4x4_1.consumer_waiting = true :=
  ⟨by decide, rfl, rfl, rfl, rfl,
    fun h => absurd (h.1.1 rfl) (fun h2 => h2 rfl),
    by decide, by decide, rfl⟩

/-! ## C15: index range invariant -/

/-- C15 (index range invariant). In every state reachable from
`gport2_create c size` (with `c` an `unsigned int`) through gate calls and
transfer loops, `write_index < c` and `read_index < c`, and both
`num_write_elements_available` and `num_read_elements_available` lie between
`0` and `c`. -/
theorem C15_index_range (c size : Nat) (p : gport2)
    (hc : c < UINT_MOD) (hr : Reachable c size p) :
    p.write_index < c ∧ p.read_index < c ∧
    0 ≤ p.num_write_elements_available ∧ p.num_write_elements_available ≤ c ∧
    0 ≤ p.num_read_elements_available ∧ p.num_read_elements_available ≤ c := by
  obtain ⟨-, -, -, hwi, hri, hsum, -⟩ := Reachable_ranges hc hr
  exact ⟨hwi, hri, Nat.zero_le _, by omega, Nat.zero_le _, by omega⟩

/-- C15 at the state left by the wrapping call of the scenario: indices `2`
and `2` below the capacity `4`, counts `0` and `4`. -/
theorem C15_index_range_witness :
    example_port_3456.write_index < 4 ∧ example_port_3456.read_index < 4 ∧
    0 ≤ example_port_3456.num_write_elements_available ∧
    example_port_3456.num_write_elements_available ≤ 4 ∧
    0 ≤ example_port_3456.num_read_elements_available ∧
    example_port_3456.num_read_elements_available ≤ 4 :=
  C15_index_range 4 4 example_port_3456 (by decide)
    (Reachable.produce_available example_port_3 example_port_3456 (int32s [4, 5, 6]) 3 3
      (int32s [4, 5, 6]) false
      (Reachable.consume_available example_port_123 example_port_3 (List.replicate 8 0) 2 2
        (int32s [1, 2]) false
        (Reachable.produce_available fresh_4x4 example_port_123 (int32s [1, 2, 3]) 3 3
          (int32s [1, 2, 3]) false (Reachable.create zeroed fresh_4x4 (by decide))
          (by decide))
        (by decide))
      (by decide))

/-! ## C16: frame conditions -/

/-- C16 (frame conditions). In every state reachable from `gport2_create c size`:
a returning `gport2_produce_available` call that accepted `n` elements leaves the
capacity, the element size, the length of the storage and `read_index`
unchanged, and leaves every storage slot unchanged except the `n` slots
`(write_index + i) mod c`, `i < n`; in particular it leaves unchanged the slots
that hold the elements not yet consumed, which are the
`num_read_elements_available` slots that end at the write index (and, where the
indices are coherent, the slots `(read_index + j) mod c`).  A returning
`gport2_consume_available` call leaves the capacity, the element size,
`write_index` and the whole storage unchanged. -/
theorem C16_frame (c size : Nat) (p : gport2)
    (hc : c < UINT_MOD) (hr : Reachable c size p) :
    (∀ w nmax q n b s, gport2_produce_available p w nmax = .ret q n b s →
      q.n = p.n ∧ q.size = p.size ∧ q.v.length = p.v.length ∧
      q.read_index = p.read_index ∧
      (∀ t, (∀ i, i < n → t ≠ (p.write_index + i) % c) →
        slot size q.v t = slot size p.v t) ∧
      (∀ j, j < p.num_read_elements_available →
        slot size q.v ((p.write_index + p.num_write_elements_available + j) % c) =
          slot size p.v ((p.write_index + p.num_write_elements_available + j) % c)) ∧
      (Coherent p → ∀ j, j < p.num_read_elements_available →
        slot size q.v ((p.read_index + j) % c) = slot size p.v ((p.read_index + j) % c))) ∧
    (∀ r nmax q n b s, gport2_consume_available p r nmax = .ret q n b s →
      q.n = p.n ∧ q.size = p.size ∧ q.write_index = p.write_index ∧ q.v = p.v) := by
  obtain ⟨hwf | hns, hn, hs⟩ := Reachable_WF hc hr
  swap
  · constructor
    · intro w nmax q n b s h
      obtain ⟨-, -, -, rfl⟩ := NoStorage_produce_ret hns h
      exact ⟨rfl, rfl, rfl, rfl, fun _ _ => rfl, fun _ _ => rfl, fun _ _ _ => rfl⟩
    · intro r nmax q n b s h
      exact (NoStorage_consume_ret hns h).elim
  have hs0 : 0 < p.size := by rw [hs]; exact Reachable_size_pos hr
  constructor
  · intro w nmax q n b s h
    have hw := produce_available_ret_no_wrap hwf hs0 h
    obtain ⟨hq, hqn, hqs, hkle, -, -, hri⟩ := produce_available_ret_WF hwf h
    obtain ⟨-, -, -, hout⟩ := produce_available_ret_slots hwf h hw
    rw [hn, hs] at hout
    have hsum := hwf.2.2.2.2.2
    rw [hn] at hsum
    have hlen : q.v.length = p.v.length := by
      rw [hq.2.2.1, hwf.2.2.1, hqn, hqs]
    refine ⟨hqn, hqs, hlen, hri, hout, ?_, ?_⟩
    · intro j hj
      apply hout
      intro i hi
      rw [Nat.add_assoc]
      exact (add_mod_ne (by omega) (by omega)).symm
    · intro hcoh j hj
      apply hout
      intro i hi
      unfold Coherent at hcoh
      rw [hcoh, hn, Nat.mod_add_mod, Nat.add_assoc]
      exact add_mod_ne (by omega) (by omega)
  · intro r nmax q n b s h
    obtain ⟨-, hqn, hqs, -, -, -, hwi, hv⟩ := consume_available_ret_WF hwf h
    exact ⟨hqn, hqs, hwi, hv⟩

/-- C16 at the wrapping call of the scenario: producing `[4,5,6]` into the port
that holds the element `3` in slot 2 leaves slot 2 as it was. -/
theorem C16_frame_witness :
    slot 4 example_port_3456.v ((example_port_3.read_index + 0) % 4) =
      slot 4 example_port_3.v ((example_port_3.read_index + 0) % 4) :=
  ((C16_frame 4 4 example_port_3 (by decide) example_port_3_reachable).1
    (int32s [4, 5, 6]) 3 example_port_3456 3 (int32s [4, 5, 6]) false (by decide)).2.2.2.2.2.2
    (by unfold Coherent; decide) 0 (by decide)

/-! ## C17: index coherence invariant -/

/-- C17 (index coherence invariant). In every state reached from
`gport2_create c size` by gate calls whose index sums do not wrap in 32-bit
arithmetic (for any capacity `c < 2^32`), and in every reachable state at all
when `2 * c ≤ 2^32` (no index sum can wrap then),
`write_index = (read_index + num_read_elements_available) mod c` and
`read_index = (write_index + num_write_elements_available) mod c`; hence the two
indices are equal exactly when the port is empty
(`num_read_elements_available = 0`) or full (`num_read_elements_available = c`). -/
theorem C17_index_coherence (c size : Nat) (p : gport2)
    (hr : (c < UINT_MOD ∧ ReachableNoWrap c size p) ∨
      (c + c ≤ UINT_MOD ∧ Reachable c size p)) :
    p.write_index = (p.read_index + p.num_read_elements_available) % c ∧
    p.read_index = (p.write_index + p.num_write_elements_available) % c ∧
    (p.read_index = p.write_index ↔
      (p.num_read_elements_available = 0 ∨ p.num_read_elements_available = c)) := by
  have hc : c < UINT_MOD := by
    rcases hr with ⟨h, -⟩ | ⟨h, -⟩
    · exact h
    · cases hr0 : c with
      | zero => unfold UINT_MOD; omega
      | succ k => omega
  have hreach : Reachable c size p := by
    rcases hr with ⟨-, h⟩ | ⟨-, h⟩
    · exact Reachable_of_ReachableNoWrap h
    · exact h
  have hcoh : Coherent p := by
    rcases hr with ⟨-, h⟩ | ⟨hs, h⟩
    · exact ReachableNoWrap_Coherent hc h
    · exact Reachable_Coherent hs h
  obtain ⟨hn0, hn, -, hwi, hri, hsum, -⟩ := Reachable_ranges hc hreach
  unfold Coherent at hcoh
  rw [hn] at hcoh
  have e : p.read_index + p.num_read_elements_available + p.num_write_elements_available
      = p.read_index + c := by omega
  refine ⟨hcoh, ?_, ?_⟩
  · rw [hcoh, Nat.mod_add_mod, e, Nat.add_mod_right, Nat.mod_eq_of_lt hri]
  · rw [hcoh]
    constructor
    · intro h
      by_cases hlt : p.read_index + p.num_read_elements_available < c
      · rw [Nat.mod_eq_of_lt hlt] at h
        left; omega
      · rw [mod_wrap (by omega) (by omega)] at h
        right; omega
    · rintro (h | h)
      · rw [h, Nat.add_zero, Nat.mod_eq_of_lt hri]
      · rw [h, Nat.add_mod_right, Nat.mod_eq_of_lt hri]

/-- C17 at a state of the scenario with one element buffered: write index
`3 = (2 + 1) mod 4`, read index `2 = (3 + 3) mod 4`, and the indices differ, the
port being neither empty nor full. -/
theorem C17_index_coherence_witness :
    example_port_3.write_index =
      (example_port_3.read_index + example_port_3.num_read_elements_available) % 4 ∧
    example_port_3.read_index =
      (example_port_3.write_index + example_port_3.num_write_elements_available) % 4 ∧
    (example_port_3.read_index = example_port_3.write_index ↔
      (example_port_3.num_read_elements_available = 0 ∨
        example_port_3.num_read_elements_available = 4)) :=
  C17_index_coherence 4 4 example_port_3
    (Or.inl ⟨by decide,
      ReachableNoWrap.consume_available example_port_123 example_port_3 (List.replicate 8 0)
        2 2 (int32s [1, 2]) false
        (ReachableNoWrap.produce_available fresh_4x4 example_port_123 (int32s [1, 2, 3]) 3 3
          (int32s [1, 2, 3]) false (ReachableNoWrap.create zeroed fresh_4x4 (by decide))
          (by decide) (by decide))
        (by decide) (by decide)⟩)

/-! ## C18 -/

/-- C18 (iteration bound of the partial-transfer loops). For a count that is an
`unsigned int`:
every pass through the body of `gport2_produce` or `gport2_consume` whose gate
call returns lowers the remaining count by the count reported, at least one
and at most the remaining count (no underflow);
so with `count` passes allowed the loops end (never for want of passes) and a
returning loop made at most `count` gate calls, whatever other threads do to
the port between the calls (`env`), and in particular alone on the port;
with `count = 0` they return at once with no gate call and the port unchanged,
whatever its state;
and when `0 < count` is at most the available region size a returning loop
made exactly one gate call, and it does return when the caller's block holds
`count` elements (for the producer, when `write_index + count` does not wrap). -/
theorem C18_iteration_bound (env : Nat → gport2 → gport2) (p : gport2) (buf : List Nat)
    (count : Nat) (hcount : count < UINT_MOD) :
    (∀ p1 f q g k, 0 < f.remaining → f.remaining ≤ count →
      gport2_produce_body p1 f = .next q g k →
      1 ≤ k ∧ k ≤ f.remaining ∧ g.remaining = f.remaining - k) ∧
    (∀ p1 f q g k, 0 < f.remaining → f.remaining ≤ count →
      gport2_consume_body p1 f = .next q g k →
      1 ≤ k ∧ k ≤ f.remaining ∧ g.remaining = f.remaining - k) ∧
    (gport2_produce_loop_env env count p { buf := buf, total := 0, remaining := count } 0
        ≠ .fuel ∧
      ∀ q b calls,
        gport2_produce_loop_env env count p { buf := buf, total := 0, remaining := count } 0
          = .ret q b calls → calls ≤ count) ∧
    (gport2_consume_loop_env env count p { buf := buf, total := 0, remaining := count } 0
        ≠ .fuel ∧
      ∀ q b calls,
        gport2_consume_loop_env env count p { buf := buf, total := 0, remaining := count } 0
          = .ret q b calls → calls ≤ count) ∧
    (gport2_produce count p buf count ≠ .fuel ∧
      ∀ q b calls, gport2_produce count p buf count = .ret q b calls → calls ≤ count) ∧
    (gport2_consume count p buf count ≠ .fuel ∧
      ∀ q b calls, gport2_consume count p buf count = .ret q b calls → calls ≤ count) ∧
    (∀ fuel,
      gport2_produce fuel p buf 0 = .ret p buf 0 ∧
      gport2_consume fuel p buf 0 = .ret p buf 0 ∧
      gport2_produce_loop_env env fuel p { buf := buf, total := 0, remaining := 0 } 0
        = .ret p buf 0 ∧
      gport2_consume_loop_env env fuel p { buf := buf, total := 0, remaining := 0 } 0
        = .ret p buf 0) ∧
    (0 < count → count ≤ p.num_write_elements_available →
      (∀ fuel q b calls, gport2_produce fuel p buf count = .ret q b calls → calls = 1) ∧
      (WF p → count * p.size ≤ buf.length → p.write_index + count < UINT_MOD →
        ∀ fuel, ∃ q, gport2_produce (fuel + 1) p buf count = .ret q buf 1)) ∧
    (0 < count → count ≤ p.num_read_elements_available →
      (∀ fuel q b calls, gport2_consume fuel p buf count = .ret q b calls → calls = 1) ∧
      (WF p → count * p.size ≤ buf.length →
        ∀ fuel, ∃ q b, gport2_consume (fuel + 1) p buf count = .ret q b 1)) := by
  have hB1 := @gport2_produce_loop_env_bound env count p
    { buf := buf, total := 0, remaining := count } 0 (Nat.le_refl _) hcount
  have hB2 := @gport2_consume_loop_env_bound env count p
    { buf := buf, total := 0, remaining := count } 0 (Nat.le_refl _) hcount
  have hC1 := @gport2_produce_loop_env_bound (fun _ q => q) count p
    { buf := buf, total := 0, remaining := count } 0 (Nat.le_refl _) hcount
  have hC2 := @gport2_consume_loop_env_bound (fun _ q => q) count p
    { buf := buf, total := 0, remaining := count } 0 (Nat.le_refl _) hcount
  rw [← gport2_produce_loop_eq_env] at hC1
  rw [← gport2_consume_loop_eq_env] at hC2
  simp only [Nat.zero_add] at hB1 hB2 hC1 hC2
  refine ⟨?_, ?_, hB1, hB2, hC1, hC2, ?_, ?_, ?_⟩
  · intro p1 f q g k h1 h2 h3
    obtain ⟨a, b, c, -⟩ := gport2_produce_body_decreases h1 (by omega) h3
    exact ⟨a, b, c⟩
  · intro p1 f q g k h1 h2 h3
    exact gport2_consume_body_decreases h1 (by omega) h3
  · intro fuel
    refine ⟨gport2_produce_zero fuel p buf, gport2_consume_zero fuel p buf, ?_, ?_⟩
    · unfold gport2_produce_loop_env
      rw [if_neg (Nat.lt_irrefl 0)]
    · unfold gport2_consume_loop_env
      rw [if_neg (Nat.lt_irrefl 0)]
  · intro hpos hle
    refine ⟨fun fuel q b calls h => gport2_produce_one_call hpos hcount hle h, ?_⟩
    intro hwf hlen hw fuel
    have hmin : min count p.num_write_elements_available = count := Nat.min_eq_left hle
    obtain ⟨q, b, s, hq⟩ := @produce_available_returns p buf count hwf (by omega)
      (by rw [hmin]; exact hlen) (by rw [hmin]; exact hw)
    rw [hmin] at hq
    exact ⟨q, gport2_produce_single fuel hpos hcount hq⟩
  · intro hpos hle
    refine ⟨fun fuel q b calls h => gport2_consume_one_call hpos hcount hle h, ?_⟩
    intro hwf hlen fuel
    have hmin : min count p.num_read_elements_available = count := Nat.min_eq_left hle
    obtain ⟨q, b, s, hq⟩ := @consume_available_returns p buf count hwf (by omega)
      (by rw [hmin]; exact hlen)
    rw [hmin] at hq
    exact ⟨q, b, gport2_consume_single fuel hpos hcount hq⟩

/-- C18 on the fresh port of four elements: `gport2_produce` of three elements
returns after one gate call, within the bound of three. -/
theorem C18_iteration_bound_witness :
    gport2_produce 3 fresh_4x4 (int32s [1, 2, 3]) 3 =
      .ret example_port_123 (int32s [1, 2, 3]) 1 ∧ 1 ≤ 3 ∧ 1 = 1 :=
  have h := C18_iteration_bound (fun _ q => q) fresh_4x4 (int32s [1, 2, 3]) 3 (by decide)
  ⟨by decide,
   h.2.2.2.2.1.2 example_port_123 (int32s [1, 2, 3]) 1 (by decide),
   (h.2.2.2.2.2.2.2.1 (by decide) (by decide)).1 3 example_port_123 (int32s [1, 2, 3]) 1
     (by decide)⟩

end Liquid

